import Mathlib

/-!
# OEngine coding agent: scoring, selection, patching, reply parsing and job progress

A shallow embedding of `src/lib/ai.js`.

Modelling conventions.

* JavaScript strings are Lean `String`s; the string primitives used by the
  source (`includes`, `endsWith`, `toLowerCase`, `split`, `join`, `length`) are
  defined on the underlying character lists.  `length` counts UTF-16 code
  units, as the engine does.  `toLowerCase` maps the ASCII letters; the
  engine's mapping of other letters is not modelled.
* Scores are embedded twice.  `calculateFilePriority` adds exact rationals: the
  additive constants of the source (`0.4`, `0.3`, `0.2`, `0.15`, `0.1`, `0.05`)
  are the rationals they denote.  `calculateFilePriorityDouble` is the same
  function on IEEE doubles: each constant is the double nearest to the literal
  and each sum is rounded to the nearest double, ties to even.  Statements that
  turn on rounding are made about the second.
* `Array.prototype.sort` is stable (ECMAScript 2019); under a consistent
  comparator the result of a stable sort is unique, and it is defined here by
  insertion from the right.
* `JSON.parse` is a parameter (`JsonRuntime`); the objects it returns are seen
  through the typed fields that the code reads.  Where a statement is about
  which texts it accepts, the JSON grammar is embedded as a reader of the
  text (`jsonAccepts`).  Model calls and fetches are inputs: a rejected call
  carries its message.
* `Math.round` is `⌊x + 1/2⌋` on exact rationals.
* A run of a job is the list of its writes to the job record, in order, for a
  job store whose writes succeed.
-/

namespace OEngine

/-! ## String primitives -/

/-- JavaScript `String.prototype.includes` on character lists. -/
def includesChars : List Char → List Char → Bool
  | [], needle => needle.isEmpty
  | c :: cs, needle => needle.isPrefixOf (c :: cs) || includesChars cs needle

/-- JavaScript `haystack.includes(needle)`. -/
def includes (haystack needle : String) : Bool :=
  includesChars haystack.data needle.data

/-- JavaScript `s.endsWith(suffix)`. -/
def endsWith (s suffix : String) : Bool :=
  suffix.data.reverse.isPrefixOf s.data.reverse

/-- JavaScript `s.toLowerCase()` on ASCII letters. -/
def toLowerCase (s : String) : String :=
  String.mk (s.data.map Char.toLower)

/-- Number of UTF-16 code units of one character. -/
def utf16Units (c : Char) : Nat :=
  if c.toNat < 65536 then 1 else 2

/-- JavaScript `s.length`: the number of UTF-16 code units. -/
def jsLength (s : String) : Nat :=
  (s.data.map utf16Units).sum

/-- The characters after the last `/`: `s.split('/').pop()`. -/
def lastSegmentChars : List Char → List Char → List Char
  | acc, [] => acc.reverse
  | acc, c :: cs => if c = '/' then lastSegmentChars [] cs else lastSegmentChars (c :: acc) cs

/-- JavaScript `s.split('/').pop()`. -/
def lastPathSegment (s : String) : String :=
  String.mk (lastSegmentChars [] s.data)

/-- Character class `[A-Z]`. -/
def isUpperAZ (c : Char) : Bool :=
  decide (65 ≤ c.toNat) && decide (c.toNat ≤ 90)

/-- Character class `[a-z]`. -/
def isLowerAZ (c : Char) : Bool :=
  decide (97 ≤ c.toNat) && decide (c.toNat ≤ 122)

/-- Character class `[a-zA-Z]`. -/
def isLetterAZ (c : Char) : Bool :=
  isUpperAZ c || isLowerAZ c

/-- Character class `\w`, which decides the word boundary `\b`. -/
def isWordChar (c : Char) : Bool :=
  isLetterAZ c || (decide (48 ≤ c.toNat) && decide (c.toNat ≤ 57)) || decide (c = '_')

/-- All matches of `/[A-Z][a-zA-Z]+/g`, scanning left to right.  `cur` is the
token being read (reversed), if the scan is inside one. -/
def componentMatchesAux : Option (List Char) → List Char → List String
  | none, [] => []
  | some tok, [] => if 2 ≤ tok.length then [String.mk tok.reverse] else []
  | none, c :: cs =>
      if isUpperAZ c then componentMatchesAux (some [c]) cs else componentMatchesAux none cs
  | some tok, c :: cs =>
      if isLetterAZ c then componentMatchesAux (some (c :: tok)) cs
      else if 2 ≤ tok.length then String.mk tok.reverse :: componentMatchesAux none cs
      else componentMatchesAux none cs

/-- JavaScript `issueDescription.match(/[A-Z][a-zA-Z]+/g) || []`. -/
def componentMatches (issueDescription : String) : List String :=
  componentMatchesAux none issueDescription.data

/-- All matches of `/\b[a-z][a-zA-Z]+\(/g`, scanning left to right.  `prevWord`
says whether the previous character is a word character; `cur` is the run of
letters being read (reversed) when it started at a word boundary with `[a-z]`. -/
def functionMatchesAux : Bool → Option (List Char) → List Char → List String
  | _, _, [] => []
  | prevWord, none, c :: cs =>
      if isLowerAZ c && !prevWord then functionMatchesAux true (some [c]) cs
      else functionMatchesAux (isWordChar c) none cs
  | _, some tok, c :: cs =>
      if isLetterAZ c then functionMatchesAux true (some (c :: tok)) cs
      else if c = '(' && decide (2 ≤ tok.length) then
        String.mk (c :: tok).reverse :: functionMatchesAux false none cs
      else functionMatchesAux (isWordChar c) none cs

/-- JavaScript `issueDescription.match(/\b[a-z][a-zA-Z]+\(/g) || []`. -/
def functionMatches (issueDescription : String) : List String :=
  functionMatchesAux false none issueDescription.data

/-- JavaScript `match.replace('(', '')`: the first `(` is dropped. -/
def dropFirstParen (s : String) : String :=
  String.mk (s.data.erase '(')

/-! ## Scoring engine (`calculateFilePriority`, lines 81-375) -/

/-- The fields of a `FileReference` (typedef, lines 42-48).  `fileName` and
`summary` may be absent; `similarity` is the value of `file.similarity || 0`. -/
structure FileReference where
  fileName : Option String
  sourceCode : String
  summary : Option String
  similarity : ℚ
deriving DecidableEq

/-- Database generated files (lines 97-103). -/
def isDatabaseGenerated (filePath : String) : Bool :=
  includes filePath "migrations/" || includes filePath "_migrations/" ||
  includes filePath "schema.rb" || includes filePath "schema.sql" ||
  includes filePath "_gen.go" || includes filePath "_generated.go" ||
  includes filePath "models_gen.py" || includes filePath "_pb2.py" ||
  includes filePath "prisma/migrations/" || includes filePath "sequelize/migrations/" ||
  includes filePath "knex/migrations/" || includes filePath "typeorm/migration/" ||
  includes filePath "alembic/versions/" || includes filePath "flyway/sql/"

/-- Language-specific generated files and build output (lines 108-117). -/
def isLanguageGenerated (filePath : String) : Bool :=
  includes filePath "_generated/" || endsWith filePath ".d.ts" ||
  endsWith filePath "_pb.py" || endsWith filePath "_pb2.py" ||
  endsWith filePath ".pb.go" || endsWith filePath "_gen.go" ||
  endsWith filePath "_generated.rs" || endsWith filePath ".rs.in" ||
  includes filePath "target/debug/" || includes filePath "target/release/" ||
  includes filePath "__pycache__/" || endsWith filePath ".pyc" ||
  includes filePath "node_modules/" || includes filePath ".next/" ||
  includes filePath "dist/" || includes filePath "build/" ||
  includes filePath "cmake-build-" || endsWith filePath ".o" || endsWith filePath ".so" ||
  (includes filePath "vendor/" && includes filePath ".go")

/-- Documentation files (lines 126-131). -/
def isDocumentation (filePath : String) : Bool :=
  endsWith filePath "readme.md" || endsWith filePath "readme.txt" ||
  endsWith filePath "changelog.md" || endsWith filePath "changelog.txt" ||
  endsWith filePath "license" || endsWith filePath "license.md" ||
  endsWith filePath "contributing.md" || endsWith filePath "authors.md" ||
  (endsWith filePath ".md" && (includes filePath "docs/" || includes filePath "documentation/")) ||
  endsWith filePath "todo.md" || endsWith filePath "notes.md"

/-- JavaScript/Node.js configuration (lines 136-140). -/
def isJsConfig (filePath : String) : Bool :=
  endsWith filePath "package.json" || endsWith filePath "package-lock.json" ||
  endsWith filePath "yarn.lock" || endsWith filePath "pnpm-lock.yaml" ||
  endsWith filePath "tsconfig.json" || endsWith filePath ".eslintrc.js" ||
  endsWith filePath "webpack.config.js" || endsWith filePath "vite.config.js" ||
  endsWith filePath "next.config.js" || endsWith filePath "tailwind.config.js"

/-- Python configuration (lines 145-148). -/
def isPythonConfig (filePath : String) : Bool :=
  endsWith filePath "requirements.txt" || endsWith filePath "pyproject.toml" ||
  endsWith filePath "setup.py" || endsWith filePath "setup.cfg" ||
  endsWith filePath "pipfile" || endsWith filePath "pipfile.lock" ||
  endsWith filePath "poetry.lock" || endsWith filePath "conda.yaml"

/-- Go module files (lines 153-154). -/
def isGoConfig (filePath : String) : Bool :=
  endsWith filePath "go.mod" || endsWith filePath "go.sum" ||
  endsWith filePath "go.work" || endsWith filePath "go.work.sum"

/-- Rust configuration (line 159). -/
def isRustConfig (filePath : String) : Bool :=
  endsWith filePath "cargo.toml" || endsWith filePath "cargo.lock"

/-- C++ build configuration (lines 164-166). -/
def isCppConfig (filePath : String) : Bool :=
  endsWith filePath "cmakelists.txt" || endsWith filePath "makefile" ||
  endsWith filePath ".cmake" || endsWith filePath "conanfile.txt" ||
  endsWith filePath "vcpkg.json"

/-- Test files (lines 174-179). -/
def isTestFile (filePath : String) : Bool :=
  includes filePath ".test." || includes filePath ".spec." ||
  includes filePath "__tests__/" || includes filePath "/tests/" ||
  includes filePath "/test/" || includes filePath "_test.go" ||
  includes filePath "_test.py" || endsWith filePath "_test.rs" ||
  includes filePath "test_" || endsWith filePath "_unittest.cpp" ||
  includes filePath "spec/" || includes filePath "testing/"

/-- JavaScript/Node.js/React main files (lines 188-191). -/
def isJsMain (filePath : String) : Bool :=
  includes filePath "page.tsx" || includes filePath "index.tsx" ||
  includes filePath "layout.tsx" || includes filePath "app.tsx" ||
  includes filePath "main.js" || includes filePath "index.js" ||
  includes filePath "server.js" || includes filePath "app.js"

/-- Python main files (lines 196-199). -/
def isPythonMain (filePath : String) : Bool :=
  endsWith filePath "main.py" || endsWith filePath "__init__.py" ||
  endsWith filePath "app.py" || endsWith filePath "server.py" ||
  endsWith filePath "manage.py" || includes filePath "wsgi.py" ||
  includes filePath "asgi.py"

/-- Go main files (lines 204-205). -/
def isGoMain (filePath : String) : Bool :=
  endsWith filePath "main.go" || endsWith filePath "server.go" ||
  endsWith filePath "app.go" || endsWith filePath "cmd.go"

/-- Rust main files (lines 210-211). -/
def isRustMain (filePath : String) : Bool :=
  endsWith filePath "main.rs" || endsWith filePath "lib.rs" ||
  endsWith filePath "mod.rs"

/-- C++ main files (lines 216-217). -/
def isCppMain (filePath : String) : Bool :=
  endsWith filePath "main.cpp" || endsWith filePath "main.cc" ||
  endsWith filePath "main.c" || endsWith filePath "app.cpp"

/-- React/frontend components (lines 226-227). -/
def isFrontendComponent (filePath : String) : Bool :=
  endsWith filePath ".tsx" || endsWith filePath ".jsx" ||
  includes filePath "/components/" || includes filePath "/ui/"

/-- Python business-logic modules (lines 232-234). -/
def isPythonModule (filePath : String) : Bool :=
  endsWith filePath ".py" && !includes filePath "test" &&
  (includes filePath "/models/" || includes filePath "/views/" ||
   includes filePath "/controllers/" || includes filePath "/services/")

/-- Go packages (lines 239-241). -/
def isGoPackage (filePath : String) : Bool :=
  endsWith filePath ".go" && !includes filePath "test" &&
  (includes filePath "/pkg/" || includes filePath "/internal/" ||
   includes filePath "/cmd/" || includes filePath "/api/")

/-- JavaScript/Node.js API files (lines 250-252). -/
def isJsApi (filePath : String) : Bool :=
  includes filePath "/api/" || includes filePath "route.ts" ||
  includes filePath "server.ts" || includes filePath "middleware.ts" ||
  includes filePath "handler.js" || includes filePath "controller.js"

/-- Python API files (lines 257-259). -/
def isPythonApi (filePath : String) : Bool :=
  includes filePath "views.py" || includes filePath "urls.py" ||
  includes filePath "api.py" || includes filePath "routes.py" ||
  includes filePath "handlers.py" || includes filePath "endpoints.py"

/-- Go API files (lines 264-266). -/
def isGoApi (filePath : String) : Bool :=
  includes filePath "handler.go" || includes filePath "router.go" ||
  includes filePath "controller.go" || includes filePath "middleware.go" ||
  includes filePath "/api/" || includes filePath "/handlers/"

/-- Rust web files (lines 271-272). -/
def isRustWeb (filePath : String) : Bool :=
  includes filePath "handler.rs" || includes filePath "router.rs" ||
  includes filePath "controller.rs" || includes filePath "/api/"

/-- The file's base name is mentioned in the issue (lines 277-278). -/
def isNameMentioned (fileName issueText : String) : Bool :=
  let baseName := lastPathSegment fileName
  decide (baseName ≠ "") && includes issueText (toLowerCase baseName)

/-- One extracted identifier occurs in the path or the summary (lines 287-288). -/
def isMatchMentioned (filePath : String) (summary : Option String) (m : String) : Bool :=
  let cleanMatch := toLowerCase (dropFirstParen m)
  includes filePath cleanMatch ||
  (match summary with
   | some text => includes (toLowerCase text) cleanMatch
   | none => false)

/-- Frontend/UI context (lines 298-299). -/
def isFrontendContext (issueText filePath : String) : Bool :=
  (includes issueText "component" || includes issueText "ui" || includes issueText "frontend") &&
  (includes filePath "/components/" || includes filePath "/ui/" || includes filePath "/widgets/")

/-- API/backend context (lines 304-306). -/
def isApiContext (issueText filePath : String) : Bool :=
  (includes issueText "api" || includes issueText "endpoint" || includes issueText "server" ||
   includes issueText "backend") &&
  (includes filePath "/api/" || includes filePath "/handlers/" || includes filePath "/controllers/" ||
   includes filePath "/routes/" || includes filePath "/endpoints/" || includes filePath "/views/")

/-- Database/model context (lines 311-313). -/
def isDatabaseContext (issueText filePath : String) : Bool :=
  (includes issueText "database" || includes issueText "model" || includes issueText "schema" ||
   includes issueText "query") &&
  (includes filePath "/models/" || includes filePath "/schemas/" || includes filePath "/db/" ||
   includes filePath "/database/" || includes filePath "/entities/" || includes filePath "/repository/")

/-- Service/business-logic context (lines 318-320). -/
def isServiceContext (issueText filePath : String) : Bool :=
  (includes issueText "service" || includes issueText "business" || includes issueText "logic" ||
   includes issueText "utility") &&
  (includes filePath "/services/" || includes filePath "/utils/" || includes filePath "/helpers/" ||
   includes filePath "/lib/" || includes filePath "/core/" || includes filePath "/pkg/")

/-- Authentication/security context (lines 325-327). -/
def isAuthContext (issueText filePath : String) : Bool :=
  (includes issueText "auth" || includes issueText "login" || includes issueText "security" ||
   includes issueText "jwt") &&
  (includes filePath "/auth/" || includes filePath "/security/" || includes filePath "/middleware/" ||
   includes filePath "auth." || includes filePath "jwt." || includes filePath "login.")

/-- Configuration/settings context (lines 332-334). -/
def isConfigContext (issueText filePath : String) : Bool :=
  (includes issueText "config" || includes issueText "setting" || includes issueText "environment") &&
  (includes filePath "/config/" || includes filePath "/settings/" || includes filePath "/env/" ||
   includes filePath ".config." || includes filePath ".env")

/-- Testing context (lines 339-341). -/
def isTestContext (issueText filePath : String) : Bool :=
  (includes issueText "test" || includes issueText "testing" || includes issueText "spec") &&
  (includes filePath "/test/" || includes filePath "/tests/" || includes filePath "/__tests__/" ||
   includes filePath ".test." || includes filePath ".spec.")

/-- Django/Flask pattern (lines 347-348). -/
def isDjangoPattern (issueText filePath : String) : Bool :=
  (includes issueText "django" || includes issueText "flask") &&
  (includes filePath "views.py" || includes filePath "urls.py" || includes filePath "models.py")

/-- Go pattern (lines 354-355). -/
def isGoPattern (issueText filePath : String) : Bool :=
  (includes issueText "goroutine" || includes issueText "channel" || includes issueText "go func") &&
  endsWith filePath ".go"

/-- Rust pattern (lines 361-362). -/
def isRustPattern (issueText filePath : String) : Bool :=
  (includes issueText "cargo" || includes issueText "crate" || includes issueText "rust") &&
  endsWith filePath ".rs"

/-- C++ pattern (lines 368-369). -/
def isCppPattern (issueText filePath : String) : Bool :=
  (includes issueText "cmake" || includes issueText "makefile" || includes issueText "gcc" ||
   includes issueText "clang") &&
  (endsWith filePath ".cpp" || endsWith filePath ".cc" || endsWith filePath ".c" ||
   endsWith filePath ".h" || endsWith filePath ".hpp")

/-- One conditional adjustment `if (cond) score += delta`. -/
def adjust (cond : Bool) (delta : ℚ) (score : ℚ) : ℚ :=
  if cond then score + delta else score

/-- The loop of lines 286-291 over the extracted identifiers. -/
def matchBoosts (filePath : String) (summary : Option String) (found : List String)
    (score : ℚ) : ℚ :=
  found.foldl (fun acc m => adjust (isMatchMentioned filePath summary m) 0.2 acc) score

/-- The score before the final clamp, for a file whose name is `fileName`
(lines 89-372). -/
def rawScore (fileName : String) (summary : Option String) (similarity : ℚ)
    (issueDescription : String) : ℚ :=
  let filePath := toLowerCase fileName
  let issueText := toLowerCase issueDescription
  let score := similarity
  let score := adjust (isDatabaseGenerated filePath) (-0.4) score
  let score := adjust (isLanguageGenerated filePath) (-0.3) score
  let score := adjust (isDocumentation filePath) (-0.3) score
  let score := adjust (isJsConfig filePath) (-0.2) score
  let score := adjust (isPythonConfig filePath) (-0.2) score
  let score := adjust (isGoConfig filePath) (-0.2) score
  let score := adjust (isRustConfig filePath) (-0.2) score
  let score := adjust (isCppConfig filePath) (-0.2) score
  let score := adjust (isTestFile filePath) (-0.1) score
  let score := adjust (isJsMain filePath) 0.2 score
  let score := adjust (isPythonMain filePath) 0.2 score
  let score := adjust (isGoMain filePath) 0.2 score
  let score := adjust (isRustMain filePath) 0.2 score
  let score := adjust (isCppMain filePath) 0.2 score
  let score := adjust (isFrontendComponent filePath) 0.1 score
  let score := adjust (isPythonModule filePath) 0.1 score
  let score := adjust (isGoPackage filePath) 0.1 score
  let score := adjust (isJsApi filePath) 0.15 score
  let score := adjust (isPythonApi filePath) 0.15 score
  let score := adjust (isGoApi filePath) 0.15 score
  let score := adjust (isRustWeb filePath) 0.15 score
  let score := adjust (isNameMentioned fileName issueText) 0.3 score
  let score := matchBoosts filePath summary
    (componentMatches issueDescription ++ functionMatches issueDescription) score
  let score := adjust (isFrontendContext issueText filePath) 0.1 score
  let score := adjust (isApiContext issueText filePath) 0.1 score
  let score := adjust (isDatabaseContext issueText filePath) 0.1 score
  let score := adjust (isServiceContext issueText filePath) 0.1 score
  let score := adjust (isAuthContext issueText filePath) 0.15 score
  let score := adjust (isConfigContext issueText filePath) 0.05 score
  let score := adjust (isTestContext issueText filePath) 0.05 score
  let score := adjust (isDjangoPattern issueText filePath) 0.1 score
  let score := adjust (isGoPattern issueText filePath) 0.1 score
  let score := adjust (isRustPattern issueText filePath) 0.1 score
  let score := adjust (isCppPattern issueText filePath) 0.1 score
  score

/-- Embedding of `calculateFilePriority(file, issueDescription)` (lines 81-375): a file
without a name (absent or empty, `!file.fileName`) gets its base score back;
otherwise the adjusted score is clamped by `Math.max(0, score)`. -/
def calculateFilePriority (file : FileReference) (issueDescription : String) : ℚ :=
  match file.fileName with
  | none => file.similarity
  | some fileName =>
      if fileName = "" then file.similarity
      else max 0 (rawScore fileName file.summary file.similarity issueDescription)

/-- Embedding of `getSmartFileLimit(issueDescription)` (lines 382-388). -/
def getSmartFileLimit (issueDescription : String) : Nat :=
  let complexity := jsLength issueDescription
  if complexity < 100 then 3
  else if complexity < 300 then 4
  else 5

/-! ## Stable descending sort (`Array.prototype.sort` with `(a, b) => key(b) - key(a)`) -/

/-- Insert `a`, which stood before every element of the sorted list, keeping
it in front of the elements whose key is not larger. -/
def insertDesc {α κ : Type} [LinearOrder κ] (key : α → κ) (a : α) : List α → List α
  | [] => [a]
  | b :: l => if key b ≤ key a then a :: b :: l else b :: insertDesc key a l

/-- Stable sort by descending key. -/
def sortDesc {α κ : Type} [LinearOrder κ] (key : α → κ) (l : List α) : List α :=
  l.foldr (insertDesc key) []

/-! ## File selector (`prioritizeFiles`, lines 396-415; `processFixJob`, lines 437-442) -/

/-- A file with its derived score: `{...file, priorityScore}`. -/
structure PrioritizedFile where
  file : FileReference
  priorityScore : ℚ
deriving DecidableEq

/-- The `map` of lines 399-402. -/
def scoreFiles (files : List FileReference) (issueDescription : String) : List PrioritizedFile :=
  files.map fun file => { file := file, priorityScore := calculateFilePriority file issueDescription }

/-- Embedding of `prioritizeFiles(files, issueDescription)`: score, then sort by
`b.priorityScore - a.priorityScore`. -/
def prioritizeFiles (files : List FileReference) (issueDescription : String) :
    List PrioritizedFile :=
  sortDesc PrioritizedFile.priorityScore (scoreFiles files issueDescription)

/-- The files a fix job processes:
`prioritizeFiles(files, question).slice(0, getSmartFileLimit(question))`. -/
def filesToProcess (files : List FileReference) (question : String) : List PrioritizedFile :=
  (prioritizeFiles files question).take (getSmartFileLimit question)

/-! ## Patch applier and fix generator (`generateFileFix`, lines 525-711) -/

/-- One entry of `lineChanges` (typedef, line 72).  Line numbers are integers;
`originalLine` and `newLine` may be absent. -/
structure LineChange where
  lineNumber : Int
  action : String
  originalLine : Option String
  newLine : Option String
deriving DecidableEq

/-- JavaScript `text.split('\n')`. -/
def splitLines (text : String) : List String :=
  (text.data.splitOn '\n').map String.mk

/-- JavaScript `lines.join('\n')`. -/
def joinLines (lines : List String) : String :=
  String.mk (['\n'].intercalate (lines.map String.data))

/-- The text stored for `change.newLine`: an absent `newLine` is stored as
`undefined`, which `join` renders as the empty string. -/
def newLineText (change : LineChange) : String :=
  change.newLine.getD ""

/-- The body of the loop of lines 665-684 for one change. -/
def applyChange (fixedLines : List String) (change : LineChange) : List String :=
  let lineIndex : Int := change.lineNumber - 1
  if change.action = "remove" then
    if 0 ≤ lineIndex ∧ lineIndex < fixedLines.length then
      fixedLines.eraseIdx lineIndex.toNat
    else fixedLines
  else if change.action = "replace" then
    if 0 ≤ lineIndex ∧ lineIndex < fixedLines.length then
      fixedLines.set lineIndex.toNat (newLineText change)
    else fixedLines
  else if change.action = "add" then
    if 0 ≤ lineIndex ∧ lineIndex ≤ fixedLines.length then
      fixedLines.take (lineIndex.toNat + 1) ++ newLineText change ::
        fixedLines.drop (lineIndex.toNat + 1)
    else fixedLines
  else fixedLines

/-- The message of the `TypeError` raised by reading a property of `null`. -/
def nullReadMessage : String :=
  "Cannot read properties of null (reading 'lineNumber')"

/-- JavaScript `entry.lineNumber` as read by the comparator; a `null` entry never gets
here, because reading it raises. -/
def lineNumberOf : Option LineChange → Int
  | some change => change.lineNumber
  | none => 0

/-- The sort of line 662.  The comparator reads `lineNumber` of both arguments,
so with two or more entries a `null` entry raises; with fewer entries the
comparator is not called. -/
def sortLineChanges (lineChanges : List (Option LineChange)) :
    Except String (List (Option LineChange)) :=
  if 2 ≤ lineChanges.length ∧ none ∈ lineChanges then .error nullReadMessage
  else .ok (sortDesc lineNumberOf lineChanges)

/-- One iteration of the loop of lines 665-684: reading `change.lineNumber`
of a `null` entry raises. -/
def applyEntry (fixedLines : List String) : Option LineChange → Except String (List String)
  | some change => .ok (applyChange fixedLines change)
  | none => .error nullReadMessage

/-- The loop of lines 665-684. -/
def applyEntries : List String → List (Option LineChange) → Except String (List String)
  | fixedLines, [] => .ok fixedLines
  | fixedLines, entry :: rest =>
      match applyEntry fixedLines entry with
      | .ok next => applyEntries next rest
      | .error message => .error message

/-- The `try` block of lines 656-687: split, sort, apply, join.  The result is
the fixed text with the sorted changes (the sort is in place), or the message
of the error raised. -/
def applyLineChanges (sourceCode : String) (lineChanges : List (Option LineChange)) :
    Except String (String × List (Option LineChange)) :=
  let originalLines := splitLines sourceCode
  match sortLineChanges lineChanges with
  | .error message => .error message
  | .ok sortedChanges =>
      match applyEntries originalLines sortedChanges with
      | .error message => .error message
      | .ok fixedLines => .ok (joinLines fixedLines, sortedChanges)

/-- The object held by `fixData` at line 645, seen through the fields that
`generateFileFix` reads.  A field is absent (`none`) or has its documented
type; `lineChanges` and `changes` are `none` when they are not arrays, and an
entry of `lineChanges` is `none` when it is `null`. -/
structure FixData where
  needsFix : Option Bool
  explanation : Option String
  changes : Option (List String)
  lineChanges : Option (List (Option LineChange))
deriving DecidableEq

/-- A `FixResult` (typedef, lines 66-73). -/
structure FixResult where
  needsFix : Bool
  fixedCode : Option String
  explanation : String
  changes : List String
  lineChanges : List (Option LineChange)
deriving DecidableEq

/-- What the model call and the extraction strategies of lines 590-631 leave
behind: the call failed with a message, no JSON object was found (`fixData`
is still `null` at line 634), or `fixData` holds an object. -/
inductive ModelReply where
  | failed (message : String)
  | unparseable
  | parsed (fixData : FixData)
deriving DecidableEq

/-- JavaScript `String(fixData.explanation || 'No explanation provided')`. -/
def explanationOf (fixData : FixData) : String :=
  match fixData.explanation with
  | some text => if text = "" then "No explanation provided" else text
  | none => "No explanation provided"

/-- The sanitized structure of lines 646-652. -/
def sanitizeFix (fixData : FixData) : FixResult :=
  { needsFix := fixData.needsFix.getD false
    fixedCode := none
    explanation := explanationOf fixData
    changes := fixData.changes.getD []
    lineChanges := fixData.lineChanges.getD [] }

/-- Embedding of `generateFileFix(file, question, summary)` from the model's reply on
(lines 587-710).  The prompt only feeds the model, whose reply is an input
here. -/
def generateFileFix (file : FileReference) (reply : ModelReply) : FixResult :=
  match reply with
  | .failed message =>
      { needsFix := false, fixedCode := none
        explanation := "Error generating fix: " ++ message
        changes := [], lineChanges := [] }
  | .unparseable =>
      { needsFix := false, fixedCode := none
        explanation := "Could not parse AI response - file may not need fixes"
        changes := [], lineChanges := [] }
  | .parsed fixData =>
      let sanitizedFix := sanitizeFix fixData
      if sanitizedFix.needsFix ∧ 0 < sanitizedFix.lineChanges.length then
        match applyLineChanges file.sourceCode sanitizedFix.lineChanges with
        | .ok (fixedCode, sortedChanges) =>
            { sanitizedFix with fixedCode := some fixedCode, lineChanges := sortedChanges }
        | .error message =>
            { sanitizedFix with
              needsFix := false
              fixedCode := none
              explanation := sanitizedFix.explanation ++
                " (Error applying changes: " ++ message ++ ")" }
      else sanitizedFix

/-- The reply object `{needsFix: true, lineChanges: [{lineNumber: k, action:
"remove", originalLine}]}`, as parsed. -/
def removeLineReply (k : Nat) (originalLine : Option String) : ModelReply :=
  .parsed
    { needsFix := some true
      explanation := none
      changes := none
      lineChanges := some [some
        { lineNumber := k, action := "remove", originalLine := originalLine, newLine := none }] }

/-- A file of ten lines. -/
def tenLineFile : FileReference :=
  { fileName := some "src/app.ts"
    sourceCode := "import a;\nimport b;\nimport c;\nimport d;\nimport unused;\nconst x = a;\nconst y = b;\nconst z = c;\nconst w = d;\nexport default x;"
    summary := none
    similarity := 1/2 }

/-- A reply object asking for a fix whose second line change is `null`. -/
def nullEntryFixData : FixData :=
  { needsFix := some true
    explanation := some "remove the unused import"
    changes := some ["removed import"]
    lineChanges := some [some
      { lineNumber := 5, action := "remove", originalLine := some "import unused;",
        newLine := none }, none] }

/-- The issue text of the scoring scenario. -/
def jwtIssue : String := "fix JWT expiration bug in login"

/-- Seven candidate files. -/
def sevenFiles : List FileReference :=
  [ ⟨some "README.md", "", none, 1/2⟩, ⟨some "src/auth/login.ts", "", none, 1/2⟩,
    ⟨some "src/index.js", "", none, 1/4⟩, ⟨some "package.json", "", none, 3/4⟩,
    ⟨some "src/api/users.ts", "", none, 1/4⟩, ⟨some "src/utils/date.ts", "", none, 1/8⟩,
    ⟨some "tests/login.test.ts", "", none, 1/2⟩ ]

/-! ## Response parser and repairer (lines 599-643, 717-849) -/

/-- JavaScript white space and line terminators: the class `\s`, which is
also what `trim` strips. -/
def isJsWhitespace (c : Char) : Bool :=
  let n := c.toNat
  decide (n = 9) || decide (n = 10) || decide (n = 11) || decide (n = 12) || decide (n = 13) ||
  decide (n = 32) || decide (n = 160) || decide (n = 5760) ||
  (decide (8192 ≤ n) && decide (n ≤ 8202)) ||
  decide (n = 8232) || decide (n = 8233) || decide (n = 8239) || decide (n = 8287) ||
  decide (n = 12288) || decide (n = 65279)

/-- JavaScript `s.trim()`. -/
def jsTrim (s : String) : String :=
  String.mk ((s.data.dropWhile isJsWhitespace).reverse.dropWhile isJsWhitespace).reverse

/-- The match of `/\{[\s\S]*\}/` (line 606): from the first opening brace to
the last closing brace after it, if there is one. -/
def matchJsonObject (s : String) : Option String :=
  let fromBrace := s.data.dropWhile (fun c => c != '\x7b')
  let upToBrace := (fromBrace.reverse.dropWhile (fun c => c != '\x7d')).reverse
  if 2 ≤ upToBrace.length then some (String.mk upToBrace) else none

/-- The variables of the scan of lines 723-752. -/
structure ScanState where
  braceCount : Int
  bracketCount : Int
  inString : Bool
  escaped : Bool
deriving DecidableEq

/-- One iteration of the loop of lines 728-752. -/
def scanStep (st : ScanState) (char : Char) : ScanState :=
  if st.escaped then { st with escaped := false }
  else if char = '\\' then { st with escaped := true }
  else if char = '"' then { st with inString := !st.inString }
  else if !st.inString then
    let st := if char = '\x7b' then { st with braceCount := st.braceCount + 1 } else st
    let st := if char = '\x7d' then { st with braceCount := st.braceCount - 1 } else st
    let st := if char = '[' then { st with bracketCount := st.bracketCount + 1 } else st
    let st := if char = ']' then { st with bracketCount := st.bracketCount - 1 } else st
    st
  else st

/-- The scan of lines 723-752 over a whole string. -/
def scanJson (s : String) : ScanState :=
  s.data.foldl scanStep { braceCount := 0, bracketCount := 0, inString := false, escaped := false }

/-- Embedding of `repairTruncatedJson(jsonString)` (lines 717-772): close an
open string literal, then append the missing `]` and the missing closing
braces. -/
def repairTruncatedJson (jsonString : String) : String :=
  let st := scanJson jsonString
  let repaired := jsonString.data
  let repaired := if st.inString then repaired ++ ['"'] else repaired
  let repaired := repaired ++ List.replicate st.bracketCount.toNat ']'
  let repaired := repaired ++ List.replicate st.braceCount.toNat '\x7d'
  String.mk repaired

/-- The first position, scanning left to right, at which a pattern matches:
`probe` is given the text from that position on. -/
def firstMatch {α : Type} (probe : List Char → Option α) : List Char → Option α
  | [] => probe []
  | c :: cs =>
      match probe (c :: cs) with
      | some found => some found
      | none => firstMatch probe cs

/-- Strip a literal prefix, comparing ASCII letters without case when
`ignoreCase` is set (the `i` flag). -/
def stripLiteral (ignoreCase : Bool) : List Char → List Char → Option (List Char)
  | [], text => some text
  | _ :: _, [] => none
  | p :: ps, c :: cs =>
      if (if ignoreCase then p.toLower == c.toLower else p == c) then
        stripLiteral ignoreCase ps cs
      else none

/-- The probe `"needsFix":\s*(true|false)` with the `i` flag at one position
(line 788); the value is `needsFixMatch[1].toLowerCase() === 'true'`. -/
def needsFixProbe (text : List Char) : Option Bool :=
  match stripLiteral true "\"needsFix\":".data text with
  | none => none
  | some rest =>
      let value := rest.dropWhile isJsWhitespace
      match stripLiteral true "true".data value with
      | some _ => some true
      | none =>
          match stripLiteral true "false".data value with
          | some _ => some false
          | none => none

/-- The capture of `"([^"]*(?:\\.[^"]*)*)"` once the opening quote is read:
the greedy `[^"]*` stops at the next quote, where the closing quote matches,
so the capture is the text before that quote; without a later quote there is
no match. -/
def quotedCapture (afterQuote : List Char) : Option (List Char) :=
  let capture := afterQuote.takeWhile (fun c => c != '"')
  match afterQuote.dropWhile (fun c => c != '"') with
  | [] => none
  | _ :: _ => some capture

/-- JavaScript `s.replace(/\\"/g, '"')`: every backslash followed by a quote
becomes a quote. -/
def unescapeQuotes : List Char → List Char
  | [] => []
  | [c] => [c]
  | c :: d :: cs =>
      if c = '\\' ∧ d = '"' then '"' :: unescapeQuotes cs
      else c :: unescapeQuotes (d :: cs)
/-- The probe `"explanation":\s*"([^"]*(?:\\.[^"]*)*)"` at one position
(line 795). -/
def explanationProbe (text : List Char) : Option (List Char) :=
  match stripLiteral false "\"explanation\":".data text with
  | none => none
  | some rest =>
      match rest.dropWhile isJsWhitespace with
      | [] => none
      | c :: afterQuote => if c = '"' then quotedCapture afterQuote else none

/-- The probe `"changes":\s*\[([^\]]*)\]` at one position (line 802): the
capture is the text before the next `]`. -/
def changesProbe (text : List Char) : Option (List Char) :=
  match stripLiteral false "\"changes\":".data text with
  | none => none
  | some rest =>
      match rest.dropWhile isJsWhitespace with
      | [] => none
      | c :: afterBracket =>
          if c = '[' then
            match afterBracket.dropWhile (fun c => c != ']') with
            | [] => none
            | _ :: _ => some (afterBracket.takeWhile (fun c => c != ']'))
          else none

/-- All matches of `/"([^"]*(?:\\.[^"]*)*)"/g` (line 811), each without its
quotes and with `\"` unescaped (line 814).  `cur` is the run being read,
reversed, when the scan is inside quotes. -/
def quotedRunsAux : Option (List Char) → List Char → List String
  | _, [] => []
  | none, c :: cs => if c = '"' then quotedRunsAux (some []) cs else quotedRunsAux none cs
  | some run, c :: cs =>
      if c = '"' then String.mk (unescapeQuotes run.reverse) :: quotedRunsAux none cs
      else quotedRunsAux (some (c :: run)) cs

/-- What `JSON.parse` does, seen through the values this code reads: the
object of a fix reply, and an array of change descriptions.  `none` stands for
a raised `SyntaxError`. -/
structure JsonRuntime where
  parseObject : String → Option FixData
  parseArray : String → Option (List String)

/-- The `changes` of lines 802-817: the parsed array, else the quoted runs of
the capture, else the initial empty list. -/
def extractChanges (rt : JsonRuntime) (responseText : String) : List String :=
  match firstMatch changesProbe responseText.data with
  | none => []
  | some capture =>
      match rt.parseArray (String.mk ('[' :: capture ++ [']'])) with
      | some parsedChanges => parsedChanges
      | none => quotedRunsAux none capture

/-- Embedding of `extractPartialFixData(responseText)` (lines 778-849), seen
through the fields `generateFileFix` reads: the extracted object has no
`lineChanges`, and its `fixedCode` is never read. -/
def extractPartialFixData (rt : JsonRuntime) (responseText : String) : FixData :=
  { needsFix := some ((firstMatch needsFixProbe responseText.data).getD false)
    explanation := some
      (match firstMatch explanationProbe responseText.data with
       | some capture => String.mk (unescapeQuotes capture)
       | none => "Partial data extraction used due to malformed JSON")
    changes := some (extractChanges rt responseText)
    lineChanges := none }

/-- The value of `fixData` at line 634, after the three strategies of lines
599-631: strict parse of the matched object, parse of the repaired match,
field-level extraction. -/
def parseFixReply (rt : JsonRuntime) (text : String) : Option FixData :=
  let cleanedResponse := jsTrim text
  match matchJsonObject cleanedResponse with
  | none => none
  | some jsonMatch =>
      match rt.parseObject jsonMatch with
      | some fixData => some fixData
      | none =>
          match rt.parseObject (repairTruncatedJson jsonMatch) with
          | some fixData => some fixData
          | none => some (extractPartialFixData rt cleanedResponse)

/-- What lines 590-631 leave behind for a model call that rejected with a
message or answered with a text. -/
def classifyResponse (rt : JsonRuntime) : Except String String → ModelReply
  | .error message => .failed message
  | .ok text =>
      match parseFixReply rt text with
      | none => .unparseable
      | some fixData => .parsed fixData

/-- The parse-and-sanitize stage (lines 599-652): the early return of lines
634-643 when nothing could be extracted, else the sanitized structure. -/
def parseAndSanitize (rt : JsonRuntime) (text : String) : FixResult :=
  match parseFixReply rt text with
  | none =>
      { needsFix := false, fixedCode := none
        explanation := "Could not parse AI response - file may not need fixes"
        changes := [], lineChanges := [] }
  | some fixData => sanitizeFix fixData

/-- Embedding of `generateFileFix(file, question, summary)` from the outcome
of the model call on. -/
def generateFileFixFromResponse (rt : JsonRuntime) (file : FileReference)
    (response : Except String String) : FixResult :=
  generateFileFix file (classifyResponse rt response)

/-- A runtime whose `JSON.parse` accepts the empty object only. -/
def emptyObjectRuntime : JsonRuntime :=
  { parseObject := fun s =>
      if s = "\x7b\x7d" then
        some { needsFix := none, explanation := none, changes := none, lineChanges := none }
      else none
    parseArray := fun _ => none }

/-! ## Orchestration planner and job runner (lines 422-516, 856-1081, 1217-1365, 1978-2185) -/

/-- JavaScript `Math.round(x)`: the integer nearest to `x`, halves rounded up. -/
def mathRound (x : ℚ) : Int :=
  ⌊x + 1/2⌋

/-- JavaScript `s || fallback` for a string that may be absent: the empty string is falsy. -/
def orString (s : Option String) (fallback : String) : String :=
  match s with
  | some text => if text = "" then fallback else text
  | none => fallback

/-- One entry of `plan.newFiles` (typedef, line 1100). -/
structure NewFileSpec where
  path : String
  type : String
  description : String
  priority : String
deriving DecidableEq

/-- One entry of `plan.modifiedFiles` (typedef, line 1101). -/
structure FileModification where
  path : String
  reason : String
  changes : Option (List String)
deriving DecidableEq

/-- One package of a dependency update (typedef, line 1102). -/
structure PackageUpdate where
  name : String
  version : String
  reason : Option String
deriving DecidableEq

/-- One entry of `plan.dependencyUpdates` (typedef, line 1102). -/
structure DependencyUpdate where
  file : String
  packages : List PackageUpdate
deriving DecidableEq

/-- One entry of `plan.configurationChanges` (typedef, line 1103). -/
structure ConfigurationChange where
  file : String
  changes : List String
deriving DecidableEq

/-- An `OrchestrationPlan` (typedef, lines 1098-1105); every list may be absent. -/
structure OrchestrationPlan where
  newFiles : Option (List NewFileSpec)
  modifiedFiles : Option (List FileModification)
  dependencyUpdates : Option (List DependencyUpdate)
  configurationChanges : Option (List ConfigurationChange)
  integrationSteps : Option (List String)
deriving DecidableEq

/-- An `AnalysisResult` (typedef, lines 1107-1114), through the fields that
`processFileCreationJob` reads; `needsNewFiles` is the truthiness of the field. -/
structure AnalysisResult where
  needsNewFiles : Bool
  reasoning : Option String
  orchestratedPlan : Option OrchestrationPlan
deriving DecidableEq

/-- The plan with five empty lists, written out at lines 1327-1333 and
1354-1360. -/
def emptyPlan : OrchestrationPlan :=
  { newFiles := some [], modifiedFiles := some [], dependencyUpdates := some [],
    configurationChanges := some [], integrationSteps := some [] }

/-- The planner's model call (lines 1306-1320): it rejected, its cleaned text
made `JSON.parse` raise, or the text parsed to an analysis. -/
inductive PlannerReply where
  | failed (message : String)
  | unparseable
  | parsed (analysis : AnalysisResult)
deriving DecidableEq

/-- Embedding of `analyzeFeatureRequest` from the model call on (lines 1306-1364). -/
def analyzeFeatureRequest : PlannerReply → AnalysisResult
  | .parsed analysis => analysis
  | .unparseable =>
      { needsNewFiles := true
        reasoning := some "Failed to parse AI response, but the feature likely requires new files"
        orchestratedPlan := some emptyPlan }
  | .failed _ =>
      { needsNewFiles := false
        reasoning := some "Analysis failed, defaulting to regular fix job"
        orchestratedPlan := some emptyPlan }

/-- The object returned by `generateNewFile`, through the fields read at lines 922-928. -/
structure GeneratedFile where
  code : Option String
  explanation : Option String
  dependencies : Option (List String)
deriving DecidableEq

/-- One change description of a file modification (prompt, lines 2087-2100). -/
structure ModificationChange where
  lineNumber : Int
  type : String
  oldContent : Option String
  newContent : Option String
  reason : Option String
deriving DecidableEq

/-- The object returned by `generateFileModification` (lines 1976, 2125-2159). -/
structure ModificationResult where
  originalCode : String
  fixedCode : String
  changes : List ModificationChange
  explanation : String
  summary : String
deriving DecidableEq

/-- How fetching the original file went (lines 1988-2059): the project
lookup raised, no project, no content in the response, a GitHub API error, or
the decoded content. -/
inductive FetchOutcome where
  | lookupFailed
  | projectMissing
  | contentMissing
  | githubError
  | content (originalCode : String)
deriving DecidableEq

/-- The parsed reply of a file-modification prompt, through the fields read at
lines 2125-2131. -/
structure ParsedModification where
  fixedCode : Option String
  changes : Option (List ModificationChange)
  explanation : Option String
  summary : Option String
deriving DecidableEq

/-- The model call of lines 2109-2131: it rejected, the inner `try` raised
(`JSON.parse` of the text raised, or gave `null`, whose fields cannot be read),
or the text parsed to an object. -/
inductive ModificationReply where
  | failed (message : String)
  | unparseable
  | parsed (reply : ParsedModification)
deriving DecidableEq

/-- The argument `modificationWithType` built at lines 957-961. -/
structure ModificationSpec where
  path : String
  type : String
  reason : String
  instructions : Option String
deriving DecidableEq

/-- The answer to the model's reply once the original code is at hand (lines
2119-2149). -/
def modificationFromReply (modification : ModificationSpec) (originalCode : String) :
    ModificationReply → ModificationResult
  | .failed _ =>
      { originalCode := "", fixedCode := "", changes := []
        explanation := "Error generating modifications", summary := "Error" }
  | .unparseable =>
      { originalCode := originalCode
        fixedCode := originalCode
        changes := [{ lineNumber := 1, type := "modify", oldContent := some "",
                      newContent := some "", reason := some modification.reason }]
        explanation := modification.reason
        summary := "Need to manually modify " ++ modification.path }
  | .parsed reply =>
      { originalCode := originalCode
        fixedCode := orString reply.fixedCode originalCode
        changes := reply.changes.getD []
        explanation := orString reply.explanation "File modification for orchestrated integration"
        summary := orString reply.summary ("Modified " ++ modification.path) }

/-- Embedding of `generateFileModification` (lines 1978-2161) from the fetch
and the model call on. -/
def generateFileModification (modification : ModificationSpec) (fetch : FetchOutcome)
    (reply : ModificationReply) : ModificationResult :=
  match fetch with
  | .lookupFailed =>
      { originalCode := "", fixedCode := "", changes := []
        explanation := "Error fetching original file content", summary := "Fetch error" }
  | .projectMissing =>
      { originalCode := "", fixedCode := "", changes := []
        explanation := "Project not found", summary := "Project not found" }
  | .contentMissing =>
      { originalCode := "", fixedCode := "", changes := []
        explanation := "File " ++ modification.path ++ " not found in repository"
        summary := "File not found" }
  | .githubError =>
      modificationFromReply modification "// Original file content not available" reply
  | .content originalCode => modificationFromReply modification originalCode reply

/-- One entry of `result.fixes` (lines 466-474). -/
structure CodeFix where
  fileName : Option String
  originalCode : String
  fixedCode : Option String
  summary : Option String
  explanation : String
  changes : List String
  lineChanges : List (Option LineChange)
deriving DecidableEq

/-- One created file of the result (lines 922-928). -/
structure CreatedFile where
  fileName : String
  content : String
  explanation : String
  fileType : String
  dependencies : List String
deriving DecidableEq

/-- One modified file of the result (lines 970-978). -/
structure ModifiedFile where
  fileName : String
  originalCode : String
  fixedCode : String
  changes : List ModificationChange
  explanation : String
  summary : String
  type : String
deriving DecidableEq

/-- One dependency entry of the result (lines 1004-1008). -/
structure DependencyEntry where
  fileName : String
  dependencies : List PackageUpdate
  explanation : String
deriving DecidableEq

/-- One configuration entry of the result (lines 1028-1032). -/
structure ConfigurationEntry where
  fileName : String
  changes : List String
  explanation : String
deriving DecidableEq

/-- The `orchestratedPlan` of the final result (lines 1047-1054). -/
structure OrchestratedResult where
  newFiles : List CreatedFile
  modifiedFiles : List ModifiedFile
  dependencyUpdates : List DependencyEntry
  configurationChanges : List ConfigurationEntry
  integrationSteps : List String
  summary : String
deriving DecidableEq

/-- The `result` field of a job record: the fixes of a fix job, the redirect
(`action: 'REDIRECT'`) or the plan carried out
(`action: 'ORCHESTRATED_IMPLEMENTATION'`). -/
inductive JobResult where
  | fixes (fixes : List CodeFix)
  | redirect (message : String)
  | orchestratedImplementation (orchestratedPlan : OrchestratedResult)
deriving DecidableEq

/-- The data of one `db.fixJob.update`. -/
inductive JobWrite where
  | processing (progress : Int) (currentFile : String)
  | progress (progress : Int) (currentFile : Option String)
  | completed (progress : Int) (result : JobResult)
  | failed (error : String)
deriving DecidableEq

/-- The `progress` field of a write, if it has one. -/
def JobWrite.progressValue : JobWrite → Option Int
  | .processing value _ => some value
  | .progress value _ => some value
  | .completed value _ => some value
  | .failed _ => none

/-- The progress values of a run, in write order. -/
def progressValues (writes : List JobWrite) : List Int :=
  writes.filterMap JobWrite.progressValue

/-- The job data read by `processFixJob` (line 424). -/
structure JobData where
  jobId : String
  projectId : String
  question : String
  summary : String
  files : List FileReference
  jobType : Option String
  isCreateMode : Bool

/-- The entry pushed at lines 466-474 for a fix that is needed. -/
def codeFixOf (file : PrioritizedFile) (fix : FixResult) : CodeFix :=
  { fileName := file.file.fileName
    originalCode := file.file.sourceCode
    fixedCode := fix.fixedCode
    summary := file.file.summary
    explanation := fix.explanation
    changes := fix.changes
    lineChanges := fix.lineChanges }

/-- The loop of lines 449-487.  `generateFix` is the per-file generation,
which returns a fix result or raises; `processedFiles` counts the files done
without an error.  The result is the writes and the fixes collected. -/
def fixLoop (generateFix : PrioritizedFile → Except String FixResult) (total : Nat) :
    List PrioritizedFile → Nat → List JobWrite × List CodeFix
  | [], _ => ([], [])
  | file :: rest, processedFiles =>
      let write := JobWrite.progress
        (mathRound ((processedFiles : ℚ) / (total : ℚ) * 100)) file.file.fileName
      match generateFix file with
      | .ok fix =>
          let later := fixLoop generateFix total rest (processedFiles + 1)
          (write :: later.1, if fix.needsFix then codeFixOf file fix :: later.2 else later.2)
      | .error _ =>
          let later := fixLoop generateFix total rest processedFiles
          (write :: later.1, later.2)

/-- The fix path of `processFixJob` (lines 434-500), with a job store whose
writes succeed. -/
def processRegularFiles (generateFix : PrioritizedFile → Except String FixResult)
    (jobData : JobData) : List JobWrite :=
  let filesToProcess := filesToProcess jobData.files jobData.question
  let run := fixLoop generateFix filesToProcess.length filesToProcess 0
  run.1 ++ [JobWrite.completed 100 (JobResult.fixes run.2)]

/-- The writes of the loop of lines 909-931, one per new file. -/
def newFileWrites (totalSteps : Nat) : Nat → List NewFileSpec → List JobWrite
  | _, [] => []
  | currentStep, fileSpec :: rest =>
      JobWrite.progress (10 + mathRound ((currentStep : ℚ) / (totalSteps : ℚ) * 70))
          (some ("Creating " ++ fileSpec.path ++ "...")) ::
        newFileWrites totalSteps (currentStep + 1) rest

/-- The writes of the loop of lines 944-981, one per modified file. -/
def modificationWrites (totalSteps : Nat) : Nat → List FileModification → List JobWrite
  | _, [] => []
  | currentStep, modification :: rest =>
      JobWrite.progress (30 + mathRound ((currentStep : ℚ) / (totalSteps : ℚ) * 70))
          (some ("Updating " ++ modification.path ++ "...")) ::
        modificationWrites totalSteps (currentStep + 1) rest

/-- The entry pushed at lines 922-928. -/
def createdFileOf (fileSpec : NewFileSpec) (fileContent : GeneratedFile) : CreatedFile :=
  { fileName := fileSpec.path
    content := orString fileContent.code ""
    explanation := orString fileContent.explanation
      "New file created as part of orchestrated implementation"
    fileType := fileSpec.type
    dependencies := fileContent.dependencies.getD [] }

/-- The argument built at lines 957-961. -/
def modificationWithType (modification : FileModification) : ModificationSpec :=
  { path := modification.path
    type := "modify"
    reason := modification.reason
    instructions := modification.changes.map (fun changes => ", ".intercalate changes) }

/-- The entry pushed at lines 970-978. -/
def modifiedFileOf (modification : FileModification) (content : ModificationResult) :
    ModifiedFile :=
  { fileName := modification.path
    originalCode := content.originalCode
    fixedCode := content.fixedCode
    changes := content.changes
    explanation := orString (some content.explanation) "File updated for orchestrated integration"
    summary := orString (some content.summary) ("Modified " ++ modification.path)
    type := "MODIFY" }

/-- The explanation of lines 999-1002: the first truthy reason, else the default. -/
def dependencyExplanation (packages : List PackageUpdate) : String :=
  let reasons := (packages.map PackageUpdate.reason).filter
    (fun reason => match reason with
      | some text => text != ""
      | none => false)
  match reasons with
  | some text :: _ => text
  | _ => "Dependencies added for new feature"

/-- The entry pushed at lines 1004-1008. -/
def dependencyEntryOf (depUpdate : DependencyUpdate) : DependencyEntry :=
  { fileName := depUpdate.file
    dependencies := depUpdate.packages
    explanation := dependencyExplanation depUpdate.packages }

/-- The entry pushed at lines 1028-1032. -/
def configurationEntryOf (configChange : ConfigurationChange) : ConfigurationEntry :=
  { fileName := configChange.file
    changes := configChange.changes
    explanation := "Configuration updated for new feature" }

/-- The collaborators of an orchestration job: the planner's model call, the
new-file generator, and for each modification the fetch and the model call. -/
structure OrchestrationEnv where
  plannerReply : PlannerReply
  generateNewFile : NewFileSpec → GeneratedFile
  fetchFile : FileModification → FetchOutcome
  modificationReply : FileModification → ModificationReply

/-- The message of the redirect result (line 2180). -/
def redirectMessage : String :=
  "This request requires fixing existing files, not creating new ones. Please use the regular fix feature."

/-- Embedding of `processRegularFixJob` (lines 2168-2185). -/
def processRegularFixJob : List JobWrite :=
  [JobWrite.completed 100 (JobResult.redirect redirectMessage)]

/-- The steps 2a-3 of `processFileCreationJob` (lines 884-1059) for a plan. -/
def executePlan (env : OrchestrationEnv) (analysis : AnalysisResult)
    (plan : OrchestrationPlan) : List JobWrite :=
  let newFiles := plan.newFiles.getD []
  let modifiedFiles := plan.modifiedFiles.getD []
  let dependencyUpdates := plan.dependencyUpdates.getD []
  let configurationChanges := plan.configurationChanges.getD []
  let integrationSteps := plan.integrationSteps.getD []
  let totalSteps := newFiles.length + modifiedFiles.length + dependencyUpdates.length +
    configurationChanges.length + integrationSteps.length
  (if 0 < newFiles.length then
      JobWrite.progress 10 (some "Creating new files...") :: newFileWrites totalSteps 0 newFiles
    else []) ++
  (if 0 < modifiedFiles.length then
      JobWrite.progress 30 (some "Updating existing files...") ::
        modificationWrites totalSteps newFiles.length modifiedFiles
    else []) ++
  (if 0 < dependencyUpdates.length then
      [JobWrite.progress 50 (some "Updating dependencies...")]
    else []) ++
  (if 0 < configurationChanges.length then
      [JobWrite.progress 70 (some "Updating configuration files...")]
    else []) ++
  [JobWrite.completed 100 (JobResult.orchestratedImplementation
    { newFiles := newFiles.map (fun fileSpec =>
        createdFileOf fileSpec (env.generateNewFile fileSpec))
      modifiedFiles := modifiedFiles.map (fun modification =>
        modifiedFileOf modification
          (generateFileModification (modificationWithType modification)
            (env.fetchFile modification) (env.modificationReply modification)))
      dependencyUpdates := dependencyUpdates.map dependencyEntryOf
      configurationChanges := configurationChanges.map configurationEntryOf
      integrationSteps := integrationSteps
      summary := orString analysis.reasoning "Orchestrated implementation completed" })]

/-- Embedding of `processFileCreationJob` (lines 856-1081), with a job store
whose writes succeed: the writes to the job record, in order. -/
def processFileCreationJob (env : OrchestrationEnv) : List JobWrite :=
  let orchestratedPlan := analyzeFeatureRequest env.plannerReply
  JobWrite.processing 5 "Planning orchestrated implementation..." ::
    (if !orchestratedPlan.needsNewFiles && orchestratedPlan.orchestratedPlan.isNone then
      processRegularFixJob
    else
      executePlan env orchestratedPlan
        (orchestratedPlan.orchestratedPlan.getD
          { newFiles := none, modifiedFiles := none, dependencyUpdates := none,
            configurationChanges := none, integrationSteps := none }))

/-- Embedding of `processFixJob` (lines 422-516), with a job store whose
writes succeed: the writes to the job record, in order. -/
def processFixJob (generateFix : PrioritizedFile → Except String FixResult)
    (env : OrchestrationEnv) (jobData : JobData) : List JobWrite :=
  if jobData.jobType = some "FILE_CREATION" ∨ jobData.isCreateMode then
    processFileCreationJob env
  else processRegularFiles generateFix jobData

/-- A new-file entry for the scenarios. -/
def sampleSpec (path : String) : NewFileSpec :=
  { path := path, type := "service", description := "email service", priority := "high" }

/-- A modification entry for the scenarios. -/
def sampleModification : FileModification :=
  { path := "src/index.ts", reason := "register the new service",
    changes := some ["import the service", "register the service"] }

/-- A dependency update for the scenarios: the first package has no reason. -/
def sampleDependency : DependencyUpdate :=
  { file := "package.json"
    packages := [{ name := "nodemailer", version := "^6.9.0", reason := none },
                 { name := "handlebars", version := "^4.7.0", reason := some "" },
                 { name := "mjml", version := "^4.15.0", reason := some "email templates" }] }

/-- Collaborators for the scenarios, around a given planner reply. -/
def sampleEnv (plannerReply : PlannerReply) : OrchestrationEnv :=
  { plannerReply := plannerReply
    generateNewFile := fun _ =>
      { code := some "export const service = 1;", explanation := none, dependencies := none }
    fetchFile := fun _ => FetchOutcome.content "export const app = 1;"
    modificationReply := fun _ => ModificationReply.unparseable }

/-- The plan of the progress scenario: 2 new files, 1 modified file and 1
dependency update. -/
def scenarioPlan : OrchestrationPlan :=
  { newFiles := some [sampleSpec "src/services/email.ts", sampleSpec "src/services/queue.ts"]
    modifiedFiles := some [sampleModification]
    dependencyUpdates := some [sampleDependency]
    configurationChanges := some []
    integrationSteps := some [] }

/-- A fix job with three candidate files. -/
def sampleJob : JobData :=
  { jobId := "job-1", projectId := "project-1"
    question := "fix JWT expiration bug in login", summary := "login bug"
    files := [⟨some "README.md", "# readme", none, 1/2⟩,
              ⟨some "src/auth/login.ts", "export const login = 1;", none, 1/2⟩,
              ⟨some "src/auth/jwt.ts", "export const jwt = 1;", none, 1/4⟩]
    jobType := some "FIX", isCreateMode := false }

/-- A per-file generation that raises on `src/auth/jwt.ts`, needs no fix on
`README.md` and returns a fix for every other file. -/
def sampleGenerateFix (file : PrioritizedFile) : Except String FixResult :=
  if file.file.fileName = some "src/auth/jwt.ts" then .error "model unavailable"
  else if file.file.fileName = some "README.md" then
    .ok { needsFix := false, fixedCode := none, explanation := "nothing to fix",
          changes := [], lineChanges := [] }
  else
    .ok { needsFix := true, fixedCode := some "export const login = 2;",
          explanation := "fixed expiry", changes := ["expiry"], lineChanges := [] }

/-! ## Simultaneous edit of the original snapshot (the reading of the line edits
as one edit of the original text) -/

/-- What stands in the place of a line that has the edit `change`: nothing for
a remove edit, the edit's newLine for a replace edit, the line followed by the
edit's newLine for an add edit, and the line alone for any other action. -/
def lineEdit (change : LineChange) (line : String) : List String :=
  if change.action = "remove" then []
  else if change.action = "replace" then [newLineText change]
  else if change.action = "add" then [line, newLineText change]
  else [line]

/-- What stands in the place of original line `i` (counted from 1) under the
edits: the line alone when no edit has that line number. -/
def editedLine (edits : List LineChange) (i : Nat) (line : String) : List String :=
  match edits.find? (fun change => decide (change.lineNumber = (i : Int))) with
  | some change => lineEdit change line
  | none => [line]

/-- The concatenation over the lines, numbered from `i` on, of what stands in
their place. -/
def simultaneousFrom (edits : List LineChange) : Nat → List String → List String
  | _, [] => []
  | i, line :: rest => editedLine edits i line ++ simultaneousFrom edits (i + 1) rest

/-- Specification of the patch as a simultaneous edit of the original
snapshot: the concatenation over the original lines i = 1..n of what stands in
the place of line i. -/
def simultaneousEdit (edits : List LineChange) (lines : List String) : List String :=
  simultaneousFrom edits 1 lines

/-- An entry of `lineChanges` without its `originalLine`. -/
def withoutOriginalLine : Option LineChange → Option LineChange
  | some change => some { change with originalLine := none }
  | none => none

/-- A text of four lines for the patch scenarios. -/
def fourLineText : String := "alpha\nbeta\ngamma\ndelta"

/-- Three edits of distinct lines of a four-line text, not in order: replace
line 2, remove line 4, add after line 1. -/
def mixedEdits : List LineChange :=
  [{ lineNumber := 2, action := "replace", originalLine := some "beta", newLine := some "BETA" },
   { lineNumber := 4, action := "remove", originalLine := some "delta", newLine := none },
   { lineNumber := 1, action := "add", originalLine := none, newLine := some "inserted" }]

/-- The text of a patch outcome: the fixed text, or nothing when the patch
raised. -/
def patchedText (outcome : Except String (String × List (Option LineChange))) : Option String :=
  match outcome with
  | .ok (fixedCode, _) => some fixedCode
  | .error _ => none

/-- A file holding the four-line text. -/
def greekFile : FileReference :=
  { fileName := some "greek.txt", sourceCode := fourLineText, summary := none, similarity := 1/2 }

/-- A reply whose one edit names an originalLine that is not the line at that
position. -/
def mismatchedFixData : FixData :=
  { needsFix := some true
    explanation := none
    changes := none
    lineChanges := some [some
      { lineNumber := 2, action := "replace", originalLine := some "not the second line",
        newLine := some "BETA" }] }

/-- A reply whose object is not valid JSON (the comma between its two members
is missing) although its braces balance; it carries a true needsFix and a
fixedCode field. -/
def malformedReply : String :=
  "\x7b\"needsFix\": true \"fixedCode\": \"x\"\x7d"

/-! ## Scoring engine on IEEE doubles

The scores of the engine are JavaScript numbers: every `score += c` and
`score -= c` takes the double nearest to the decimal literal `c` and rounds the
sum to the nearest double.  The definitions of this section repeat the scoring
function with that arithmetic.  A finite double is a rational `m * 2 ^ e` with
`|m| < 2 ^ 53` and `e ≥ -1074`; the values met here stay far below the largest
finite double, so overflow is left out. -/

/-- Round to the nearest integer, a tie going to the even neighbour. -/
def roundHalfEven (q : ℚ) : Int :=
  if q - ⌊q⌋ < 1/2 then ⌊q⌋
  else if 1/2 < q - ⌊q⌋ then ⌊q⌋ + 1
  else if ⌊q⌋ % 2 = 0 then ⌊q⌋ else ⌊q⌋ + 1

/-- The exponent of the last place of the double format at `x`: 53 significant
bits, and no exponent below -1074 (the subnormal range). -/
def ulpExponent (x : ℚ) : Int :=
  max (Int.log 2 |x| - 52) (-1074)

/-- The double nearest to `x` (round to nearest, ties to even): the value of a
decimal literal, and the result of an arithmetic operation whose exact result
is `x`. -/
def roundDouble (x : ℚ) : ℚ :=
  roundHalfEven (x / 2 ^ ulpExponent x) * 2 ^ ulpExponent x

/-- JavaScript `if (cond) score += delta` for a decimal literal `delta`. -/
def raiseDouble (cond : Bool) (delta : ℚ) (score : ℚ) : ℚ :=
  if cond then roundDouble (score + roundDouble delta) else score

/-- JavaScript `if (cond) score -= delta` for a decimal literal `delta`. -/
def lowerDouble (cond : Bool) (delta : ℚ) (score : ℚ) : ℚ :=
  if cond then roundDouble (score - roundDouble delta) else score

/-- The loop of lines 286-291 over the extracted identifiers, on doubles. -/
def matchBoostsDouble (filePath : String) (summary : Option String) (found : List String)
    (score : ℚ) : ℚ :=
  found.foldl (fun acc m => raiseDouble (isMatchMentioned filePath summary m) 0.2 acc) score

/-- The score before the final clamp, for a file whose name is `fileName`
(lines 89-372), on doubles. -/
def rawScoreDouble (fileName : String) (summary : Option String) (similarity : ℚ)
    (issueDescription : String) : ℚ :=
  let filePath := toLowerCase fileName
  let issueText := toLowerCase issueDescription
  let score := similarity
  let score := lowerDouble (isDatabaseGenerated filePath) 0.4 score
  let score := lowerDouble (isLanguageGenerated filePath) 0.3 score
  let score := lowerDouble (isDocumentation filePath) 0.3 score
  let score := lowerDouble (isJsConfig filePath) 0.2 score
  let score := lowerDouble (isPythonConfig filePath) 0.2 score
  let score := lowerDouble (isGoConfig filePath) 0.2 score
  let score := lowerDouble (isRustConfig filePath) 0.2 score
  let score := lowerDouble (isCppConfig filePath) 0.2 score
  let score := lowerDouble (isTestFile filePath) 0.1 score
  let score := raiseDouble (isJsMain filePath) 0.2 score
  let score := raiseDouble (isPythonMain filePath) 0.2 score
  let score := raiseDouble (isGoMain filePath) 0.2 score
  let score := raiseDouble (isRustMain filePath) 0.2 score
  let score := raiseDouble (isCppMain filePath) 0.2 score
  let score := raiseDouble (isFrontendComponent filePath) 0.1 score
  let score := raiseDouble (isPythonModule filePath) 0.1 score
  let score := raiseDouble (isGoPackage filePath) 0.1 score
  let score := raiseDouble (isJsApi filePath) 0.15 score
  let score := raiseDouble (isPythonApi filePath) 0.15 score
  let score := raiseDouble (isGoApi filePath) 0.15 score
  let score := raiseDouble (isRustWeb filePath) 0.15 score
  let score := raiseDouble (isNameMentioned fileName issueText) 0.3 score
  let score := matchBoostsDouble filePath summary
    (componentMatches issueDescription ++ functionMatches issueDescription) score
  let score := raiseDouble (isFrontendContext issueText filePath) 0.1 score
  let score := raiseDouble (isApiContext issueText filePath) 0.1 score
  let score := raiseDouble (isDatabaseContext issueText filePath) 0.1 score
  let score := raiseDouble (isServiceContext issueText filePath) 0.1 score
  let score := raiseDouble (isAuthContext issueText filePath) 0.15 score
  let score := raiseDouble (isConfigContext issueText filePath) 0.05 score
  let score := raiseDouble (isTestContext issueText filePath) 0.05 score
  let score := raiseDouble (isDjangoPattern issueText filePath) 0.1 score
  let score := raiseDouble (isGoPattern issueText filePath) 0.1 score
  let score := raiseDouble (isRustPattern issueText filePath) 0.1 score
  let score := raiseDouble (isCppPattern issueText filePath) 0.1 score
  score

/-- Embedding of `calculateFilePriority(file, issueDescription)` (lines 81-375) on
doubles; `file.similarity` holds the double `file.similarity || 0`. -/
def calculateFilePriorityDouble (file : FileReference) (issueDescription : String) : ℚ :=
  match file.fileName with
  | none => file.similarity
  | some fileName =>
      if fileName = "" then file.similarity
      else max 0 (rawScoreDouble fileName file.summary file.similarity issueDescription)

/-- The sum of a score and a list of doubles, added one after the other from
the left, each sum rounded to the nearest double. -/
def addDoubles (adjustments : List ℚ) (score : ℚ) : ℚ :=
  adjustments.foldl (fun acc delta => roundDouble (acc + delta)) score

/-- The decimal literals of the scoring rules (lines 103-370). -/
def scoreLiterals : List ℚ := [0.4, 0.3, 0.2, 0.15, 0.1, 0.05]

/-- An adjustment of the scoring rules: the double of one of the literals,
added or subtracted. -/
def IsAdjustment (delta : ℚ) : Prop :=
  ∃ c ∈ scoreLiterals, delta = roundDouble c ∨ delta = -roundDouble c

/-! ## JSON texts: what `JSON.parse` accepts

`JSON.parse` is a built-in of the engine.  Its grammar (ECMA-404, the JSON
grammar of ECMAScript) is embedded as a machine that reads the text one
character at a time, with the stack of the arrays and objects that are open.
The machine also collects the texts of the members of the top-level object. -/

/-- An open array or object. -/
inductive JsonFrame where
  | array
  | object
deriving DecidableEq

/-- Where the reader stands in the grammar. -/
inductive JsonMode where
  | value
  | valueOrClose
  | keyOrClose
  | key
  | colon
  | afterValue
  | string (isKey : Bool)
  | escape (isKey : Bool)
  | unicode (isKey : Bool) (remaining : Nat)
  | literal (rest : List Char)
  | minus
  | zero
  | integer
  | point
  | fraction
  | exponentMark
  | exponentSign
  | exponent
  | failed
deriving DecidableEq

/-- JSON white space: space, tab, line feed, carriage return. -/
def isJsonWhitespace (c : Char) : Bool :=
  c = ' ' || c = '\t' || c = '\n' || c = '\r'

/-- A decimal digit. -/
def isJsonDigit (c : Char) : Bool :=
  decide ('0' ≤ c) && decide (c ≤ '9')

/-- A hexadecimal digit. -/
def isJsonHexDigit (c : Char) : Bool :=
  isJsonDigit c || (decide ('a' ≤ c) && decide (c ≤ 'f')) || (decide ('A' ≤ c) && decide (c ≤ 'F'))

/-- The characters that may follow a backslash, `u` apart. -/
def isJsonEscape (c : Char) : Bool :=
  c = '"' || c = '\\' || c = '/' || c = 'b' || c = 'f' || c = 'n' || c = 'r' || c = 't'

/-- The start of a value: white space is skipped. -/
def startValue (mode : JsonMode) (stack : List JsonFrame) (c : Char) :
    JsonMode × List JsonFrame :=
  if isJsonWhitespace c then (mode, stack)
  else if c = '\x7b' then (.keyOrClose, .object :: stack)
  else if c = '[' then (.valueOrClose, .array :: stack)
  else if c = '"' then (.string false, stack)
  else if c = '-' then (.minus, stack)
  else if c = '0' then (.zero, stack)
  else if isJsonDigit c then (.integer, stack)
  else if c = 't' then (.literal ['r', 'u', 'e'], stack)
  else if c = 'f' then (.literal ['a', 'l', 's', 'e'], stack)
  else if c = 'n' then (.literal ['u', 'l', 'l'], stack)
  else (.failed, stack)

/-- What may follow a value: white space, a comma inside an array or object,
or the bracket that closes the innermost open array or object. -/
def afterValueStep (stack : List JsonFrame) (c : Char) : JsonMode × List JsonFrame :=
  if isJsonWhitespace c then (.afterValue, stack)
  else if c = ',' then
    match stack with
    | .array :: _ => (.value, stack)
    | .object :: _ => (.key, stack)
    | [] => (.failed, stack)
  else if c = ']' then
    match stack with
    | .array :: rest => (.afterValue, rest)
    | _ => (.failed, stack)
  else if c = '\x7d' then
    match stack with
    | .object :: rest => (.afterValue, rest)
    | _ => (.failed, stack)
  else (.failed, stack)

/-- One character of the JSON grammar. -/
def jsonTransition (mode : JsonMode) (stack : List JsonFrame) (c : Char) :
    JsonMode × List JsonFrame :=
  match mode with
  | .failed => (.failed, stack)
  | .value => startValue .value stack c
  | .valueOrClose =>
      if c = ']' then
        match stack with
        | .array :: rest => (.afterValue, rest)
        | _ => (.failed, stack)
      else startValue .valueOrClose stack c
  | .keyOrClose =>
      if isJsonWhitespace c then (.keyOrClose, stack)
      else if c = '"' then (.string true, stack)
      else if c = '\x7d' then
        match stack with
        | .object :: rest => (.afterValue, rest)
        | _ => (.failed, stack)
      else (.failed, stack)
  | .key =>
      if isJsonWhitespace c then (.key, stack)
      else if c = '"' then (.string true, stack)
      else (.failed, stack)
  | .colon =>
      if isJsonWhitespace c then (.colon, stack)
      else if c = ':' then (.value, stack)
      else (.failed, stack)
  | .afterValue => afterValueStep stack c
  | .string isKey =>
      if c = '"' then (if isKey then .colon else .afterValue, stack)
      else if c = '\\' then (.escape isKey, stack)
      else if c.toNat < 32 then (.failed, stack)
      else (.string isKey, stack)
  | .escape isKey =>
      if c = 'u' then (.unicode isKey 4, stack)
      else if isJsonEscape c then (.string isKey, stack)
      else (.failed, stack)
  | .unicode isKey remaining =>
      if isJsonHexDigit c then
        (if remaining ≤ 1 then .string isKey else .unicode isKey (remaining - 1), stack)
      else (.failed, stack)
  | .literal rest =>
      match rest with
      | [] => (.failed, stack)
      | expected :: more =>
          if c = expected then (if more = [] then .afterValue else .literal more, stack)
          else (.failed, stack)
  | .minus =>
      if c = '0' then (.zero, stack)
      else if isJsonDigit c then (.integer, stack)
      else (.failed, stack)
  | .zero =>
      if c = '.' then (.point, stack)
      else if c = 'e' ∨ c = 'E' then (.exponentMark, stack)
      else afterValueStep stack c
  | .integer =>
      if isJsonDigit c then (.integer, stack)
      else if c = '.' then (.point, stack)
      else if c = 'e' ∨ c = 'E' then (.exponentMark, stack)
      else afterValueStep stack c
  | .point =>
      if isJsonDigit c then (.fraction, stack) else (.failed, stack)
  | .fraction =>
      if isJsonDigit c then (.fraction, stack)
      else if c = 'e' ∨ c = 'E' then (.exponentMark, stack)
      else afterValueStep stack c
  | .exponentMark =>
      if c = '+' ∨ c = '-' then (.exponentSign, stack)
      else if isJsonDigit c then (.exponent, stack)
      else (.failed, stack)
  | .exponentSign =>
      if isJsonDigit c then (.exponent, stack) else (.failed, stack)
  | .exponent =>
      if isJsonDigit c then (.exponent, stack) else afterValueStep stack c

/-- The reader of a JSON text: the place in the grammar, the open arrays and
objects (innermost first), the text read so far of the member of the top-level
object that is being read (last character first), and the texts of the members
of the top-level object that were read completely, in order. -/
structure JsonState where
  mode : JsonMode
  stack : List JsonFrame
  member : List Char
  members : List String
deriving DecidableEq

/-- One character read.  A member of the top-level object is complete at the
comma that follows it and at the brace that closes the object. -/
def jsonStep (st : JsonState) (c : Char) : JsonState :=
  let next := jsonTransition st.mode st.stack c
  if next.1 = .failed then { st with mode := .failed }
  else if st.stack = [.object] ∧
      ((c = ',' ∧ next.1 = .key) ∨ (c = '\x7d' ∧ next.2 = [] ∧ st.mode ≠ .keyOrClose)) then
    { mode := next.1, stack := next.2, member := []
      members := st.members ++ [String.mk st.member.reverse] }
  else if st.stack = [] then
    { st with mode := next.1, stack := next.2 }
  else { st with mode := next.1, stack := next.2, member := c :: st.member }

/-- The reader after a whole text. -/
def jsonRun (text : List Char) : JsonState :=
  text.foldl jsonStep { mode := .value, stack := [], member := [], members := [] }

/-- The text is a JSON text: `JSON.parse` returns a value for it (and raises a
`SyntaxError` otherwise). -/
def jsonAccepts (text : String) : Bool :=
  let st := jsonRun text.data
  decide (st.stack = []) &&
    (decide (st.mode = .afterValue) || decide (st.mode = .zero) || decide (st.mode = .integer) ||
     decide (st.mode = .fraction) || decide (st.mode = .exponent))

/-- The texts of the members of the top-level object of a JSON text. -/
def jsonMembers (text : String) : List String :=
  (jsonRun text.data).members

/-- The state of the bracket scan that corresponds to a place in the grammar:
inside a string literal in the three string modes, right after a backslash in
the escape mode, and as many unmatched braces and brackets as there are open
objects and arrays. -/
def scanOf (mode : JsonMode) (stack : List JsonFrame) : ScanState :=
  { braceCount := (stack.count .object : Int)
    bracketCount := (stack.count .array : Int)
    inString :=
      match mode with
      | .string _ => true
      | .escape _ => true
      | .unicode _ _ => true
      | _ => false
    escaped :=
      match mode with
      | .escape _ => true
      | _ => false }

/-- The characters that a literal still expects. -/
def literalRest : JsonMode → List Char
  | .literal rest => rest
  | _ => []

/-- The pending characters of a literal are letters of `true`, `false`, `null`. -/
def modeOk (mode : JsonMode) : Prop :=
  ∀ c ∈ literalRest mode, c = 'r' ∨ c = 'u' ∨ c = 'e' ∨ c = 'a' ∨ c = 'l' ∨ c = 's'

/-- The reader stands inside a string value of the top-level object: after its
opening quote and before its closing quote. -/
def insideTopLevelStringValue (st : JsonState) : Prop :=
  st.stack = [.object] ∧
    (st.mode = .string false ∨ st.mode = .escape false ∨
      ∃ remaining, st.mode = .unicode false remaining)

/-! ## Lemmas on the stable sort -/

section StableSort

variable {α κ : Type} [LinearOrder κ] (key : α → κ)

theorem insertDesc_perm (a : α) (l : List α) : List.Perm (insertDesc key a l) (a :: l) := by
  induction l with
  | nil => exact List.Perm.refl _
  | cons b l ih =>
    unfold insertDesc
    split
    · exact List.Perm.refl _
    · exact ((List.Perm.cons b ih).trans (List.Perm.swap a b l))

theorem sortDesc_cons (a : α) (l : List α) :
    sortDesc key (a :: l) = insertDesc key a (sortDesc key l) := rfl

theorem sortDesc_perm (l : List α) : List.Perm (sortDesc key l) l := by
  induction l with
  | nil => exact List.Perm.refl _
  | cons a l ih =>
    rw [sortDesc_cons]
    exact (insertDesc_perm key a _).trans (List.Perm.cons a ih)

theorem sortDesc_length (l : List α) : (sortDesc key l).length = l.length :=
  (sortDesc_perm key l).length_eq

theorem insertDesc_sorted (a : α) (l : List α)
    (h : l.Pairwise (fun x y => key y ≤ key x)) :
    (insertDesc key a l).Pairwise (fun x y => key y ≤ key x) := by
  induction l with
  | nil => simp [insertDesc]
  | cons b l ih =>
    have hb := List.pairwise_cons.mp h
    unfold insertDesc
    split
    · rename_i hle
      refine List.pairwise_cons.mpr ⟨?_, h⟩
      intro x hx
      rcases List.mem_cons.mp hx with rfl | hx
      · exact hle
      · exact le_trans (hb.1 x hx) hle
    · rename_i hlt
      refine List.pairwise_cons.mpr ⟨?_, ih hb.2⟩
      intro x hx
      rcases List.mem_cons.mp ((insertDesc_perm key a l).mem_iff.mp hx) with rfl | hx
      · exact le_of_lt (not_le.mp hlt)
      · exact hb.1 x hx

theorem sortDesc_sorted (l : List α) :
    (sortDesc key l).Pairwise (fun x y => key y ≤ key x) := by
  induction l with
  | nil => exact List.Pairwise.nil
  | cons a l ih =>
    rw [sortDesc_cons]
    exact insertDesc_sorted key a _ ih

theorem insertDesc_filter (k : κ) (a : α) (l : List α) :
    (insertDesc key a l).filter (fun x => decide (key x = k)) =
      (a :: l).filter (fun x => decide (key x = k)) := by
  induction l with
  | nil => rfl
  | cons b l ih =>
    unfold insertDesc
    split
    · rfl
    · rename_i hlt
      have hne : key b ≠ key a := fun h => hlt (le_of_eq h)
      by_cases ha : key a = k
      · have hbk : ¬ key b = k := fun h => hne (h.trans ha.symm)
        rw [List.filter_cons_of_neg (by simpa using hbk), ih]
        simp [List.filter_cons, ha, hbk]
      · by_cases hbk : key b = k
        · rw [List.filter_cons_of_pos (by simpa using hbk), ih]
          simp [List.filter_cons, ha, hbk]
        · rw [List.filter_cons_of_neg (by simpa using hbk), ih]
          simp [List.filter_cons, ha, hbk]

theorem sortDesc_stable (k : κ) (l : List α) :
    (sortDesc key l).filter (fun x => decide (key x = k)) =
      l.filter (fun x => decide (key x = k)) := by
  induction l with
  | nil => rfl
  | cons a l ih =>
    rw [sortDesc_cons, insertDesc_filter]
    simp only [List.filter_cons, ih]

theorem key_le_head_of_filter_eq (a b : α) (s t : List α)
    (ht : (b :: t).Pairwise (fun x y => key y ≤ key x))
    (h : (a :: s).filter (fun x => decide (key x = key a)) =
      (b :: t).filter (fun x => decide (key x = key a))) : key a ≤ key b := by
  have ha : a ∈ (b :: t).filter (fun x => decide (key x = key a)) := by
    rw [← h]; simp
  have hmem := (List.mem_filter.mp ha).1
  rcases List.mem_cons.mp hmem with rfl | hx
  · exact le_refl _
  · exact (List.pairwise_cons.mp ht).1 a hx

theorem eq_of_sorted_of_filter_eq :
    ∀ (s t : List α), s.Pairwise (fun x y => key y ≤ key x) →
      t.Pairwise (fun x y => key y ≤ key x) →
      (∀ k, s.filter (fun x => decide (key x = k)) = t.filter (fun x => decide (key x = k))) →
      s = t := by
  intro s
  induction s with
  | nil =>
    intro t _ _ h
    cases t with
    | nil => rfl
    | cons b t =>
      have := h (key b)
      simp at this
  | cons a s ih =>
    intro t hs ht h
    cases t with
    | nil =>
      have := h (key a)
      simp at this
    | cons b t =>
      have hab : key a = key b :=
        le_antisymm (key_le_head_of_filter_eq key a b s t ht (h (key a)))
          (key_le_head_of_filter_eq key b a t s hs (h (key b)).symm)
      have hhead := h (key a)
      rw [List.filter_cons_of_pos (by simp), List.filter_cons_of_pos (by simp [hab])] at hhead
      have hEq : a = b := (List.cons.inj hhead).1
      subst hEq
      congr 1
      refine ih t (List.pairwise_cons.mp hs).2 (List.pairwise_cons.mp ht).2 ?_
      intro k
      by_cases hk : key a = k
      · subst hk
        exact (List.cons.inj hhead).2
      · have := h k
        rwa [List.filter_cons_of_neg (by simpa using hk),
          List.filter_cons_of_neg (by simpa using hk)] at this

theorem sortDesc_congr (l l' : List α)
    (h : ∀ k, l.filter (fun x => decide (key x = k)) = l'.filter (fun x => decide (key x = k))) :
    sortDesc key l = sortDesc key l' := by
  refine eq_of_sorted_of_filter_eq key _ _ (sortDesc_sorted key l) (sortDesc_sorted key l') ?_
  intro k
  rw [sortDesc_stable, sortDesc_stable, h k]

end StableSort

/-! ## Scoring engine -/

theorem max_zero_nonneg (x : ℚ) : 0 ≤ max 0 x := le_max_left 0 x

/-- C1 (counterexample): a file record without a fileName and with similarity
-1/2 is scored -1/2, which is not greater than or equal to 0. -/
theorem calculateFilePriority_nameless_negative :
    ¬ (0 ≤ calculateFilePriority
      { fileName := none, sourceCode := "", summary := none, similarity := -1/2 }
      "fix the login bug") := by
  norm_num [calculateFilePriority]

/-- C1 (amended): for every file record with a non-empty fileName (and any
similarity), and for every file record whose similarity is at least 0 (with or
without a fileName), and every issue text, calculateFilePriority returns a value
greater than or equal to 0. -/
theorem calculateFilePriority_nonneg (file : FileReference) (issueDescription : String)
    (h : (∃ name, file.fileName = some name ∧ name ≠ "") ∨ 0 ≤ file.similarity) :
    0 ≤ calculateFilePriority file issueDescription := by
  unfold calculateFilePriority
  cases hname : file.fileName with
  | none =>
    rcases h with ⟨name, hn, _⟩ | h
    · rw [hname] at hn; cases hn
    · exact h
  | some fileName =>
    by_cases hempty : fileName = ""
    · rcases h with ⟨name, hn, hne⟩ | h
      · rw [hname] at hn
        cases hn
        exact absurd hempty hne
      · simp [hempty, h]
    · simp [hempty, max_zero_nonneg]

theorem calculateFilePriority_nonneg_witness :
    ((∃ name, (FileReference.mk (some "src/app.js") "" none (-3)).fileName = some name ∧
        name ≠ "") ∨ 0 ≤ (FileReference.mk (some "src/app.js") "" none (-3)).similarity) ∧
      0 ≤ calculateFilePriority (FileReference.mk (some "src/app.js") "" none (-3)) "crash" :=
  ⟨Or.inl ⟨"src/app.js", rfl, by decide⟩,
    calculateFilePriority_nonneg _ _ (Or.inl ⟨"src/app.js", rfl, by decide⟩)⟩

/-! ## File selector -/

theorem prioritizeFiles_length (files : List FileReference) (q : String) :
    (prioritizeFiles files q).length = files.length := by
  simp [prioritizeFiles, sortDesc_length, scoreFiles]

/-- C2: the files chosen for processing are the first min(n, K) entries,
K = getSmartFileLimit q, of the ranking; the ranking is a permutation of the
scored candidates, in descending order of calculateFilePriority, with the files
of any one score in their input order, and it is the only list that is so
ordered; 7 candidates with an issue text of length 50 yield exactly 3 files. -/
theorem filesToProcess_spec (files : List FileReference) (q : String) :
    List.Perm (prioritizeFiles files q) (scoreFiles files q) ∧
    (prioritizeFiles files q).Pairwise (fun a b => b.priorityScore ≤ a.priorityScore) ∧
    (∀ v : ℚ, (prioritizeFiles files q).filter (fun f => decide (f.priorityScore = v)) =
      (scoreFiles files q).filter (fun f => decide (f.priorityScore = v))) ∧
    (∀ f ∈ prioritizeFiles files q, f.priorityScore = calculateFilePriority f.file q) ∧
    (∀ ranked : List PrioritizedFile,
      ranked.Pairwise (fun a b => b.priorityScore ≤ a.priorityScore) →
      (∀ v : ℚ, ranked.filter (fun f => decide (f.priorityScore = v)) =
        (scoreFiles files q).filter (fun f => decide (f.priorityScore = v))) →
      ranked = prioritizeFiles files q) ∧
    filesToProcess files q =
      (prioritizeFiles files q).take (min files.length (getSmartFileLimit q)) ∧
    (filesToProcess files q).length = min files.length (getSmartFileLimit q) ∧
    (files.length = 7 → jsLength q = 50 → (filesToProcess files q).length = 3) := by
  have hlen : (filesToProcess files q).length = min files.length (getSmartFileLimit q) := by
    simp [filesToProcess, prioritizeFiles_length, min_comm]
  refine ⟨sortDesc_perm _ _, sortDesc_sorted _ _, fun v => sortDesc_stable _ v _, ?_, ?_, ?_,
    hlen, ?_⟩
  · intro f hf
    have hmem : f ∈ scoreFiles files q := (sortDesc_perm _ _).mem_iff.mp hf
    obtain ⟨file, _, rfl⟩ := List.mem_map.mp hmem
    rfl
  · intro ranked hsorted hstable
    refine eq_of_sorted_of_filter_eq PrioritizedFile.priorityScore ranked _ hsorted
      (sortDesc_sorted _ _) ?_
    intro v
    rw [hstable v]
    exact (sortDesc_stable PrioritizedFile.priorityScore v (scoreFiles files q)).symm
  · unfold filesToProcess
    rw [← prioritizeFiles_length files q, List.take_eq_take]
    simp [min_comm]
  · intro h7 h50
    rw [hlen, h7]
    simp [getSmartFileLimit, h50]

theorem filesToProcess_spec_witness :
    sevenFiles.length = 7 ∧
      jsLength "users are logged out too early after they sign in." = 50 ∧
      (filesToProcess sevenFiles "users are logged out too early after they sign in.").length
        = 3 :=
  ⟨by decide, by decide,
    (filesToProcess_spec sevenFiles
      "users are logged out too early after they sign in.").2.2.2.2.2.2.2 (by decide)
      (by decide)⟩

/-- C3: getSmartFileLimit returns 3 exactly when the text length is below 100,
4 exactly when the length is at least 100 and below 300, and 5 exactly when the
length is 300 or more; so lengths 99, 299 and 300 give 3, 4 and 5. -/
theorem getSmartFileLimit_spec (q : String) :
    (getSmartFileLimit q = 3 ↔ jsLength q < 100) ∧
    (getSmartFileLimit q = 4 ↔ 100 ≤ jsLength q ∧ jsLength q < 300) ∧
    (getSmartFileLimit q = 5 ↔ 300 ≤ jsLength q) ∧
    (jsLength q = 99 → getSmartFileLimit q = 3) ∧
    (jsLength q = 299 → getSmartFileLimit q = 4) ∧
    (jsLength q = 300 → getSmartFileLimit q = 5) := by
  unfold getSmartFileLimit
  by_cases h1 : jsLength q < 100
  · simp [h1]; omega
  · by_cases h2 : jsLength q < 300
    · simp [h1, h2]; omega
    · simp [h1, h2]; omega

theorem jsLength_replicate_a (n : Nat) : jsLength (String.mk (List.replicate n 'a')) = n := by
  induction n with
  | zero => rfl
  | succ n ih =>
    have hstep : jsLength (String.mk (List.replicate (n + 1) 'a')) =
        1 + jsLength (String.mk (List.replicate n 'a')) := by
      simp [jsLength, List.replicate_succ, utf16Units]
    rw [hstep, ih, Nat.add_comm]

theorem getSmartFileLimit_spec_witness :
    jsLength (String.mk (List.replicate 99 'a')) = 99 ∧
    jsLength (String.mk (List.replicate 299 'a')) = 299 ∧
    jsLength (String.mk (List.replicate 300 'a')) = 300 ∧
    getSmartFileLimit (String.mk (List.replicate 99 'a')) = 3 ∧
    getSmartFileLimit (String.mk (List.replicate 299 'a')) = 4 ∧
    getSmartFileLimit (String.mk (List.replicate 300 'a')) = 5 :=
  ⟨jsLength_replicate_a 99, jsLength_replicate_a 299, jsLength_replicate_a 300,
    (getSmartFileLimit_spec (String.mk (List.replicate 99 'a'))).2.2.2.1
      (jsLength_replicate_a 99),
    (getSmartFileLimit_spec (String.mk (List.replicate 299 'a'))).2.2.2.2.1
      (jsLength_replicate_a 299),
    (getSmartFileLimit_spec (String.mk (List.replicate 300 'a'))).2.2.2.2.2
      (jsLength_replicate_a 300)⟩

/-! ## Patch applier -/

theorem map_data_map_mk (l : List (List Char)) : (l.map String.mk).map String.data = l := by
  induction l with
  | nil => rfl
  | cons a l ih => simp [ih]

theorem map_mk_map_data (l : List String) : (l.map String.data).map String.mk = l := by
  induction l with
  | nil => rfl
  | cons a l ih => simp [ih]

/-- Splitting on newline and joining with newline gives the text back. -/
theorem joinLines_splitLines (text : String) : joinLines (splitLines text) = text := by
  unfold joinLines splitLines
  rw [map_data_map_mk, List.intercalate_splitOn]

theorem splitOnP_no_sep (p : Char → Bool) (xs : List Char) :
    ∀ l ∈ xs.splitOnP p, ∀ y ∈ l, ¬ p y = true := by
  induction xs with
  | nil =>
    intro l hl y hy
    simp at hl
    subst hl
    simp at hy
  | cons x xs ih =>
    intro l hl y hy
    rw [List.splitOnP_cons] at hl
    by_cases hx : p x = true
    · rw [if_pos hx] at hl
      rcases List.mem_cons.mp hl with rfl | hl
      · simp at hy
      · exact ih l hl y hy
    · rw [if_neg hx] at hl
      cases hsplit : List.splitOnP p xs with
      | nil => exact absurd hsplit (List.splitOnP_ne_nil p xs)
      | cons hd tl =>
        rw [hsplit] at hl ih
        simp only [List.modifyHead_cons] at hl
        rcases List.mem_cons.mp hl with rfl | hl
        · rcases List.mem_cons.mp hy with rfl | hy
          · exact hx
          · exact ih hd (List.mem_cons_self _ _) y hy
        · exact ih l (List.mem_cons_of_mem _ hl) y hy

/-- No line of a split text contains a newline. -/
theorem splitLines_no_newline (text : String) :
    ∀ line ∈ splitLines text, '\n' ∉ line.data := by
  intro line hline hmem
  obtain ⟨chars, hchars, rfl⟩ := List.mem_map.mp hline
  have := splitOnP_no_sep (fun c => c == '\n') text.data chars hchars '\n' hmem
  simp at this

theorem splitLines_ne_nil (text : String) : splitLines text ≠ [] := by
  unfold splitLines
  intro h
  exact List.splitOnP_ne_nil _ _ (List.map_eq_nil_iff.mp h)

/-- Joining newline-free lines and splitting again gives the lines back. -/
theorem splitLines_joinLines (lines : List String) (hne : lines ≠ [])
    (h : ∀ line ∈ lines, '\n' ∉ line.data) : splitLines (joinLines lines) = lines := by
  unfold joinLines splitLines
  rw [List.splitOn_intercalate, map_mk_map_data]
  · intro l hl
    obtain ⟨line, hline, rfl⟩ := List.mem_map.mp hl
    exact h line hline
  · intro hnil
    exact hne (List.map_eq_nil_iff.mp hnil)

theorem insertDesc_map_some (a : LineChange) (l : List LineChange) :
    insertDesc lineNumberOf (some a) (l.map some) =
      (insertDesc LineChange.lineNumber a l).map some := by
  induction l with
  | nil => rfl
  | cons b l ih =>
    simp only [List.map_cons, insertDesc, lineNumberOf]
    split
    · rfl
    · rw [ih]; rfl

theorem sortDesc_map_some (l : List LineChange) :
    sortDesc lineNumberOf (l.map some) = (sortDesc LineChange.lineNumber l).map some := by
  induction l with
  | nil => rfl
  | cons a l ih =>
    rw [List.map_cons, sortDesc_cons, ih, insertDesc_map_some, sortDesc_cons]

theorem sortLineChanges_map_some (edits : List LineChange) :
    sortLineChanges (edits.map some) =
      .ok ((sortDesc LineChange.lineNumber edits).map some) := by
  unfold sortLineChanges
  rw [if_neg, sortDesc_map_some]
  simp

theorem applyEntries_map_some (edits : List LineChange) :
    ∀ fixedLines : List String,
      applyEntries fixedLines (edits.map some) = .ok (edits.foldl applyChange fixedLines) := by
  induction edits with
  | nil => intro fixedLines; rfl
  | cons a l ih =>
    intro fixedLines
    simp only [List.map_cons, applyEntries, applyEntry, List.foldl_cons]
    exact ih _

/-- With no `null` entry the patch applier raises nothing: it returns the
lines patched in descending order of line number, joined, with the sorted
changes. -/
theorem applyLineChanges_map_some (text : String) (edits : List LineChange) :
    applyLineChanges text (edits.map some) =
      .ok (joinLines ((sortDesc LineChange.lineNumber edits).foldl applyChange (splitLines text)),
        (sortDesc LineChange.lineNumber edits).map some) := by
  unfold applyLineChanges
  simp only [sortLineChanges_map_some, applyEntries_map_some]

/-- C6 (counterexample): two replace edits of line 1 applied to the text "x"
give "b" in one order and "a" in the other. -/
theorem applyLineChanges_order_sensitive :
    List.Perm
      [LineChange.mk 1 "replace" none (some "a"), LineChange.mk 1 "replace" none (some "b")]
      [LineChange.mk 1 "replace" none (some "b"), LineChange.mk 1 "replace" none (some "a")] ∧
    applyLineChanges "x"
      ([LineChange.mk 1 "replace" none (some "a"),
        LineChange.mk 1 "replace" none (some "b")].map some) =
      .ok ("b", [some (LineChange.mk 1 "replace" none (some "a")),
        some (LineChange.mk 1 "replace" none (some "b"))]) ∧
    applyLineChanges "x"
      ([LineChange.mk 1 "replace" none (some "b"),
        LineChange.mk 1 "replace" none (some "a")].map some) =
      .ok ("a", [some (LineChange.mk 1 "replace" none (some "b")),
        some (LineChange.mk 1 "replace" none (some "a"))]) ∧
    ("b" : String) ≠ "a" :=
  ⟨List.Perm.swap _ _ _, by rfl, by rfl, by decide⟩

/-- C6 (amended): for every original text, every list of line edits and every
permutation of that list that keeps the edits of each lineNumber in their
relative order, applying the permuted list yields exactly the same text (and the
same sorted changes) as applying the list in its original order. -/
theorem applyLineChanges_perm_stable (text : String) (edits permuted : List LineChange)
    (hperm : List.Perm edits permuted)
    (hkeep : ∀ n : Int, edits.filter (fun e => decide (e.lineNumber = n)) =
      permuted.filter (fun e => decide (e.lineNumber = n))) :
    applyLineChanges text (permuted.map some) = applyLineChanges text (edits.map some) := by
  have _hlen := hperm.length_eq
  rw [applyLineChanges_map_some, applyLineChanges_map_some,
    sortDesc_congr LineChange.lineNumber edits permuted hkeep]

theorem applyLineChanges_perm_stable_witness :
    List.Perm
      [LineChange.mk 1 "add" none (some "a"), LineChange.mk 3 "remove" none none]
      [LineChange.mk 3 "remove" none none, LineChange.mk 1 "add" none (some "a")] ∧
    applyLineChanges "l1\nl2\nl3"
      ([LineChange.mk 3 "remove" none none, LineChange.mk 1 "add" none (some "a")].map some) =
    applyLineChanges "l1\nl2\nl3"
      ([LineChange.mk 1 "add" none (some "a"), LineChange.mk 3 "remove" none none].map some) :=
  ⟨List.Perm.swap _ _ _,
    applyLineChanges_perm_stable "l1\nl2\nl3" _ _ (List.Perm.swap _ _ _) (by
      intro n
      by_cases h1 : n = 1
      · subst h1; decide
      · by_cases h3 : n = 3
        · subst h3; decide
        · have h1' : ¬ (1 : Int) = n := fun h => h1 h.symm
          have h3' : ¬ (3 : Int) = n := fun h => h3 h.symm
          simp [List.filter, h1', h3'])⟩

theorem applyChange_out_of_range (fixedLines : List String) (change : LineChange)
    (h : (fixedLines.length : Int) < change.lineNumber)
    (hadd : change.action = "add" → (fixedLines.length : Int) + 1 < change.lineNumber) :
    applyChange fixedLines change = fixedLines := by
  unfold applyChange
  by_cases hr : change.action = "remove"
  · rw [if_pos hr, if_neg]
    omega
  · rw [if_neg hr]
    by_cases hp : change.action = "replace"
    · rw [if_pos hp, if_neg]
      omega
    · rw [if_neg hp]
      by_cases ha : change.action = "add"
      · have := hadd ha
        rw [if_pos ha, if_neg]
        omega
      · rw [if_neg ha]

/-- C7 (counterexample): on the one-line text "a", the add edit with
lineNumber 2, which is greater than 1, appends a line: the result is "a\nb". -/
theorem applyLineChanges_add_past_end :
    (splitLines "a").length = 1 ∧
    applyLineChanges "a" [some (LineChange.mk 2 "add" none (some "b"))] =
      .ok ("a\nb", [some (LineChange.mk 2 "add" none (some "b"))]) ∧
    ("a\nb" : String) ≠ "a" :=
  ⟨by decide, by rfl, by decide⟩

/-- C7 (amended): for every original text of n lines and every single line
edit whose lineNumber is greater than n, and greater than n + 1 when its action
is add, applying the edit raises no error and yields the original text
unchanged. -/
theorem applyLineChanges_out_of_range (text : String) (change : LineChange)
    (h : ((splitLines text).length : Int) < change.lineNumber)
    (hadd : change.action = "add" → ((splitLines text).length : Int) + 1 < change.lineNumber) :
    applyLineChanges text [some change] = .ok (text, [some change]) := by
  have happly := applyLineChanges_map_some text [change]
  simp only [List.map_cons, List.map_nil] at happly
  rw [happly]
  simp [sortDesc, insertDesc, applyChange_out_of_range _ _ h hadd, joinLines_splitLines]

theorem applyLineChanges_out_of_range_witness :
    (((splitLines "a\nb").length : Int) < 3) ∧
    applyLineChanges "a\nb" [some (LineChange.mk 3 "remove" (some "c") none)] =
      .ok ("a\nb", [some (LineChange.mk 3 "remove" (some "c") none)]) :=
  ⟨by decide, applyLineChanges_out_of_range "a\nb" (LineChange.mk 3 "remove" (some "c") none)
    (by decide) (by decide)⟩

/-! ## Fix generator -/

theorem applyChange_remove_in_range (fixedLines : List String) (k : Nat)
    (originalLine newLine : Option String) (hk1 : 1 ≤ k) (hkn : k ≤ fixedLines.length) :
    applyChange fixedLines
        { lineNumber := k, action := "remove", originalLine := originalLine, newLine := newLine } =
      fixedLines.take (k - 1) ++ fixedLines.drop k := by
  have hidx : ((k : Int) - 1).toNat = k - 1 := by omega
  have hsucc : k - 1 + 1 = k := by omega
  unfold applyChange
  simp only [if_true]
  rw [if_pos (by constructor <;> omega), hidx, List.eraseIdx_eq_take_drop_succ, hsucc]

theorem sublist_no_newline (lines rest : List String) (hsub : List.Sublist rest lines)
    (h : ∀ line ∈ lines, '\n' ∉ line.data) : ∀ line ∈ rest, '\n' ∉ line.data :=
  fun line hline => h line (hsub.subset hline)

theorem take_append_drop_succ_sublist (lines : List String) (i : Nat) :
    List.Sublist (lines.take i ++ lines.drop (i + 1)) lines := by
  rw [← List.eraseIdx_eq_take_drop_succ]
  exact List.eraseIdx_sublist lines i

/-- C8: for every file of n lines and every k with 1 ≤ k ≤ n, when the model
reply is the object {needsFix: true, lineChanges: [{lineNumber: k, action:
"remove", originalLine}]}, generateFileFix returns needsFix = true and a
fixedCode that is the join of the n-1 lines left when line k is deleted: the
lines before k followed by the lines after k, unchanged and in order.  When
n ≥ 2, splitting fixedCode gives these n-1 lines back. -/
theorem generateFileFix_remove_line (file : FileReference) (k : Nat)
    (originalLine : Option String) (hk1 : 1 ≤ k)
    (hkn : k ≤ (splitLines file.sourceCode).length) :
    (generateFileFix file (removeLineReply k originalLine)).needsFix = true ∧
    (generateFileFix file (removeLineReply k originalLine)).fixedCode =
      some (joinLines ((splitLines file.sourceCode).take (k - 1) ++
        (splitLines file.sourceCode).drop k)) ∧
    ((splitLines file.sourceCode).take (k - 1) ++ (splitLines file.sourceCode).drop k).length =
      (splitLines file.sourceCode).length - 1 ∧
    (2 ≤ (splitLines file.sourceCode).length →
      splitLines (joinLines ((splitLines file.sourceCode).take (k - 1) ++
        (splitLines file.sourceCode).drop k)) =
      (splitLines file.sourceCode).take (k - 1) ++ (splitLines file.sourceCode).drop k) := by
  have happly := applyLineChanges_map_some file.sourceCode
    [{ lineNumber := k, action := "remove", originalLine := originalLine, newLine := none }]
  simp only [List.map_cons, List.map_nil, sortDesc, List.foldr_cons, List.foldr_nil, insertDesc,
    List.foldl_cons, List.foldl_nil,
    applyChange_remove_in_range _ k originalLine none hk1 hkn] at happly
  have hlen : ((splitLines file.sourceCode).take (k - 1) ++
      (splitLines file.sourceCode).drop k).length = (splitLines file.sourceCode).length - 1 := by
    rw [List.length_append, List.length_take, List.length_drop]
    omega
  refine ⟨?_, ?_, hlen, ?_⟩
  · simp [generateFileFix, removeLineReply, sanitizeFix, happly]
  · simp [generateFileFix, removeLineReply, sanitizeFix, happly]
  · intro h2
    have hsub : List.Sublist ((splitLines file.sourceCode).take (k - 1) ++
        (splitLines file.sourceCode).drop k) (splitLines file.sourceCode) := by
      have := take_append_drop_succ_sublist (splitLines file.sourceCode) (k - 1)
      rwa [show k - 1 + 1 = k by omega] at this
    refine splitLines_joinLines _ ?_
      (sublist_no_newline _ _ hsub (splitLines_no_newline file.sourceCode))
    intro hnil
    rw [hnil] at hlen
    simp at hlen
    omega

theorem generateFileFix_remove_line_witness :
    (1 ≤ 5 ∧ 5 ≤ (splitLines tenLineFile.sourceCode).length) ∧
    (splitLines tenLineFile.sourceCode).length = 10 ∧
    (generateFileFix tenLineFile (removeLineReply 5 (some "import unused;"))).needsFix = true ∧
    (generateFileFix tenLineFile (removeLineReply 5 (some "import unused;"))).fixedCode =
      some (joinLines ((splitLines tenLineFile.sourceCode).take 4 ++
        (splitLines tenLineFile.sourceCode).drop 5)) ∧
    joinLines ((splitLines tenLineFile.sourceCode).take 4 ++
        (splitLines tenLineFile.sourceCode).drop 5) =
      "import a;\nimport b;\nimport c;\nimport d;\nconst x = a;\nconst y = b;\nconst z = c;\nconst w = d;\nexport default x;" :=
  ⟨⟨by decide, by decide⟩, by decide,
    (generateFileFix_remove_line tenLineFile 5 (some "import unused;") (by decide)
      (by decide)).1,
    (generateFileFix_remove_line tenLineFile 5 (some "import unused;") (by decide)
      (by decide)).2.1,
    by decide⟩

/-- C9: for every file and every model reply, if the Fix Result returned by
generateFileFix has needsFix = true and a non-empty lineChanges list, then its
fixedCode is a string, not null. -/
theorem generateFileFix_fixedCode_present (file : FileReference) (reply : ModelReply)
    (hfix : (generateFileFix file reply).needsFix = true)
    (hchanges : (generateFileFix file reply).lineChanges ≠ []) :
    ∃ code : String, (generateFileFix file reply).fixedCode = some code := by
  cases reply with
  | failed message => simp [generateFileFix] at hfix
  | unparseable => simp [generateFileFix] at hfix
  | parsed fixData =>
    unfold generateFileFix at hfix hchanges ⊢
    simp only at hfix hchanges ⊢
    by_cases hguard : (sanitizeFix fixData).needsFix = true ∧
        0 < (sanitizeFix fixData).lineChanges.length
    · rw [if_pos hguard] at hfix hchanges ⊢
      cases happly : applyLineChanges file.sourceCode (sanitizeFix fixData).lineChanges with
      | error message =>
        rw [happly] at hfix
        simp at hfix
      | ok patched =>
        exact ⟨patched.1, by simp⟩
    · rw [if_neg hguard] at hfix hchanges
      exact absurd ⟨hfix, List.length_pos.mpr hchanges⟩ hguard

theorem generateFileFix_fixedCode_present_witness :
    ((generateFileFix tenLineFile (removeLineReply 5 none)).needsFix = true ∧
      (generateFileFix tenLineFile (removeLineReply 5 none)).lineChanges ≠ []) ∧
    ∃ code : String,
      (generateFileFix tenLineFile (removeLineReply 5 none)).fixedCode = some code :=
  ⟨⟨by decide, by decide⟩,
    generateFileFix_fixedCode_present tenLineFile (removeLineReply 5 none) (by decide)
      (by decide)⟩

theorem applyLineChanges_null_entry (sourceCode : String)
    (lineChanges : List (Option LineChange)) (hnull : none ∈ lineChanges) :
    applyLineChanges sourceCode lineChanges = .error nullReadMessage := by
  unfold applyLineChanges sortLineChanges
  by_cases hlen : 2 ≤ lineChanges.length
  · rw [if_pos ⟨hlen, hnull⟩]
  · rw [if_neg (fun h => hlen h.1)]
    match lineChanges, hnull, hlen with
    | [entry], hnull, _ =>
      have hentry : entry = none := by
        rcases List.mem_singleton.mp hnull with h
        exact h.symm
      subst hentry
      rfl
    | _ :: _ :: _, _, hlen => exact absurd (by simp) hlen

theorem generateFileFix_apply_error (file : FileReference) (fixData : FixData)
    (message : String)
    (herr : applyLineChanges file.sourceCode (fixData.lineChanges.getD []) = .error message) :
    (generateFileFix file (.parsed fixData)).needsFix = false ∧
      (generateFileFix file (.parsed fixData)).fixedCode = none := by
  have herr' : applyLineChanges file.sourceCode (sanitizeFix fixData).lineChanges =
      .error message := herr
  unfold generateFileFix
  simp only
  by_cases hguard : (sanitizeFix fixData).needsFix = true ∧
      0 < (sanitizeFix fixData).lineChanges.length
  · rw [if_pos hguard, herr']
    exact ⟨rfl, rfl⟩
  · rw [if_neg hguard]
    refine ⟨?_, rfl⟩
    by_contra hfix
    have hfix' : (sanitizeFix fixData).needsFix = true := by simpa using hfix
    have hnil : (sanitizeFix fixData).lineChanges = [] := by
      by_contra hne
      exact hguard ⟨hfix', List.length_pos.mpr hne⟩
    rw [hnil] at herr'
    have hok := applyLineChanges_map_some file.sourceCode []
    rw [List.map_nil, herr'] at hok
    cases hok

/-- C10: whenever applying the line edits of a reply raises an error, which
a null entry of lineChanges always does, generateFileFix returns needsFix = false
and fixedCode = null: no partially patched text is returned. -/
theorem generateFileFix_discards_failed_patch (file : FileReference) (fixData : FixData) :
    (none ∈ fixData.lineChanges.getD [] →
      ∃ message, applyLineChanges file.sourceCode (fixData.lineChanges.getD []) =
        .error message) ∧
    (∀ message, applyLineChanges file.sourceCode (fixData.lineChanges.getD []) =
        .error message →
      (generateFileFix file (.parsed fixData)).needsFix = false ∧
        (generateFileFix file (.parsed fixData)).fixedCode = none) ∧
    (none ∈ fixData.lineChanges.getD [] →
      (generateFileFix file (.parsed fixData)).needsFix = false ∧
        (generateFileFix file (.parsed fixData)).fixedCode = none) :=
  ⟨fun hnull => ⟨nullReadMessage, applyLineChanges_null_entry _ _ hnull⟩,
    fun message herr => generateFileFix_apply_error file fixData message herr,
    fun hnull => generateFileFix_apply_error file fixData nullReadMessage
      (applyLineChanges_null_entry _ _ hnull)⟩

theorem generateFileFix_discards_failed_patch_witness :
    none ∈ nullEntryFixData.lineChanges.getD [] ∧
    (sanitizeFix nullEntryFixData).needsFix = true ∧
    (generateFileFix tenLineFile (.parsed nullEntryFixData)).needsFix = false ∧
    (generateFileFix tenLineFile (.parsed nullEntryFixData)).fixedCode = none :=
  ⟨by decide, by decide,
    (generateFileFix_discards_failed_patch tenLineFile nullEntryFixData).2.2 (by decide)⟩

/-! ## Rounding and progress arithmetic -/

theorem mathRound_ratio (step total scale : Nat) (h : 0 < total) :
    mathRound ((step : ℚ) / (total : ℚ) * (scale : ℚ)) =
      (((2 * step * scale + total) / (2 * total) : Nat) : Int) := by
  have hq : ((step : ℚ) / (total : ℚ) * (scale : ℚ) + 1 / 2) =
      ((2 * step * scale + total : Nat) : ℚ) / ((2 * total : Nat) : ℚ) := by
    have ht : (total : ℚ) ≠ 0 := by exact_mod_cast (Nat.pos_iff_ne_zero.mp h)
    push_cast
    field_simp
    ring
  unfold mathRound
  rw [hq, Rat.floor_natCast_div_natCast]
  norm_cast

theorem mathRound_ratio_70 (step total : Nat) (h : 0 < total) :
    mathRound ((step : ℚ) / (total : ℚ) * 70) =
      (((2 * step * 70 + total) / (2 * total) : Nat) : Int) := by
  have := mathRound_ratio step total 70 h
  simpa using this

theorem mathRound_ratio_100 (step total : Nat) (h : 0 < total) :
    mathRound ((step : ℚ) / (total : ℚ) * 100) =
      (((2 * step * 100 + total) / (2 * total) : Nat) : Int) := by
  have := mathRound_ratio step total 100 h
  simpa using this

theorem roundedShare_le (step total scale : Nat) (h : 0 < total) (hs : step ≤ total) :
    (2 * step * scale + total) / (2 * total) ≤ scale := by
  have hlt : 2 * step * scale + total < (scale + 1) * (2 * total) := by
    have h1 : 2 * step * scale ≤ 2 * total * scale := by
      apply Nat.mul_le_mul_right
      omega
    nlinarith
  exact Nat.lt_succ_iff.mp ((Nat.div_lt_iff_lt_mul (by omega)).mpr hlt)

/-! ## Response parser -/

theorem matchJsonObject_without_brace (text : String)
    (h : ∀ c ∈ text.data, c ≠ '\x7b') : matchJsonObject text = none := by
  have hdrop : text.data.dropWhile (fun c => c != '\x7b') = [] := by
    rw [List.dropWhile_eq_nil_iff]
    intro c hc
    simpa using h c hc
  simp [matchJsonObject, hdrop]

theorem jsTrim_subset (text : String) : ∀ c ∈ (jsTrim text).data, c ∈ text.data := by
  intro c hc
  have h1 : c ∈ (text.data.dropWhile isJsWhitespace).reverse.dropWhile isJsWhitespace := by
    simpa [jsTrim] using hc
  have h2 := (List.dropWhile_sublist isJsWhitespace).subset h1
  have h3 : c ∈ text.data.dropWhile isJsWhitespace := by simpa using h2
  exact (List.dropWhile_sublist isJsWhitespace).subset h3

theorem parseFixReply_without_brace (rt : JsonRuntime) (text : String)
    (h : ∀ c ∈ text.data, c ≠ '\x7b') : parseFixReply rt text = none := by
  have hm : matchJsonObject (jsTrim text) = none :=
    matchJsonObject_without_brace _ (fun c hc => h c (jsTrim_subset text c hc))
  simp [parseFixReply, hm]

theorem sanitizeFix_explanation_absent (fixData : FixData) (h : fixData.explanation = none) :
    (sanitizeFix fixData).explanation = "No explanation provided" := by
  simp [sanitizeFix, explanationOf, h]

/-- C11: for every reply text the parse-and-sanitize stage returns a result,
every failure of JSON.parse being handled on the way: the fixed default with
needsFix = false and empty changes and lineChanges when no object is found
(which covers the empty string and prose without a brace), and otherwise the
sanitized structure of the extracted object, whose needsFix is the field's
truth value (false when absent), whose changes and lineChanges are the field's
array (empty when it is no array) and whose explanation is a string, the
placeholder 'No explanation provided' when the field is absent; an object with
none of the fields gives needsFix = false, the placeholder and two empty
arrays. -/
theorem parseAndSanitize_spec (rt : JsonRuntime) (text : String) :
    (parseFixReply rt text = none →
      parseAndSanitize rt text =
        { needsFix := false, fixedCode := none
          explanation := "Could not parse AI response - file may not need fixes"
          changes := [], lineChanges := [] }) ∧
    (∀ fixData, parseFixReply rt text = some fixData →
      parseAndSanitize rt text = sanitizeFix fixData ∧
      (parseAndSanitize rt text).needsFix = fixData.needsFix.getD false ∧
      (parseAndSanitize rt text).changes = fixData.changes.getD [] ∧
      (parseAndSanitize rt text).lineChanges = fixData.lineChanges.getD [] ∧
      (fixData.explanation = none →
        (parseAndSanitize rt text).explanation = "No explanation provided")) ∧
    ((∀ c ∈ text.data, c ≠ '\x7b') → parseFixReply rt text = none) ∧
    (parseFixReply rt "" = none) ∧
    (parseFixReply rt text =
        some { needsFix := none, explanation := none, changes := none, lineChanges := none } →
      parseAndSanitize rt text =
        { needsFix := false, fixedCode := none, explanation := "No explanation provided"
          changes := [], lineChanges := [] }) := by
  refine ⟨?_, ?_, parseFixReply_without_brace rt text, ?_, ?_⟩
  · intro h
    simp [parseAndSanitize, h]
  · intro fixData h
    have hs : parseAndSanitize rt text = sanitizeFix fixData := by
      simp [parseAndSanitize, h]
    refine ⟨hs, ?_, ?_, ?_, ?_⟩
    · rw [hs]; rfl
    · rw [hs]; rfl
    · rw [hs]; rfl
    · intro hnone
      rw [hs]
      exact sanitizeFix_explanation_absent fixData hnone
  · exact parseFixReply_without_brace rt "" (by simp)
  · intro h
    simp [parseAndSanitize, h, sanitizeFix, explanationOf]

theorem parseAndSanitize_spec_witness :
    parseFixReply emptyObjectRuntime "  \x7b\x7d \n" =
        some { needsFix := none, explanation := none, changes := none, lineChanges := none } ∧
    parseAndSanitize emptyObjectRuntime "  \x7b\x7d \n" =
        { needsFix := false, fixedCode := none, explanation := "No explanation provided"
          changes := [], lineChanges := [] } ∧
    parseAndSanitize emptyObjectRuntime "No changes are needed for this file." =
        { needsFix := false, fixedCode := none
          explanation := "Could not parse AI response - file may not need fixes"
          changes := [], lineChanges := [] } :=
  ⟨by decide,
    (parseAndSanitize_spec emptyObjectRuntime "  \x7b\x7d \n").2.2.2.2 (by decide),
    (parseAndSanitize_spec emptyObjectRuntime "No changes are needed for this file.").1
      ((parseAndSanitize_spec emptyObjectRuntime
        "No changes are needed for this file.").2.2.1 (by decide))⟩

/-- Outside the strings the function is called with: the JSON object string
{"a": "x\\y"} cut after its 9th character, within the escape sequence of its
string value, is repaired to {"a": "x\"} : the quote appended after the dangling
backslash is an escaped quote, so the scan of the result by the code's own
rules still ends inside the string literal.  Such a prefix does not end with a
closing brace, so the call of line 617 never passes it. -/
theorem repairTruncatedJson_dangling_escape :
    String.mk ("\x7b\"a\": \"x\\\\y\"\x7d".data.take 9) = "\x7b\"a\": \"x\\" ∧
    repairTruncatedJson "\x7b\"a\": \"x\\" = "\x7b\"a\": \"x\\\"\x7d" ∧
    (scanJson (repairTruncatedJson "\x7b\"a\": \"x\\")).inString = true := by
  decide

theorem mathRound_eq (x : ℚ) (z : Int) (hlo : (z : ℚ) ≤ x + 1 / 2) (hhi : x + 1 / 2 < (z : ℚ) + 1) :
    mathRound x = z :=
  Int.floor_eq_iff.mpr ⟨hlo, hhi⟩

/-! ## Orchestration progress -/

/-- C13 (failing input): for every plan with two new files and one modified
file, and nothing else, the progress values written are 5, 10, 10, 33, 30, 77,
100: the value falls from 33 to 30 when the modification phase opens. -/
theorem progress_falls_at_modification_phase (needsNewFiles : Bool)
    (reasoning : Option String) (a b : NewFileSpec) (m : FileModification)
    (generateNewFile : NewFileSpec → GeneratedFile)
    (fetchFile : FileModification → FetchOutcome)
    (modificationReply : FileModification → ModificationReply) :
    progressValues (processFileCreationJob
      { plannerReply := .parsed
          { needsNewFiles := needsNewFiles, reasoning := reasoning
            orchestratedPlan := some
              { newFiles := some [a, b], modifiedFiles := some [m], dependencyUpdates := none
                configurationChanges := none, integrationSteps := none } }
        generateNewFile := generateNewFile, fetchFile := fetchFile
        modificationReply := modificationReply }) = [5, 10, 10, 33, 30, 77, 100] ∧
    ¬ List.Chain' (fun p q : Int => p ≤ q) [5, 10, 10, 33, 30, 77, 100] := by
  have h0 : mathRound 0 = 0 := mathRound_eq _ 0 (by norm_num) (by norm_num)
  have h1 : mathRound ((3 : ℚ)⁻¹ * 70) = 23 := mathRound_eq _ 23 (by norm_num) (by norm_num)
  have h2 : mathRound ((2 : ℚ) / 3 * 70) = 47 := mathRound_eq _ 47 (by norm_num) (by norm_num)
  constructor
  · simp [processFileCreationJob, analyzeFeatureRequest, executePlan, newFileWrites,
      modificationWrites, progressValues, JobWrite.progressValue, h0, h1, h2]
  · simp

theorem scenario_progressValues (env : OrchestrationEnv) (needsNewFiles : Bool)
    (reasoning : Option String) (a b : NewFileSpec) (m : FileModification)
    (d : DependencyUpdate)
    (hreply : env.plannerReply = .parsed
      { needsNewFiles := needsNewFiles, reasoning := reasoning
        orchestratedPlan := some
          { newFiles := some [a, b], modifiedFiles := some [m], dependencyUpdates := some [d]
            configurationChanges := some [], integrationSteps := some [] } }) :
    progressValues (processFileCreationJob env) = [5, 10, 10, 28, 30, 65, 50, 100] := by
  have h0 : mathRound 0 = 0 := mathRound_eq _ 0 (by norm_num) (by norm_num)
  have h1 : mathRound ((4 : ℚ)⁻¹ * 70) = 18 := mathRound_eq _ 18 (by norm_num) (by norm_num)
  have h2 : mathRound ((2 : ℚ) / 4 * 70) = 35 := mathRound_eq _ 35 (by norm_num) (by norm_num)
  simp [processFileCreationJob, hreply, analyzeFeatureRequest, executePlan, newFileWrites,
    modificationWrites, progressValues, JobWrite.progressValue, h0, h1, h2]

/-- C14 (counterexample): for the plan with 2 new files, 1 modified file and 1
dependency update the progress values written are 5, 10, 10, 28, 30, 65, 50,
100, which are not strictly increasing from one write to the next. -/
theorem scenario_progress_not_increasing :
    progressValues (processFileCreationJob
      (sampleEnv (.parsed { needsNewFiles := true, reasoning := some "add an email service"
                            orchestratedPlan := some scenarioPlan }))) =
      [5, 10, 10, 28, 30, 65, 50, 100] ∧
    ¬ List.Chain' (fun p q : Int => p < q) [5, 10, 10, 28, 30, 65, 50, 100] :=
  ⟨scenario_progressValues _ true (some "add an email service") _ _ _ _ rfl, by simp⟩

/-- C14 (amended): for an orchestration plan with exactly 2 new files, 1
modified file and 1 dependency update (no configuration changes, no integration
steps), the six progress values written through the creation and modification
phases are non-decreasing, the first file of the creation phase repeating the
phase's opening value 10, and the last value written is exactly 100. -/
theorem scenario_progress_amended (env : OrchestrationEnv) (needsNewFiles : Bool)
    (reasoning : Option String) (a b : NewFileSpec) (m : FileModification)
    (d : DependencyUpdate)
    (hreply : env.plannerReply = .parsed
      { needsNewFiles := needsNewFiles, reasoning := reasoning
        orchestratedPlan := some
          { newFiles := some [a, b], modifiedFiles := some [m], dependencyUpdates := some [d]
            configurationChanges := some [], integrationSteps := some [] } }) :
    List.Chain' (fun p q : Int => p ≤ q) ((progressValues (processFileCreationJob env)).take 6) ∧
    (progressValues (processFileCreationJob env)).get? 1 = some 10 ∧
    (progressValues (processFileCreationJob env)).get? 2 = some 10 ∧
    (progressValues (processFileCreationJob env)).getLast? = some 100 := by
  rw [scenario_progressValues env needsNewFiles reasoning a b m d hreply]
  simp

theorem scenario_progress_amended_witness :
    List.Chain' (fun p q : Int => p ≤ q)
      ((progressValues (processFileCreationJob
        (sampleEnv (.parsed { needsNewFiles := true, reasoning := none
                              orchestratedPlan := some scenarioPlan })))).take 6) ∧
    (progressValues (processFileCreationJob
        (sampleEnv (.parsed { needsNewFiles := true, reasoning := none
                              orchestratedPlan := some scenarioPlan })))).getLast? = some 100 :=
  ⟨(scenario_progress_amended _ true none _ _ _ _ rfl).1,
    (scenario_progress_amended _ true none _ _ _ _ rfl).2.2.2⟩

/-! ## Redirect, dependency entries and file modification -/

theorem newFileWrites_progress (totalSteps : Nat) (specs : List NewFileSpec) :
    ∀ currentStep, ∀ w ∈ newFileWrites totalSteps currentStep specs,
      ∃ p file, w = JobWrite.progress p file := by
  induction specs with
  | nil => intro _ w hw; simp [newFileWrites] at hw
  | cons spec rest ih =>
    intro currentStep w hw
    rcases List.mem_cons.mp hw with rfl | hw
    · exact ⟨_, _, rfl⟩
    · exact ih _ w hw

theorem modificationWrites_progress (totalSteps : Nat) (mods : List FileModification) :
    ∀ currentStep, ∀ w ∈ modificationWrites totalSteps currentStep mods,
      ∃ p file, w = JobWrite.progress p file := by
  induction mods with
  | nil => intro _ w hw; simp [modificationWrites] at hw
  | cons m rest ih =>
    intro currentStep w hw
    rcases List.mem_cons.mp hw with rfl | hw
    · exact ⟨_, _, rfl⟩
    · exact ih _ w hw

/-- The result written at the end of a plan's execution (lines 1045-1056). -/
theorem executePlan_shape (env : OrchestrationEnv) (analysis : AnalysisResult)
    (plan : OrchestrationPlan) :
    ∃ (early : List JobWrite) (result : OrchestratedResult),
      executePlan env analysis plan =
        early ++ [JobWrite.completed 100 (JobResult.orchestratedImplementation result)] ∧
      (∀ w ∈ early, ∃ p file, w = JobWrite.progress p file) ∧
      result.dependencyUpdates = (plan.dependencyUpdates.getD []).map dependencyEntryOf := by
  refine ⟨_, _, rfl, ?_, rfl⟩
  intro w hw
  simp only [List.mem_append] at hw
  rcases hw with ((hw | hw) | hw) | hw
  · split at hw
    · rcases List.mem_cons.mp hw with rfl | hw
      · exact ⟨_, _, rfl⟩
      · exact newFileWrites_progress _ _ _ w hw
    · simp at hw
  · split at hw
    · rcases List.mem_cons.mp hw with rfl | hw
      · exact ⟨_, _, rfl⟩
      · exact modificationWrites_progress _ _ _ w hw
    · simp at hw
  · split at hw
    · rcases List.mem_singleton.mp hw with rfl
      exact ⟨_, _, rfl⟩
    · simp at hw
  · split at hw
    · rcases List.mem_singleton.mp hw with rfl
      exact ⟨_, _, rfl⟩
    · simp at hw

/-- C15 (counterexample): when the planner's reply cannot be parsed, the
analysis has needsNewFiles = true with the empty plan, and the job is not
redirected: it completes with an 'ORCHESTRATED_IMPLEMENTATION' result of empty
lists. -/
theorem unparseable_plan_not_redirected :
    processFileCreationJob (sampleEnv PlannerReply.unparseable) =
      [JobWrite.processing 5 "Planning orchestrated implementation...",
       JobWrite.completed 100 (JobResult.orchestratedImplementation
         { newFiles := [], modifiedFiles := [], dependencyUpdates := []
           configurationChanges := [], integrationSteps := []
           summary :=
             "Failed to parse AI response, but the feature likely requires new files" })] := by
  decide

/-- C15 (amended): whenever the analysis returned by the planner has
needsNewFiles false and carries no plan, processFileCreationJob redirects: it
completes the job with the redirect result (action 'REDIRECT' and the redirect
message) and writes no 'ORCHESTRATED_IMPLEMENTATION' result; whenever
needsNewFiles is true, as in the result produced when the planner's reply
cannot be parsed, it does not redirect and completes with an
'ORCHESTRATED_IMPLEMENTATION' result. -/
theorem processFileCreationJob_redirect (env : OrchestrationEnv) :
    ((analyzeFeatureRequest env.plannerReply).needsNewFiles = false →
      (analyzeFeatureRequest env.plannerReply).orchestratedPlan = none →
      processFileCreationJob env =
        [JobWrite.processing 5 "Planning orchestrated implementation...",
         JobWrite.completed 100 (JobResult.redirect redirectMessage)]) ∧
    ((analyzeFeatureRequest env.plannerReply).needsNewFiles = true →
      (∃ result, (processFileCreationJob env).getLast? =
        some (JobWrite.completed 100 (JobResult.orchestratedImplementation result))) ∧
      ∀ w ∈ processFileCreationJob env, ∀ p message,
        w ≠ JobWrite.completed p (JobResult.redirect message)) ∧
    (env.plannerReply = PlannerReply.unparseable →
      (analyzeFeatureRequest env.plannerReply).needsNewFiles = true) := by
  refine ⟨?_, ?_, ?_⟩
  · intro hneeds hplan
    simp [processFileCreationJob, hneeds, hplan, processRegularFixJob]
  · intro hneeds
    obtain ⟨early, result, hexec, hearly, _⟩ := executePlan_shape env
      (analyzeFeatureRequest env.plannerReply)
      ((analyzeFeatureRequest env.plannerReply).orchestratedPlan.getD
        { newFiles := none, modifiedFiles := none, dependencyUpdates := none,
          configurationChanges := none, integrationSteps := none })
    have hrun : processFileCreationJob env =
        JobWrite.processing 5 "Planning orchestrated implementation..." ::
          (early ++ [JobWrite.completed 100 (JobResult.orchestratedImplementation result)]) := by
      simp [processFileCreationJob, hneeds, hexec]
    constructor
    · refine ⟨result, ?_⟩
      rw [hrun, ← List.cons_append, List.getLast?_append]
      simp
    · intro w hw p message heq
      rw [hrun] at hw
      rcases List.mem_cons.mp hw with rfl | hw
      · cases heq
      · rcases List.mem_append.mp hw with hw | hw
        · obtain ⟨q, file, rfl⟩ := hearly w hw
          cases heq
        · rcases List.mem_singleton.mp hw with rfl
          cases heq
  · intro hreply
    rw [hreply]
    rfl

theorem processFileCreationJob_redirect_witness :
    (analyzeFeatureRequest (sampleEnv (PlannerReply.parsed
      { needsNewFiles := false, reasoning := some "an existing file has to be fixed"
        orchestratedPlan := none })).plannerReply).needsNewFiles = false ∧
    processFileCreationJob (sampleEnv (PlannerReply.parsed
      { needsNewFiles := false, reasoning := some "an existing file has to be fixed"
        orchestratedPlan := none })) =
      [JobWrite.processing 5 "Planning orchestrated implementation...",
       JobWrite.completed 100 (JobResult.redirect redirectMessage)] ∧
    (∃ result, (processFileCreationJob (sampleEnv PlannerReply.unparseable)).getLast? =
      some (JobWrite.completed 100 (JobResult.orchestratedImplementation result))) :=
  ⟨rfl,
    (processFileCreationJob_redirect _).1 rfl rfl,
    ((processFileCreationJob_redirect (sampleEnv PlannerReply.unparseable)).2.1 rfl).1⟩

/-! ## Fix generator: outcomes of the model call -/

/-- C16: for every file, and every behaviour of the model client, generateFileFix
returns a Fix Result, each raise inside it being handled: when the model client
raises an error with message e the result is needsFix = false, fixedCode = null,
changes = [], lineChanges = [] with explanation 'Error generating fix: ' followed
by e; for a reply text the result is the fixed default when no object is found,
the sanitized structure when no patch is due, that structure with the patched
text when the line changes apply, and that structure with needsFix = false and
fixedCode = null when applying them raises. -/
theorem generateFileFix_total (rt : JsonRuntime) (file : FileReference) :
    (∀ message : String,
      generateFileFixFromResponse rt file (.error message) =
        { needsFix := false, fixedCode := none
          explanation := "Error generating fix: " ++ message
          changes := [], lineChanges := [] }) ∧
    (∀ response : Except String String,
      ∃ result : FixResult, generateFileFixFromResponse rt file response = result) ∧
    (∀ text : String,
      (parseFixReply rt text = none ∧
        generateFileFixFromResponse rt file (.ok text) =
          { needsFix := false, fixedCode := none
            explanation := "Could not parse AI response - file may not need fixes"
            changes := [], lineChanges := [] }) ∨
      (∃ fixData, parseFixReply rt text = some fixData ∧
        (generateFileFixFromResponse rt file (.ok text) = sanitizeFix fixData ∨
         (∃ fixedCode sortedChanges,
            applyLineChanges file.sourceCode (sanitizeFix fixData).lineChanges =
              .ok (fixedCode, sortedChanges) ∧
            generateFileFixFromResponse rt file (.ok text) =
              { sanitizeFix fixData with
                fixedCode := some fixedCode, lineChanges := sortedChanges }) ∨
         (∃ message,
            applyLineChanges file.sourceCode (sanitizeFix fixData).lineChanges =
              .error message ∧
            (generateFileFixFromResponse rt file (.ok text)).needsFix = false ∧
            (generateFileFixFromResponse rt file (.ok text)).fixedCode = none)))) := by
  refine ⟨fun message => rfl, fun response => ⟨_, rfl⟩, ?_⟩
  intro text
  cases hparse : parseFixReply rt text with
  | none =>
    left
    exact ⟨rfl, by simp [generateFileFixFromResponse, classifyResponse, hparse, generateFileFix]⟩
  | some fixData =>
    right
    refine ⟨fixData, rfl, ?_⟩
    have hgen : generateFileFixFromResponse rt file (.ok text) =
        generateFileFix file (.parsed fixData) := by
      simp [generateFileFixFromResponse, classifyResponse, hparse]
    rw [hgen]
    unfold generateFileFix
    simp only
    by_cases hguard : (sanitizeFix fixData).needsFix = true ∧
        0 < (sanitizeFix fixData).lineChanges.length
    · rw [if_pos hguard]
      cases happly : applyLineChanges file.sourceCode (sanitizeFix fixData).lineChanges with
      | error message =>
        right; right
        exact ⟨message, rfl, rfl, rfl⟩
      | ok patched =>
        right; left
        exact ⟨patched.1, patched.2, rfl, rfl⟩
    · rw [if_neg hguard]
      left
      rfl

theorem generateFileFix_total_witness :
    generateFileFixFromResponse emptyObjectRuntime tenLineFile (.error "429 rate limited") =
      { needsFix := false, fixedCode := none
        explanation := "Error generating fix: 429 rate limited"
        changes := [], lineChanges := [] } :=
  (generateFileFix_total emptyObjectRuntime tenLineFile).1 "429 rate limited"

/-! ## Fix job -/

/-- The fix collected for one selected file: none when the generation raises
or needs no fix. -/
theorem fixLoop_fixes (generateFix : PrioritizedFile → Except String FixResult) (total : Nat)
    (files : List PrioritizedFile) :
    ∀ processedFiles, (fixLoop generateFix total files processedFiles).2 =
      files.filterMap (fun file =>
        match generateFix file with
        | .ok fix => if fix.needsFix then some (codeFixOf file fix) else none
        | .error _ => none) := by
  induction files with
  | nil => intro _; rfl
  | cons file rest ih =>
    intro processedFiles
    unfold fixLoop
    cases hgen : generateFix file with
    | error message =>
      simp only [List.filterMap_cons, hgen]
      exact ih _
    | ok fix =>
      simp only [List.filterMap_cons, hgen]
      by_cases hfix : fix.needsFix = true
      · simp only [hfix, if_true]
        rw [ih]
      · simp only [hfix]
        exact ih _

/-- The loop writes one progress record per selected file, carrying that
file's name, whatever the generations do. -/
theorem fixLoop_writes (generateFix : PrioritizedFile → Except String FixResult) (total : Nat)
    (files : List PrioritizedFile) :
    ∀ processedFiles,
      (fixLoop generateFix total files processedFiles).1.map
          (fun write => match write with
            | .progress _ currentFile => some currentFile
            | _ => none) =
        files.map (fun file => some file.file.fileName) := by
  induction files with
  | nil => intro _; rfl
  | cons file rest ih =>
    intro processedFiles
    unfold fixLoop
    cases hgen : generateFix file with
    | error message =>
      simp only [List.map_cons]
      rw [ih]
    | ok fix =>
      simp only [List.map_cons]
      rw [ih]

/-- C17: for every fix job (jobType not 'FILE_CREATION', isCreateMode false),
whatever each per-file generation does, the last write of processFixJob sets
status COMPLETED and progress 100 with result.fixes holding one entry for each
selected file whose generation returned needsFix = true, in selection order: the
entry carries that file's fileName, sourceCode (as originalCode) and summary and
the generated fix's fixedCode, explanation, changes and lineChanges.  A file
whose generation raises, or needs no fix, contributes no entry, and the job is
not aborted: every selected file gets its progress write, and the writes before
the last are these progress writes only. -/
theorem processFixJob_completes (generateFix : PrioritizedFile → Except String FixResult)
    (env : OrchestrationEnv) (jobData : JobData)
    (htype : jobData.jobType ≠ some "FILE_CREATION") (hmode : jobData.isCreateMode = false) :
    (processFixJob generateFix env jobData).getLast? =
      some (JobWrite.completed 100 (JobResult.fixes
        ((filesToProcess jobData.files jobData.question).filterMap (fun file =>
          match generateFix file with
          | .ok fix =>
              if fix.needsFix then
                some { fileName := file.file.fileName
                       originalCode := file.file.sourceCode
                       fixedCode := fix.fixedCode
                       summary := file.file.summary
                       explanation := fix.explanation
                       changes := fix.changes
                       lineChanges := fix.lineChanges }
              else none
          | .error _ => none)))) ∧
    (processFixJob generateFix env jobData).dropLast.map
        (fun write => match write with
          | .progress _ currentFile => some currentFile
          | _ => none) =
      (filesToProcess jobData.files jobData.question).map
        (fun file => some file.file.fileName) ∧
    (processFixJob generateFix env jobData).length =
      (filesToProcess jobData.files jobData.question).length + 1 := by
  have hdispatch : processFixJob generateFix env jobData =
      processRegularFiles generateFix jobData := by
    simp [processFixJob, htype, hmode]
  rw [hdispatch]
  unfold processRegularFiles
  refine ⟨?_, ?_, ?_⟩
  · simp only [List.getLast?_append, List.getLast?_singleton]
    rw [fixLoop_fixes]
    rfl
  · simp only [List.dropLast_concat]
    exact fixLoop_writes generateFix _ _ 0
  · have hlen := congrArg List.length (fixLoop_writes generateFix
      (filesToProcess jobData.files jobData.question).length
      (filesToProcess jobData.files jobData.question) 0)
    simp only [List.length_map] at hlen
    simp only [List.length_append, List.length_singleton, hlen]

theorem processFixJob_completes_witness :
    (sampleJob.jobType ≠ some "FILE_CREATION" ∧ sampleJob.isCreateMode = false) ∧
    (processFixJob sampleGenerateFix (sampleEnv PlannerReply.unparseable) sampleJob).getLast? =
      some (JobWrite.completed 100 (JobResult.fixes
        ((filesToProcess sampleJob.files sampleJob.question).filterMap (fun file =>
          match sampleGenerateFix file with
          | .ok fix =>
              if fix.needsFix then
                some { fileName := file.file.fileName
                       originalCode := file.file.sourceCode
                       fixedCode := fix.fixedCode
                       summary := file.file.summary
                       explanation := fix.explanation
                       changes := fix.changes
                       lineChanges := fix.lineChanges }
              else none
          | .error _ => none)))) ∧
    (processFixJob sampleGenerateFix (sampleEnv PlannerReply.unparseable) sampleJob).length =
      (filesToProcess sampleJob.files sampleJob.question).length + 1 :=
  ⟨⟨by decide, by decide⟩,
    (processFixJob_completes sampleGenerateFix _ sampleJob (by decide) (by decide)).1,
    (processFixJob_completes sampleGenerateFix _ sampleJob (by decide) (by decide)).2.2⟩

/-! ## File modification and dependency entries -/

/-- C18: whenever the model's reply to a file-modification prompt is not
parseable as JSON, generateFileModification returns fixedCode equal to the
original code it fetched (or to its stand-in text when the fetch failed with a
GitHub error), explanation equal to the modification's stated reason, and a
changes list of one entry, which records that reason. -/
theorem generateFileModification_unparseable (modification : ModificationSpec)
    (originalCode : String) :
    generateFileModification modification (.content originalCode) .unparseable =
      { originalCode := originalCode
        fixedCode := originalCode
        changes := [{ lineNumber := 1, type := "modify", oldContent := some "",
                      newContent := some "", reason := some modification.reason }]
        explanation := modification.reason
        summary := "Need to manually modify " ++ modification.path } ∧
    (generateFileModification modification (.content originalCode) .unparseable).changes ≠ [] ∧
    (generateFileModification modification .githubError .unparseable).fixedCode =
      (generateFileModification modification .githubError .unparseable).originalCode ∧
    (generateFileModification modification .githubError .unparseable).explanation =
      modification.reason ∧
    (generateFileModification modification .githubError .unparseable).changes =
      [{ lineNumber := 1, type := "modify", oldContent := some "",
         newContent := some "", reason := some modification.reason }] := by
  refine ⟨rfl, ?_, rfl, rfl, rfl⟩
  simp [generateFileModification, modificationFromReply]

theorem dependencyExplanation_first_reason (before after : List PackageUpdate)
    (p : PackageUpdate) (text : String)
    (hbefore : ∀ q ∈ before, q.reason = none ∨ q.reason = some "")
    (hp : p.reason = some text) (htext : text ≠ "") :
    dependencyExplanation (before ++ p :: after) = text := by
  induction before with
  | nil =>
    simp [dependencyExplanation, hp, htext]
  | cons q rest ih =>
    have hq := hbefore q (List.mem_cons_self _ _)
    have hrest := ih (fun r hr => hbefore r (List.mem_cons_of_mem _ hr))
    rcases hq with hq | hq
    · simpa [dependencyExplanation, hq] using hrest
    · simpa [dependencyExplanation, hq] using hrest

theorem dependencyExplanation_default (packages : List PackageUpdate)
    (h : ∀ q ∈ packages, q.reason = none ∨ q.reason = some "") :
    dependencyExplanation packages = "Dependencies added for new feature" := by
  induction packages with
  | nil => rfl
  | cons q rest ih =>
    have hrest := ih (fun r hr => h r (List.mem_cons_of_mem _ hr))
    rcases h q (List.mem_cons_self _ _) with hq | hq
    · simpa [dependencyExplanation, hq] using hrest
    · simpa [dependencyExplanation, hq] using hrest

/-- C19: the result written at the end of a plan's execution lists one entry
per dependency update of the plan, in order; the entry has fileName equal to
the update's file, dependencies equal to its packages unchanged, and explanation
equal to the first non-empty reason among its packages in list order, or
'Dependencies added for new feature' when no package has a non-empty reason. -/
theorem dependencyEntries_spec (env : OrchestrationEnv) (analysis : AnalysisResult)
    (plan : OrchestrationPlan) :
    (∃ result, (executePlan env analysis plan).getLast? =
        some (JobWrite.completed 100 (JobResult.orchestratedImplementation result)) ∧
      result.dependencyUpdates = (plan.dependencyUpdates.getD []).map dependencyEntryOf) ∧
    (∀ depUpdate : DependencyUpdate,
      (dependencyEntryOf depUpdate).fileName = depUpdate.file ∧
      (dependencyEntryOf depUpdate).dependencies = depUpdate.packages ∧
      (∀ before after p text, depUpdate.packages = before ++ p :: after →
        (∀ q ∈ before, q.reason = none ∨ q.reason = some "") →
        p.reason = some text → text ≠ "" →
        (dependencyEntryOf depUpdate).explanation = text) ∧
      ((∀ q ∈ depUpdate.packages, q.reason = none ∨ q.reason = some "") →
        (dependencyEntryOf depUpdate).explanation = "Dependencies added for new feature")) := by
  constructor
  · obtain ⟨early, result, hexec, _, hdeps⟩ := executePlan_shape env analysis plan
    refine ⟨result, ?_, hdeps⟩
    rw [hexec, List.getLast?_append]
    simp
  · intro depUpdate
    refine ⟨rfl, rfl, ?_, ?_⟩
    · intro before after p text hpk hbefore hp htext
      simp only [dependencyEntryOf, hpk]
      exact dependencyExplanation_first_reason before after p text hbefore hp htext
    · intro h
      exact dependencyExplanation_default depUpdate.packages h

theorem dependencyEntries_spec_witness :
    sampleDependency.packages =
      [{ name := "nodemailer", version := "^6.9.0", reason := none },
       { name := "handlebars", version := "^4.7.0", reason := some "" }] ++
      { name := "mjml", version := "^4.15.0", reason := some "email templates" } :: [] ∧
    (dependencyEntryOf sampleDependency).explanation = "email templates" :=
  ⟨rfl,
    (dependencyEntries_spec (sampleEnv PlannerReply.unparseable)
      (analyzeFeatureRequest PlannerReply.unparseable) scenarioPlan).2 sampleDependency
      |>.2.2.1
        [{ name := "nodemailer", version := "^6.9.0", reason := none },
         { name := "handlebars", version := "^4.7.0", reason := some "" }] []
        { name := "mjml", version := "^4.15.0", reason := some "email templates" }
        "email templates" rfl (by decide) rfl (by decide)⟩

/-! ## Progress range -/

theorem mathRound_share_bounds (step total scale : Nat) (h : 0 < total) (hs : step ≤ total) :
    0 ≤ mathRound ((step : ℚ) / (total : ℚ) * (scale : ℚ)) ∧
      mathRound ((step : ℚ) / (total : ℚ) * (scale : ℚ)) ≤ (scale : Int) := by
  rw [mathRound_ratio step total scale h]
  constructor
  · exact Int.natCast_nonneg _
  · exact_mod_cast roundedShare_le step total scale h hs

theorem fixLoop_progress_range (generateFix : PrioritizedFile → Except String FixResult)
    (total : Nat) (files : List PrioritizedFile) :
    ∀ processedFiles, processedFiles + files.length ≤ total →
      ∀ w ∈ (fixLoop generateFix total files processedFiles).1,
        ∀ p, w.progressValue = some p → 0 ≤ p ∧ p ≤ 100 := by
  induction files with
  | nil => intro _ _ w hw; simp [fixLoop] at hw
  | cons file rest ih =>
    intro processedFiles hle w hw p hp
    have hlen : processedFiles + (rest.length + 1) ≤ total := by simpa using hle
    have hbound := mathRound_share_bounds processedFiles total 100 (by omega) (by omega)
    have hhead : ∀ v : Int, v = mathRound ((processedFiles : ℚ) / (total : ℚ) * 100) →
        0 ≤ v ∧ v ≤ 100 := by
      intro v hv
      have h100 : ((100 : Nat) : ℚ) = 100 := by norm_num
      rw [h100] at hbound
      rw [hv]
      exact_mod_cast hbound
    unfold fixLoop at hw
    cases hgen : generateFix file with
    | error message =>
      rw [hgen] at hw
      rcases List.mem_cons.mp hw with rfl | hw
      · simp only [JobWrite.progressValue, Option.some.injEq] at hp
        exact hhead p hp.symm
      · exact ih processedFiles (by omega) w hw p hp
    | ok fix =>
      rw [hgen] at hw
      rcases List.mem_cons.mp hw with rfl | hw
      · simp only [JobWrite.progressValue, Option.some.injEq] at hp
        exact hhead p hp.symm
      · exact ih (processedFiles + 1) (by omega) w hw p hp

theorem newFileWrites_range (totalSteps : Nat) (specs : List NewFileSpec) :
    ∀ currentStep, currentStep + specs.length ≤ totalSteps →
      ∀ w ∈ newFileWrites totalSteps currentStep specs,
        ∀ p, w.progressValue = some p → 0 ≤ p ∧ p ≤ 100 := by
  induction specs with
  | nil => intro _ _ w hw; simp [newFileWrites] at hw
  | cons spec rest ih =>
    intro currentStep hle w hw p hp
    have hlen : currentStep + (rest.length + 1) ≤ totalSteps := by simpa using hle
    rcases List.mem_cons.mp hw with rfl | hw
    · have hbound := mathRound_share_bounds currentStep totalSteps 70 (by omega) (by omega)
      have h70 : ((70 : Nat) : ℚ) = 70 := by norm_num
      rw [h70] at hbound
      simp only [JobWrite.progressValue, Option.some.injEq] at hp
      have h1 := hbound.1
      have h2 : mathRound ((currentStep : ℚ) / (totalSteps : ℚ) * 70) ≤ 70 := by
        exact_mod_cast hbound.2
      omega
    · exact ih (currentStep + 1) (by omega) w hw p hp

theorem modificationWrites_range (totalSteps : Nat) (mods : List FileModification) :
    ∀ currentStep, currentStep + mods.length ≤ totalSteps →
      ∀ w ∈ modificationWrites totalSteps currentStep mods,
        ∀ p, w.progressValue = some p → 0 ≤ p ∧ p ≤ 100 := by
  induction mods with
  | nil => intro _ _ w hw; simp [modificationWrites] at hw
  | cons m rest ih =>
    intro currentStep hle w hw p hp
    have hlen : currentStep + (rest.length + 1) ≤ totalSteps := by simpa using hle
    rcases List.mem_cons.mp hw with rfl | hw
    · have hbound := mathRound_share_bounds currentStep totalSteps 70 (by omega) (by omega)
      have h70 : ((70 : Nat) : ℚ) = 70 := by norm_num
      rw [h70] at hbound
      simp only [JobWrite.progressValue, Option.some.injEq] at hp
      have h1 := hbound.1
      have h2 : mathRound ((currentStep : ℚ) / (totalSteps : ℚ) * 70) ≤ 70 := by
        exact_mod_cast hbound.2
      omega
    · exact ih (currentStep + 1) (by omega) w hw p hp

theorem executePlan_range (env : OrchestrationEnv) (analysis : AnalysisResult)
    (plan : OrchestrationPlan) :
    ∀ w ∈ executePlan env analysis plan, ∀ p, w.progressValue = some p → 0 ≤ p ∧ p ≤ 100 := by
  intro w hw p hp
  unfold executePlan at hw
  simp only [List.mem_append] at hw
  rcases hw with (((hw | hw) | hw) | hw) | hw
  · split at hw
    · rcases List.mem_cons.mp hw with rfl | hw
      · simp only [JobWrite.progressValue, Option.some.injEq] at hp
        omega
      · exact newFileWrites_range _ _ 0 (by omega) w hw p hp
    · simp at hw
  · split at hw
    · rcases List.mem_cons.mp hw with rfl | hw
      · simp only [JobWrite.progressValue, Option.some.injEq] at hp
        omega
      · exact modificationWrites_range _ _ _ (by omega) w hw p hp
    · simp at hw
  · split at hw
    · rcases List.mem_singleton.mp hw with rfl
      simp only [JobWrite.progressValue, Option.some.injEq] at hp
      omega
    · simp at hw
  · split at hw
    · rcases List.mem_singleton.mp hw with rfl
      simp only [JobWrite.progressValue, Option.some.injEq] at hp
      omega
    · simp at hw
  · rcases List.mem_singleton.mp hw with rfl
    simp only [JobWrite.progressValue, Option.some.injEq] at hp
    omega

/-- C20: every progress value that processFixJob writes to the job record, on
the per-file fix path and on the orchestration path alike and for every job,
plan and behaviour of the collaborators, is an integer between 0 and 100
inclusive. -/
theorem processFixJob_progress_range
    (generateFix : PrioritizedFile → Except String FixResult) (env : OrchestrationEnv)
    (jobData : JobData) :
    ∀ w ∈ processFixJob generateFix env jobData, ∀ p : Int,
      w.progressValue = some p → 0 ≤ p ∧ p ≤ 100 := by
  intro w hw p hp
  unfold processFixJob at hw
  split at hw
  · unfold processFileCreationJob at hw
    rcases List.mem_cons.mp hw with rfl | hw
    · simp only [JobWrite.progressValue, Option.some.injEq] at hp
      omega
    · split at hw
      · rcases List.mem_singleton.mp hw with rfl
        simp only [JobWrite.progressValue, Option.some.injEq] at hp
        omega
      · exact executePlan_range env _ _ w hw p hp
  · unfold processRegularFiles at hw
    rcases List.mem_append.mp hw with hw | hw
    · exact fixLoop_progress_range generateFix _ _ 0 (by omega) w hw p hp
    · rcases List.mem_singleton.mp hw with rfl
      simp only [JobWrite.progressValue, Option.some.injEq] at hp
      omega

theorem processFixJob_progress_range_witness :
    JobWrite.progress 65 (some "Updating src/index.ts...") ∈
      processFixJob sampleGenerateFix
        (sampleEnv (.parsed { needsNewFiles := true, reasoning := none
                              orchestratedPlan := some scenarioPlan }))
        { sampleJob with jobType := some "FILE_CREATION" } ∧
    (0 : Int) ≤ 65 ∧ (65 : Int) ≤ 100 := by
  have h2 : mathRound ((2 : ℚ) / 4 * 70) = 35 := mathRound_eq _ 35 (by norm_num) (by norm_num)
  have hmem : JobWrite.progress 65 (some "Updating src/index.ts...") ∈
      processFixJob sampleGenerateFix
        (sampleEnv (.parsed { needsNewFiles := true, reasoning := none
                              orchestratedPlan := some scenarioPlan }))
        { sampleJob with jobType := some "FILE_CREATION" } := by
    simp [processFixJob, sampleJob, processFileCreationJob, sampleEnv, analyzeFeatureRequest,
      executePlan, scenarioPlan, newFileWrites, modificationWrites, sampleModification,
      sampleSpec, h2]
  exact ⟨hmem, processFixJob_progress_range _ _ _ _ hmem 65 rfl⟩

/-! ## Patch applier: sequential application against the original snapshot -/

theorem applyChange_at (before after : List String) (line : String) (change : LineChange)
    (hline : change.lineNumber = (before.length : Int) + 1) :
    applyChange (before ++ line :: after) change = before ++ (lineEdit change line ++ after) := by
  have hidx : (change.lineNumber - 1).toNat = before.length := by omega
  have hrange : 0 ≤ change.lineNumber - 1 ∧
      change.lineNumber - 1 < ((before ++ line :: after).length : Int) := by
    simp only [List.length_append, List.length_cons]
    push_cast
    omega
  have hrange' : 0 ≤ change.lineNumber - 1 ∧
      change.lineNumber - 1 ≤ ((before ++ line :: after).length : Int) :=
    ⟨hrange.1, le_of_lt hrange.2⟩
  unfold applyChange lineEdit
  by_cases hr : change.action = "remove"
  · simp only [hr, if_true, if_pos hrange, hidx]
    rw [List.eraseIdx_append_of_length_le (le_refl _)]
    simp
  · by_cases hp : change.action = "replace"
    · simp only [hr, hp, if_true, if_false, if_pos hrange, hidx]
      rw [List.set_append_right _ _ (le_refl _)]
      simp
    · by_cases ha : change.action = "add"
      · simp only [hr, hp, ha, if_true, if_false, if_pos hrange', hidx]
        have htake : List.take (before.length + 1) before = before :=
          List.take_of_length_le (by omega)
        have hdrop : List.drop (before.length + 1) before = [] :=
          List.drop_of_length_le (by omega)
        simp [List.take_append_eq_append_take, List.drop_append_eq_append_drop, htake, hdrop]
      · simp only [hr, hp, ha, if_false]
        simp

theorem editedLine_cons_ne (change : LineChange) (rest : List LineChange) (i : Nat)
    (line : String) (h : change.lineNumber ≠ (i : Int)) :
    editedLine (change :: rest) i line = editedLine rest i line := by
  simp [editedLine, List.find?_cons, h]

theorem editedLine_cons_eq (change : LineChange) (rest : List LineChange) (i : Nat)
    (line : String) (h : change.lineNumber = (i : Int)) :
    editedLine (change :: rest) i line = lineEdit change line := by
  simp [editedLine, List.find?_cons, h]

theorem simultaneousFrom_append (edits : List LineChange) (front back : List String) :
    ∀ i : Nat, simultaneousFrom edits i (front ++ back) =
      simultaneousFrom edits i front ++ simultaneousFrom edits (i + front.length) back := by
  induction front with
  | nil => intro i; simp [simultaneousFrom]
  | cons line rest ih =>
    intro i
    have hidx : i + 1 + rest.length = i + (rest.length + 1) := by omega
    rw [List.cons_append]
    simp only [simultaneousFrom, List.length_cons]
    rw [ih (i + 1), hidx, List.append_assoc]

theorem simultaneousFrom_cons_skip (change : LineChange) (rest : List LineChange)
    (lines : List String) :
    ∀ i : Nat,
      (change.lineNumber < (i : Int) ∨ ((i + lines.length : Nat) : Int) ≤ change.lineNumber) →
      simultaneousFrom (change :: rest) i lines = simultaneousFrom rest i lines := by
  induction lines with
  | nil => intro i _; rfl
  | cons line more ih =>
    intro i h
    have hne : change.lineNumber ≠ (i : Int) := by
      rcases h with h | h
      · omega
      · simp only [List.length_cons] at h
        push_cast at h
        omega
    have hmore : change.lineNumber < ((i + 1 : Nat) : Int) ∨
        ((i + 1 + more.length : Nat) : Int) ≤ change.lineNumber := by
      rcases h with h | h
      · left; push_cast; omega
      · right
        simp only [List.length_cons] at h
        push_cast at h ⊢
        omega
    simp only [simultaneousFrom, editedLine_cons_ne change rest i line hne, ih (i + 1) hmore]

theorem simultaneousFrom_nil (lines : List String) :
    ∀ i : Nat, simultaneousFrom [] i lines = lines := by
  induction lines with
  | nil => intro i; rfl
  | cons line more ih =>
    intro i
    simp [simultaneousFrom, editedLine, ih]

theorem simultaneousFrom_untouched (edits : List LineChange) (lines : List String) (i : Nat)
    (h : ∀ change ∈ edits, change.lineNumber < (i : Int)) :
    simultaneousFrom edits i lines = lines := by
  induction edits with
  | nil => exact simultaneousFrom_nil lines i
  | cons change rest ih =>
    rw [simultaneousFrom_cons_skip change rest lines i
      (Or.inl (h change (List.mem_cons_self _ _)))]
    exact ih (fun c hc => h c (List.mem_cons_of_mem _ hc))

/-- Applying edits in strictly descending order of line number, all within the
lines, edits each original line in place; what follows the lines is untouched. -/
theorem foldl_applyChange_descending :
    ∀ (edits : List LineChange),
      edits.Pairwise (fun a b => b.lineNumber < a.lineNumber) →
      ∀ (lines tail : List String),
        (∀ change ∈ edits, 1 ≤ change.lineNumber ∧ change.lineNumber ≤ (lines.length : Int)) →
        edits.foldl applyChange (lines ++ tail) = simultaneousFrom edits 1 lines ++ tail := by
  intro edits
  induction edits with
  | nil =>
    intro _ lines tail _
    simp [simultaneousFrom_nil]
  | cons change rest ih =>
    intro hdesc lines tail hrange
    have hpair := List.pairwise_cons.mp hdesc
    obtain ⟨hlo, hhi⟩ := hrange change (List.mem_cons_self _ _)
    have hsplit : lines = lines.take (change.lineNumber - 1).toNat ++
        lines.drop (change.lineNumber - 1).toNat := (List.take_append_drop _ _).symm
    have hlt : (change.lineNumber - 1).toNat < lines.length := by omega
    cases hdrop : lines.drop (change.lineNumber - 1).toNat with
    | nil =>
      have := List.drop_eq_nil_iff.mp hdrop
      omega
    | cons line after =>
      have hbefore : (lines.take (change.lineNumber - 1).toNat).length =
          (change.lineNumber - 1).toNat := by
        rw [List.length_take]
        omega
      have hlines : lines = lines.take (change.lineNumber - 1).toNat ++ line :: after := by
        rw [← hdrop]
        exact hsplit
      have hnum : change.lineNumber =
          ((lines.take (change.lineNumber - 1).toNat).length : Int) + 1 := by
        rw [hbefore]
        omega
      have hrest : ∀ c ∈ rest, 1 ≤ c.lineNumber ∧
          c.lineNumber ≤ ((lines.take (change.lineNumber - 1).toNat).length : Int) := by
        intro c hc
        have h1 := (hrange c (List.mem_cons_of_mem _ hc)).1
        have h2 := hpair.1 c hc
        rw [hbefore]
        omega
      have hstep : applyChange (lines ++ tail) change =
          lines.take (change.lineNumber - 1).toNat ++ (lineEdit change line ++ (after ++ tail)) := by
        conv_lhs => rw [hlines]
        rw [List.append_assoc, List.cons_append]
        exact applyChange_at _ _ line change hnum
      rw [List.foldl_cons, hstep, ih hpair.2 _ _ hrest]
      conv_rhs => rw [hlines]
      rw [simultaneousFrom_append, hbefore]
      have hskip : simultaneousFrom (change :: rest) 1
            (lines.take (change.lineNumber - 1).toNat) =
          simultaneousFrom rest 1 (lines.take (change.lineNumber - 1).toNat) := by
        apply simultaneousFrom_cons_skip
        right
        rw [hbefore]
        push_cast
        omega
      have hhere : editedLine (change :: rest) (1 + (change.lineNumber - 1).toNat) line =
          lineEdit change line := by
        apply editedLine_cons_eq
        push_cast
        omega
      have hafter : simultaneousFrom (change :: rest)
            (1 + (change.lineNumber - 1).toNat + 1) after = after := by
        apply simultaneousFrom_untouched
        intro c hc
        rcases List.mem_cons.mp hc with rfl | hc
        · push_cast; omega
        · have := hpair.1 c hc
          push_cast
          omega
      simp only [simultaneousFrom, hskip, hhere, hafter, List.append_assoc]

section DistinctKeys

variable {α κ : Type} [DecidableEq κ] (key : α → κ)

theorem filter_key_length_le_one (l : List α) (hnodup : (l.map key).Nodup) (k : κ) :
    (l.filter (fun x => decide (key x = k))).length ≤ 1 := by
  induction l with
  | nil => simp
  | cons a l ih =>
    have hcons : key a ∉ l.map key ∧ (l.map key).Nodup := by
      rw [List.map_cons] at hnodup
      exact List.nodup_cons.mp hnodup
    by_cases hk : key a = k
    · have hnone : l.filter (fun x => decide (key x = k)) = [] := by
        rw [List.filter_eq_nil_iff]
        intro x hx hxk
        have hxk' : key x = k := by simpa using hxk
        exact hcons.1 (List.mem_map.mpr ⟨x, hx, hxk'.trans hk.symm⟩)
      simp [List.filter_cons, hk, hnone]
    · simpa [List.filter_cons, hk] using ih hcons.2

theorem filter_key_eq_of_perm (l l' : List α) (hperm : List.Perm l l')
    (hnodup : (l.map key).Nodup) (k : κ) :
    l.filter (fun x => decide (key x = k)) = l'.filter (fun x => decide (key x = k)) := by
  have hlen := filter_key_length_le_one key l hnodup k
  have hp := hperm.filter (fun x => decide (key x = k))
  match hfl : l.filter (fun x => decide (key x = k)), hlen, hp with
  | [], _, hp => exact hp.nil_eq
  | [a], _, hp => exact (List.perm_singleton.mp hp.symm).symm
  | _ :: _ :: _, hlen, _ => simp at hlen

theorem find?_eq_head?_filter (p : α → Bool) (l : List α) :
    l.find? p = (l.filter p).head? := by
  induction l with
  | nil => rfl
  | cons a l ih =>
    cases ha : p a with
    | true => simp only [List.find?_cons, List.filter_cons, ha, if_true, List.head?_cons]
    | false =>
      simp only [List.find?_cons, List.filter_cons, ha]
      exact ih

end DistinctKeys

theorem sortDesc_strict (edits : List LineChange)
    (hdistinct : (edits.map LineChange.lineNumber).Nodup) :
    (sortDesc LineChange.lineNumber edits).Pairwise
      (fun a b => b.lineNumber < a.lineNumber) := by
  have hsorted := sortDesc_sorted LineChange.lineNumber edits
  have hnodup : ((sortDesc LineChange.lineNumber edits).map LineChange.lineNumber).Nodup :=
    ((sortDesc_perm LineChange.lineNumber edits).map _).nodup_iff.mpr hdistinct
  have hne : (sortDesc LineChange.lineNumber edits).Pairwise
      (fun a b => a.lineNumber ≠ b.lineNumber) := List.pairwise_map.mp hnodup
  exact (hsorted.and hne).imp (fun h => lt_of_le_of_ne h.1 (Ne.symm h.2))

theorem simultaneousFrom_congr (edits edits' : List LineChange)
    (h : ∀ i : Nat, edits.find? (fun change => decide (change.lineNumber = (i : Int))) =
      edits'.find? (fun change => decide (change.lineNumber = (i : Int))))
    (lines : List String) :
    ∀ i : Nat, simultaneousFrom edits i lines = simultaneousFrom edits' i lines := by
  induction lines with
  | nil => intro i; rfl
  | cons line more ih =>
    intro i
    simp only [simultaneousFrom, editedLine, h i, ih (i + 1)]

theorem simultaneousEdit_sortDesc (edits : List LineChange)
    (hdistinct : (edits.map LineChange.lineNumber).Nodup) (lines : List String) :
    simultaneousEdit (sortDesc LineChange.lineNumber edits) lines =
      simultaneousEdit edits lines := by
  apply simultaneousFrom_congr
  intro i
  rw [find?_eq_head?_filter, find?_eq_head?_filter]
  rw [filter_key_eq_of_perm LineChange.lineNumber edits _
    (sortDesc_perm LineChange.lineNumber edits).symm hdistinct (i : Int)]

/-- C21: for every original text of n lines and every list of edits whose
lineNumbers are pairwise distinct and all within 1..n, applying the edits one
after the other in descending order of line number raises nothing and gives the
simultaneous edit of the original snapshot: the concatenation over the original
lines i = 1..n of nothing if line i has a remove edit, the edit's newLine if it
has a replace edit, line i followed by the edit's newLine if it has an add edit,
and line i alone otherwise. -/
theorem applyLineChanges_simultaneous (text : String) (edits : List LineChange)
    (hdistinct : (edits.map LineChange.lineNumber).Nodup)
    (hrange : ∀ change ∈ edits,
      1 ≤ change.lineNumber ∧ change.lineNumber ≤ ((splitLines text).length : Int)) :
    applyLineChanges text (edits.map some) =
      .ok (joinLines (simultaneousEdit edits (splitLines text)),
        (sortDesc LineChange.lineNumber edits).map some) := by
  rw [applyLineChanges_map_some]
  have hfold := foldl_applyChange_descending (sortDesc LineChange.lineNumber edits)
    (sortDesc_strict edits hdistinct) (splitLines text) []
    (fun change hc => hrange change ((sortDesc_perm _ _).mem_iff.mp hc))
  simp only [List.append_nil] at hfold
  rw [hfold]
  have hsame := simultaneousEdit_sortDesc edits hdistinct (splitLines text)
  unfold simultaneousEdit at hsame
  rw [hsame]
  rfl

theorem applyLineChanges_simultaneous_witness :
    ((mixedEdits.map LineChange.lineNumber).Nodup ∧
      ∀ change ∈ mixedEdits,
        1 ≤ change.lineNumber ∧ change.lineNumber ≤ ((splitLines fourLineText).length : Int)) ∧
    simultaneousEdit mixedEdits (splitLines fourLineText) =
      ["alpha", "inserted", "BETA", "gamma"] ∧
    applyLineChanges fourLineText (mixedEdits.map some) =
      .ok (joinLines (simultaneousEdit mixedEdits (splitLines fourLineText)),
        (sortDesc LineChange.lineNumber mixedEdits).map some) :=
  ⟨⟨by decide, by decide⟩, by decide,
    applyLineChanges_simultaneous fourLineText mixedEdits (by decide) (by decide)⟩

theorem applyChange_add_in_range (fixedLines : List String) (k : Nat)
    (originalLine newLine : Option String) (hk1 : 1 ≤ k) (hkn : k ≤ fixedLines.length + 1) :
    applyChange fixedLines
        { lineNumber := k, action := "add", originalLine := originalLine, newLine := newLine } =
      fixedLines.take k ++ newLine.getD "" :: fixedLines.drop k := by
  have hidx : ((k : Int) - 1).toNat + 1 = k := by omega
  have hremove : ¬ ("add" : String) = "remove" := by decide
  have hreplace : ¬ ("add" : String) = "replace" := by decide
  unfold applyChange
  simp only [hremove, hreplace, if_false, if_true]
  rw [if_pos (by constructor <;> omega), hidx]
  rfl

/-- C22: for every original text of n lines and every single add edit with
lineNumber k where 1 ≤ k ≤ n+1, applying the edit raises nothing and the result
is the join of n+1 lines: the first k original lines, then the edit's newLine
(the empty line when the edit has none), then the remaining original lines; so
the newLine stands immediately after original line k when k ≤ n and is the last
line when k = n+1, and all original lines are kept in order.  When the newLine
holds no newline character, splitting the result gives these n+1 lines back. -/
theorem applyLineChanges_add (text : String) (k : Nat) (originalLine newLine : Option String)
    (hk1 : 1 ≤ k) (hkn : k ≤ (splitLines text).length + 1) :
    applyLineChanges text
        [some { lineNumber := k, action := "add", originalLine := originalLine,
                newLine := newLine }] =
      .ok (joinLines ((splitLines text).take k ++ newLine.getD "" :: (splitLines text).drop k),
        [some { lineNumber := k, action := "add", originalLine := originalLine,
                newLine := newLine }]) ∧
    ((splitLines text).take k ++ newLine.getD "" :: (splitLines text).drop k).length =
      (splitLines text).length + 1 ∧
    (k = (splitLines text).length + 1 →
      (splitLines text).take k ++ newLine.getD "" :: (splitLines text).drop k =
        splitLines text ++ [newLine.getD ""]) ∧
    (splitLines text).take k ++ (splitLines text).drop k = splitLines text ∧
    ('\n' ∉ (newLine.getD "").data →
      splitLines (joinLines
        ((splitLines text).take k ++ newLine.getD "" :: (splitLines text).drop k)) =
      (splitLines text).take k ++ newLine.getD "" :: (splitLines text).drop k) := by
  have happly := applyLineChanges_map_some text
    [{ lineNumber := k, action := "add", originalLine := originalLine, newLine := newLine }]
  simp only [List.map_cons, List.map_nil, sortDesc, List.foldr_cons, List.foldr_nil, insertDesc,
    List.foldl_cons, List.foldl_nil,
    applyChange_add_in_range _ k originalLine newLine hk1 hkn] at happly
  refine ⟨happly, ?_, ?_, List.take_append_drop _ _, ?_⟩
  · simp only [List.length_append, List.length_take, List.length_cons, List.length_drop]
    omega
  · intro hk
    rw [List.take_of_length_le (by omega), List.drop_of_length_le (by omega)]
  · intro hnl
    refine splitLines_joinLines _ (by simp) ?_
    intro line hline
    rcases List.mem_append.mp hline with h | h
    · exact splitLines_no_newline text line ((List.take_sublist _ _).subset h)
    · rcases List.mem_cons.mp h with rfl | h
      · exact hnl
      · exact splitLines_no_newline text line ((List.drop_sublist _ _).subset h)

theorem applyLineChanges_add_witness :
    (1 ≤ 5 ∧ 5 ≤ (splitLines fourLineText).length + 1) ∧
    applyLineChanges fourLineText
        [some { lineNumber := 5, action := "add", originalLine := none,
                newLine := some "epsilon" }] =
      .ok ("alpha\nbeta\ngamma\ndelta\nepsilon",
        [some { lineNumber := 5, action := "add", originalLine := none,
                newLine := some "epsilon" }]) ∧
    applyLineChanges fourLineText
        [some { lineNumber := ((2 : Nat) : Int), action := "add", originalLine := none,
                newLine := some "inserted" }] =
      .ok (joinLines ((splitLines fourLineText).take 2 ++
          (some "inserted").getD "" :: (splitLines fourLineText).drop 2),
        [some { lineNumber := ((2 : Nat) : Int), action := "add", originalLine := none,
                newLine := some "inserted" }]) ∧
    joinLines ((splitLines fourLineText).take 2 ++
        (some "inserted").getD "" :: (splitLines fourLineText).drop 2) =
      "alpha\nbeta\ninserted\ngamma\ndelta" :=
  ⟨⟨by decide, by decide⟩, by rfl,
    (applyLineChanges_add fourLineText 2 none (some "inserted") (by decide) (by decide)).1,
    by decide⟩

/-- C27: for every original text and every list of line edits whose
lineNumbers are pairwise distinct, applying any permutation of the list yields
the same text (and the same sorted changes) as applying the list itself. -/
theorem applyLineChanges_perm_distinct (text : String) (edits permuted : List LineChange)
    (hdistinct : (edits.map LineChange.lineNumber).Nodup)
    (hperm : List.Perm edits permuted) :
    applyLineChanges text (permuted.map some) = applyLineChanges text (edits.map some) := by
  rw [applyLineChanges_map_some, applyLineChanges_map_some,
    sortDesc_congr LineChange.lineNumber edits permuted
      (fun n => filter_key_eq_of_perm LineChange.lineNumber edits permuted hperm hdistinct n)]

theorem applyLineChanges_perm_distinct_witness :
    ((mixedEdits.map LineChange.lineNumber).Nodup ∧
      List.Perm mixedEdits mixedEdits.reverse) ∧
    applyLineChanges fourLineText (mixedEdits.reverse.map some) =
      applyLineChanges fourLineText (mixedEdits.map some) ∧
    applyLineChanges fourLineText (mixedEdits.map some) =
      .ok ("alpha\ninserted\nBETA\ngamma", (sortDesc LineChange.lineNumber mixedEdits).map some) :=
  ⟨⟨by decide, (List.reverse_perm mixedEdits).symm⟩,
    applyLineChanges_perm_distinct fourLineText mixedEdits mixedEdits.reverse (by decide)
      (List.reverse_perm mixedEdits).symm,
    by rfl⟩

/-! ## The originalLine of an edit is not read -/

theorem insertDesc_map {α β κ : Type} [LinearOrder κ] (f : α → β) (key : α → κ) (key' : β → κ)
    (hkey : ∀ a, key' (f a) = key a) (a : α) (l : List α) :
    insertDesc key' (f a) (l.map f) = (insertDesc key a l).map f := by
  induction l with
  | nil => rfl
  | cons b l ih =>
    simp only [List.map_cons, insertDesc, hkey]
    split
    · rfl
    · rw [ih]; rfl

theorem sortDesc_map {α β κ : Type} [LinearOrder κ] (f : α → β) (key : α → κ) (key' : β → κ)
    (hkey : ∀ a, key' (f a) = key a) (l : List α) :
    sortDesc key' (l.map f) = (sortDesc key l).map f := by
  induction l with
  | nil => rfl
  | cons a l ih =>
    rw [List.map_cons, sortDesc_cons, ih, insertDesc_map f key key' hkey, sortDesc_cons]

theorem lineNumberOf_withoutOriginalLine (entry : Option LineChange) :
    lineNumberOf (withoutOriginalLine entry) = lineNumberOf entry := by
  cases entry <;> rfl

theorem none_mem_map_withoutOriginalLine (l : List (Option LineChange)) :
    none ∈ l.map withoutOriginalLine ↔ none ∈ l := by
  constructor
  · intro h
    obtain ⟨entry, hentry, heq⟩ := List.mem_map.mp h
    cases entry with
    | none => exact hentry
    | some change => cases heq
  · intro h
    exact List.mem_map.mpr ⟨none, h, rfl⟩

theorem applyEntry_withoutOriginalLine (fixedLines : List String) (entry : Option LineChange) :
    applyEntry fixedLines (withoutOriginalLine entry) = applyEntry fixedLines entry := by
  cases entry <;> rfl

theorem applyEntries_withoutOriginalLine (l : List (Option LineChange)) :
    ∀ fixedLines, applyEntries fixedLines (l.map withoutOriginalLine) =
      applyEntries fixedLines l := by
  induction l with
  | nil => intro _; rfl
  | cons entry rest ih =>
    intro fixedLines
    simp only [List.map_cons, applyEntries, applyEntry_withoutOriginalLine]
    cases applyEntry fixedLines entry with
    | error message => rfl
    | ok next => exact ih next

theorem patchedText_withoutOriginalLine (text : String) (l : List (Option LineChange)) :
    patchedText (applyLineChanges text (l.map withoutOriginalLine)) =
      patchedText (applyLineChanges text l) := by
  unfold applyLineChanges sortLineChanges
  simp only [List.length_map, none_mem_map_withoutOriginalLine]
  by_cases hguard : 2 ≤ l.length ∧ none ∈ l
  · simp only [if_pos hguard]
  · simp only [if_neg hguard]
    rw [sortDesc_map withoutOriginalLine lineNumberOf lineNumberOf
      lineNumberOf_withoutOriginalLine, applyEntries_withoutOriginalLine]
    cases applyEntries (splitLines text) (sortDesc lineNumberOf l) with
    | error message => rfl
    | ok fixedLines => rfl

theorem generateFileFix_fixedCode (file : FileReference) (fixData : FixData) :
    (generateFileFix file (.parsed fixData)).fixedCode =
      if fixData.needsFix.getD false = true ∧ 0 < (fixData.lineChanges.getD []).length then
        patchedText (applyLineChanges file.sourceCode (fixData.lineChanges.getD []))
      else none := by
  unfold generateFileFix
  simp only
  by_cases hguard : (sanitizeFix fixData).needsFix = true ∧
      0 < (sanitizeFix fixData).lineChanges.length
  · have hguard' : fixData.needsFix.getD false = true ∧
        0 < (fixData.lineChanges.getD []).length := hguard
    rw [if_pos hguard, if_pos hguard']
    have hl : (sanitizeFix fixData).lineChanges = fixData.lineChanges.getD [] := rfl
    rw [hl]
    cases applyLineChanges file.sourceCode (fixData.lineChanges.getD []) with
    | error message => rfl
    | ok patched => rfl
  · have hguard' : ¬ (fixData.needsFix.getD false = true ∧
        0 < (fixData.lineChanges.getD []).length) := hguard
    rw [if_neg hguard, if_neg hguard']
    rfl

/-- C28: the patched text depends only on each edit's lineNumber, action and
newLine: for every original text, two lists of line changes that differ only in
their originalLine fields give the same patched text, and two replies with the
same needsFix whose line changes differ only in originalLine give the same
fixedCode; so an edit is applied whatever its originalLine says. -/
theorem fixedCode_ignores_originalLine (file : FileReference) (fixData other : FixData)
    (hneeds : fixData.needsFix = other.needsFix)
    (hsame : (fixData.lineChanges.getD []).map withoutOriginalLine =
      (other.lineChanges.getD []).map withoutOriginalLine) :
    patchedText (applyLineChanges file.sourceCode (fixData.lineChanges.getD [])) =
      patchedText (applyLineChanges file.sourceCode (other.lineChanges.getD [])) ∧
    (generateFileFix file (.parsed fixData)).fixedCode =
      (generateFileFix file (.parsed other)).fixedCode := by
  have htext : patchedText (applyLineChanges file.sourceCode (fixData.lineChanges.getD [])) =
      patchedText (applyLineChanges file.sourceCode (other.lineChanges.getD [])) := by
    rw [← patchedText_withoutOriginalLine, hsame, patchedText_withoutOriginalLine]
  have hlen : (fixData.lineChanges.getD []).length = (other.lineChanges.getD []).length := by
    have := congrArg List.length hsame
    simpa using this
  refine ⟨htext, ?_⟩
  rw [generateFileFix_fixedCode, generateFileFix_fixedCode, htext, hlen, hneeds]

theorem fixedCode_ignores_originalLine_witness :
    (mismatchedFixData.needsFix =
        ({ mismatchedFixData with lineChanges := some [some
          { lineNumber := 2, action := "replace", originalLine := some "beta",
            newLine := some "BETA" }] } : FixData).needsFix ∧
      (mismatchedFixData.lineChanges.getD []).map withoutOriginalLine =
        (({ mismatchedFixData with lineChanges := some [some
          { lineNumber := 2, action := "replace", originalLine := some "beta",
            newLine := some "BETA" }] } : FixData).lineChanges.getD []).map
          withoutOriginalLine) ∧
    (generateFileFix greekFile (.parsed mismatchedFixData)).fixedCode =
      (generateFileFix greekFile
        (.parsed { mismatchedFixData with lineChanges := some [some
          { lineNumber := 2, action := "replace", originalLine := some "beta",
            newLine := some "BETA" }] })).fixedCode ∧
    (generateFileFix greekFile (.parsed mismatchedFixData)).fixedCode =
      some "alpha\nBETA\ngamma\ndelta" :=
  ⟨⟨rfl, by decide⟩,
    (fixedCode_ignores_originalLine _ mismatchedFixData _ rfl (by decide)).2,
    by rfl⟩

/-! ## Bracket repair -/

theorem repairTruncatedJson_data (s : String) :
    (repairTruncatedJson s).data =
      s.data ++ ((if (scanJson s).inString then ['"'] else []) ++
        (List.replicate (scanJson s).bracketCount.toNat ']' ++
          List.replicate (scanJson s).braceCount.toNat '\x7d')) := by
  unfold repairTruncatedJson
  cases hstr : (scanJson s).inString <;> simp [hstr]

/-- C24: for every input string s, repairTruncatedJson returns s followed by
one closing quote if the scan of s ends inside a string literal, then max(0, b)
copies of ']' and then max(0, c) copies of the closing brace, where b and c are
the scan's final bracket and brace counts; so s is a prefix of the result, and
a string whose scan ends outside a literal with b ≤ 0 and c ≤ 0 is returned
unchanged. -/
theorem repairTruncatedJson_spec (s : String) :
    (repairTruncatedJson s).data =
      s.data ++ (if (scanJson s).inString then ['"'] else []) ++
        List.replicate (max 0 (scanJson s).bracketCount).toNat ']' ++
        List.replicate (max 0 (scanJson s).braceCount).toNat '\x7d' ∧
    s.data <+: (repairTruncatedJson s).data ∧
    ((scanJson s).inString = false → (scanJson s).bracketCount ≤ 0 →
      (scanJson s).braceCount ≤ 0 → repairTruncatedJson s = s) := by
  have hb : (max 0 (scanJson s).bracketCount).toNat = (scanJson s).bracketCount.toNat := by
    omega
  have hc : (max 0 (scanJson s).braceCount).toNat = (scanJson s).braceCount.toNat := by
    omega
  have hdata : (repairTruncatedJson s).data =
      s.data ++ (if (scanJson s).inString then ['"'] else []) ++
        List.replicate (max 0 (scanJson s).bracketCount).toNat ']' ++
        List.replicate (max 0 (scanJson s).braceCount).toNat '\x7d' := by
    rw [hb, hc, repairTruncatedJson_data]
    simp only [List.append_assoc]
  refine ⟨hdata, ?_, ?_⟩
  · rw [hdata, List.append_assoc, List.append_assoc]
    exact List.prefix_append _ _
  · intro hstr hbracket hbrace
    have hb0 : (scanJson s).bracketCount.toNat = 0 := by omega
    have hc0 : (scanJson s).braceCount.toNat = 0 := by omega
    have : (repairTruncatedJson s).data = s.data := by
      rw [hdata, hb, hc, hb0, hc0, hstr]
      simp
    calc repairTruncatedJson s = String.mk (repairTruncatedJson s).data := rfl
      _ = String.mk s.data := by rw [this]
      _ = s := rfl

theorem scanStep_quote (st : ScanState) (h : st.escaped = false) :
    scanStep st '"' = { st with inString := !st.inString } := by
  have hq : ¬ ('"' : Char) = '\\' := by decide
  simp [scanStep, h, hq]

theorem scan_closing_brackets (n : Nat) :
    ∀ st : ScanState, st.escaped = false → st.inString = false →
      (List.replicate n ']').foldl scanStep st =
        { st with bracketCount := st.bracketCount - (n : Int) } := by
  induction n with
  | zero => intro st _ _; simp
  | succ n ih =>
    intro st hesc hstr
    have h1 : ¬ (']' : Char) = '\\' := by decide
    have h2 : ¬ (']' : Char) = '"' := by decide
    have h3 : ¬ (']' : Char) = '\x7b' := by decide
    have h4 : ¬ (']' : Char) = '\x7d' := by decide
    have h5 : ¬ (']' : Char) = '[' := by decide
    have hstep : scanStep st ']' = { st with bracketCount := st.bracketCount - 1 } := by
      simp [scanStep, hesc, hstr, h1, h2, h3, h4, h5]
    rw [List.replicate_succ, List.foldl_cons, hstep,
      ih { st with bracketCount := st.bracketCount - 1 } hesc hstr]
    simp only [ScanState.mk.injEq, and_true, true_and]
    push_cast
    omega

theorem scan_closing_braces (n : Nat) :
    ∀ st : ScanState, st.escaped = false → st.inString = false →
      (List.replicate n '\x7d').foldl scanStep st =
        { st with braceCount := st.braceCount - (n : Int) } := by
  induction n with
  | zero => intro st _ _; simp
  | succ n ih =>
    intro st hesc hstr
    have h1 : ¬ ('\x7d' : Char) = '\\' := by decide
    have h2 : ¬ ('\x7d' : Char) = '"' := by decide
    have h3 : ¬ ('\x7d' : Char) = '\x7b' := by decide
    have h5 : ¬ ('\x7d' : Char) = '[' := by decide
    have h6 : ¬ ('\x7d' : Char) = ']' := by decide
    have hstep : scanStep st '\x7d' = { st with braceCount := st.braceCount - 1 } := by
      simp [scanStep, hesc, hstr, h1, h2, h3, h5, h6]
    rw [List.replicate_succ, List.foldl_cons, hstep,
      ih { st with braceCount := st.braceCount - 1 } hesc hstr]
    simp only [ScanState.mk.injEq, and_true, true_and]
    push_cast
    omega

theorem scan_repair_balanced (s : String) (h : (scanJson s).escaped = false) :
    (scanJson (repairTruncatedJson s)).inString = false ∧
    (scanJson (repairTruncatedJson s)).braceCount ≤ 0 ∧
    (scanJson (repairTruncatedJson s)).bracketCount ≤ 0 := by
  have hscan : scanJson (repairTruncatedJson s) =
      (List.replicate (scanJson s).braceCount.toNat '\x7d').foldl scanStep
        ((List.replicate (scanJson s).bracketCount.toNat ']').foldl scanStep
          ((if (scanJson s).inString then ['"'] else []).foldl scanStep (scanJson s))) := by
    have hunfold : scanJson (repairTruncatedJson s) =
        (repairTruncatedJson s).data.foldl scanStep
          { braceCount := 0, bracketCount := 0, inString := false, escaped := false } := rfl
    rw [hunfold, repairTruncatedJson_data, List.foldl_append, List.foldl_append,
      List.foldl_append]
    rfl
  have hclosed : ∃ st : ScanState,
      (if (scanJson s).inString then ['"'] else []).foldl scanStep (scanJson s) = st ∧
      st.escaped = false ∧ st.inString = false ∧
      st.braceCount = (scanJson s).braceCount ∧
      st.bracketCount = (scanJson s).bracketCount := by
    cases hstr : (scanJson s).inString with
    | false => exact ⟨scanJson s, by simp, h, hstr, rfl, rfl⟩
    | true =>
      refine ⟨{ scanJson s with inString := false }, ?_, h, rfl, rfl, rfl⟩
      simp [scanStep_quote _ h, hstr]
  obtain ⟨st, hst, hesc, hstr, hbrace, hbracket⟩ := hclosed
  rw [hscan, hst, scan_closing_brackets _ st hesc hstr,
    scan_closing_braces _
      { st with bracketCount := st.bracketCount - ((scanJson s).bracketCount.toNat : Int) }
      hesc hstr]
  simp only
  refine ⟨hstr, ?_, ?_⟩ <;> omega

/-- Outside the strings the function is called with: the string {"path": "C:\ ,
whose scan ends right after a backslash inside a string literal, is repaired to
{"path": "C:\"} ; scanned again by the same rules the appended quote is skipped
as an escaped character, so the scan ends inside the string literal with the
opening brace unmatched.  The match of the pattern of line 606 ends with a
closing brace, so the call of line 617 never passes such a string. -/
theorem repairTruncatedJson_rescan_unbalanced :
    repairTruncatedJson "\x7b\"path\": \"C:\\" = "\x7b\"path\": \"C:\\\"\x7d" ∧
    (scanJson "\x7b\"path\": \"C:\\").escaped = true ∧
    (scanJson (repairTruncatedJson "\x7b\"path\": \"C:\\")).inString = true ∧
    (scanJson (repairTruncatedJson "\x7b\"path\": \"C:\\")).braceCount = 1 := by
  decide

/-! ## Scoring engine: additive adjustments -/

theorem rawScore_api_users (summary : Option String) (s : ℚ) :
    rawScore "src/api/users.ts" summary s "" = s + 0.15 + 0.15 + 0.15 := by
  have hc : componentMatches "" = [] := by decide
  have hf : functionMatches "" = [] := by decide
  have hl : toLowerCase "src/api/users.ts" = "src/api/users.ts" := by decide
  have hq : toLowerCase "" = "" := by decide
  simp +decide [rawScore, adjust, matchBoosts, hc, hf, hl, hq]

/-- C25 (failing input): for the file 'src/api/users.ts' and the empty issue
text calculateFilePriority returns the similarity plus 0.45, because the path
test for '/api/' is made by the JavaScript API rule, the Go API rule and the
Rust web rule, each of which adds 0.15; with similarity 1/2 the score is 19/20,
not 13/20. -/
theorem api_path_counted_three_times (sourceCode : String) (summary : Option String) (s : ℚ) :
    isJsApi "src/api/users.ts" = true ∧ isGoApi "src/api/users.ts" = true ∧
    isRustWeb "src/api/users.ts" = true ∧ isPythonApi "src/api/users.ts" = false ∧
    calculateFilePriority
        { fileName := some "src/api/users.ts", sourceCode := sourceCode, summary := summary,
          similarity := s } "" = max 0 (s + 0.45) ∧
    calculateFilePriority
        { fileName := some "src/api/users.ts", sourceCode := sourceCode, summary := summary,
          similarity := 1/2 } "" = 19/20 ∧
    (19/20 : ℚ) ≠ 1/2 + 0.15 := by
  have hname : ("src/api/users.ts" : String) ≠ "" := by decide
  have hscore : ∀ t : ℚ, calculateFilePriority
      { fileName := some "src/api/users.ts", sourceCode := sourceCode, summary := summary,
        similarity := t } "" = max 0 (t + 0.45) := by
    intro t
    simp only [calculateFilePriority, hname, if_false, rawScore_api_users]
    congr 1
    ring
  refine ⟨by decide, by decide, by decide, by decide, hscore s, ?_, by norm_num⟩
  rw [hscore]
  norm_num

theorem scanStep_escaped (st : ScanState) (c : Char) (h : (scanStep st c).escaped = true) :
    c = '\\' := by
  by_contra hc
  cases hesc : st.escaped with
  | true => simp [scanStep, hesc] at h
  | false =>
    unfold scanStep at h
    simp only [hesc, hc, if_false, Bool.false_eq_true] at h
    split_ifs at h <;> simp_all

theorem scanJson_last_not_backslash (s : String) (h : s.data.getLast? ≠ some '\\') :
    (scanJson s).escaped = false := by
  rcases List.eq_nil_or_concat s.data with hnil | ⟨front, c, hs⟩
  · unfold scanJson
    rw [hnil]
    rfl
  · have hc : c ≠ '\\' := by
      intro hc
      apply h
      rw [hs, hc, List.concat_eq_append]
      simp
    unfold scanJson
    rw [hs, List.concat_eq_append, List.foldl_append]
    cases hesc : (scanStep (front.foldl scanStep
        { braceCount := 0, bracketCount := 0, inString := false, escaped := false }) c).escaped with
    | false => simpa using hesc
    | true => exact absurd (scanStep_escaped _ _ hesc) hc

theorem repairTruncatedJson_spec_witness :
    repairTruncatedJson "\x7b\"a\": [1, \"b" = "\x7b\"a\": [1, \"b\"]\x7d" ∧
    repairTruncatedJson "\x7b\"a\": 1\x7d" = "\x7b\"a\": 1\x7d" :=
  ⟨by decide,
    (repairTruncatedJson_spec "\x7b\"a\": 1\x7d").2.2 (by decide) (by decide) (by decide)⟩

/-! ## Replies without a JSON object, and field-level extraction -/

theorem matchJsonObject_some_sublist (s m : String) (h : matchJsonObject s = some m) :
    ['\x7b', '\x7d'].Sublist s.data := by
  unfold matchJsonObject at h
  simp only at h
  split_ifs at h with hlen
  cases hfrom : s.data.dropWhile (fun c => c != '\x7b') with
  | nil => simp [hfrom] at hlen
  | cons c rest =>
    have hhead : c = '\x7b' := by
      have := List.head_dropWhile_not (fun c => c != '\x7b') s.data (by simp [hfrom])
      simpa [hfrom] using this
    have hmem : '\x7d' ∈ rest := by
      by_contra hnot
      have hnil : (c :: rest).reverse.dropWhile (fun c => c != '\x7d') = [] := by
        rw [List.dropWhile_eq_nil_iff]
        intro x hx
        have hx2 : x ∈ rest ∨ x = c := by simpa using hx
        rcases hx2 with hx2 | hx2
        · have : x ≠ '\x7d' := fun hxe => hnot (hxe ▸ hx2)
          simpa using this
        · rw [hx2, hhead]; decide
      rw [hfrom, hnil] at hlen
      simp at hlen
    have hsub : ['\x7b', '\x7d'].Sublist (c :: rest) := by
      rw [hhead]
      exact List.Sublist.cons₂ _ (List.singleton_sublist.mpr hmem)
    rw [← hfrom] at hsub
    exact hsub.trans (List.dropWhile_sublist _)

theorem jsTrim_sublist (text : String) : (jsTrim text).data.Sublist text.data := by
  have h1 : ((text.data.dropWhile isJsWhitespace).reverse.dropWhile isJsWhitespace).reverse.Sublist
      (text.data.dropWhile isJsWhitespace) := by
    have := (List.dropWhile_sublist isJsWhitespace
      (l := (text.data.dropWhile isJsWhitespace).reverse)).reverse
    simpa using this
  exact h1.trans (List.dropWhile_sublist _)

theorem exists_last_split {α : Type} [DecidableEq α] (a : α) :
    ∀ l : List α, a ∈ l → ∃ front back, l = front ++ a :: back ∧ a ∉ back := by
  intro l
  induction l with
  | nil => intro h; simp at h
  | cons x xs ih =>
    intro h
    by_cases hxs : a ∈ xs
    · obtain ⟨front, back, hsplit, hback⟩ := ih hxs
      exact ⟨x :: front, back, by rw [hsplit]; rfl, hback⟩
    · have hax : a = x := by
        rcases List.mem_cons.mp h with h1 | h1
        · exact h1
        · exact absurd h1 hxs
      exact ⟨[], xs, by rw [hax]; rfl, by rw [← hax] at *; exact hxs⟩

theorem brace_before_last_closing (l front back : List Char)
    (hsub : ['\x7b', '\x7d'].Sublist l) (hsplit : l = front ++ '\x7d' :: back)
    (hback : '\x7d' ∉ back) : '\x7b' ∈ front := by
  rw [hsplit, List.sublist_append_iff] at hsub
  obtain ⟨a, b, hab, ha, hb⟩ := hsub
  cases a with
  | nil =>
    rw [List.nil_append] at hab
    rw [← hab] at hb
    exfalso
    cases hb with
    | cons _ hrest => exact hback (hrest.subset (by simp))
  | cons x a' =>
    have hx : x = '\x7b' := by
      have := congrArg List.head? hab
      simpa using this.symm
    exact ha.subset (by rw [hx]; simp)

theorem no_brace_before_of_not_sublist (l : List Char)
    (h : ¬ ['\x7b', '\x7d'].Sublist l) :
    ∀ front back, l = front ++ '\x7d' :: back → '\x7d' ∉ back → '\x7b' ∉ front := by
  intro front back hsplit _ hmem
  apply h
  rw [hsplit]
  have h1 : ['\x7b'].Sublist front := List.singleton_sublist.mpr hmem
  have h2 : ['\x7d'].Sublist ('\x7d' :: back) := List.singleton_sublist.mpr (by simp)
  exact h1.append h2

theorem matchJsonObject_none_of_no_pair (text : String)
    (h : (∀ c ∈ text.data, c ≠ '\x7d') ∨
      (∀ front back, text.data = front ++ '\x7d' :: back → '\x7d' ∉ back → '\x7b' ∉ front)) :
    matchJsonObject (jsTrim text) = none := by
  cases hm : matchJsonObject (jsTrim text) with
  | none => rfl
  | some m =>
    exfalso
    have hsub : ['\x7b', '\x7d'].Sublist text.data :=
      (matchJsonObject_some_sublist _ _ hm).trans (jsTrim_sublist text)
    have hmem : '\x7d' ∈ text.data := hsub.subset (by simp)
    rcases h with h | h
    · exact h _ hmem rfl
    · obtain ⟨front, back, hsplit, hback⟩ := exists_last_split '\x7d' text.data hmem
      exact h front back hsplit hback (brace_before_last_closing _ _ _ hsub hsplit hback)

/-- C29: for every reply text that contains no closing brace, or no opening
brace before its last closing brace, the pattern of line 606 has no match, so
neither the strict parse, the bracket repair nor the field-level extraction is
attempted (the value of fixData stays null whatever JSON.parse would do), and
generateFileFix returns the fixed default needsFix = false, fixedCode = null,
changes = [], lineChanges = [] with the explanation 'Could not parse AI
response - file may not need fixes'. -/
theorem generateFileFix_without_object (rt : JsonRuntime) (file : FileReference) (text : String)
    (h : (∀ c ∈ text.data, c ≠ '\x7d') ∨
      (∀ front back, text.data = front ++ '\x7d' :: back → '\x7d' ∉ back → '\x7b' ∉ front)) :
    matchJsonObject (jsTrim text) = none ∧
    parseFixReply rt text = none ∧
    classifyResponse rt (.ok text) = .unparseable ∧
    generateFileFixFromResponse rt file (.ok text) =
      { needsFix := false, fixedCode := none
        explanation := "Could not parse AI response - file may not need fixes"
        changes := [], lineChanges := [] } := by
  have hm := matchJsonObject_none_of_no_pair text h
  have hp : parseFixReply rt text = none := by simp [parseFixReply, hm]
  have hc : classifyResponse rt (.ok text) = .unparseable := by simp [classifyResponse, hp]
  refine ⟨hm, hp, hc, ?_⟩
  simp [generateFileFixFromResponse, hc, generateFileFix]

theorem generateFileFix_without_object_witness :
    (generateFileFixFromResponse emptyObjectRuntime tenLineFile
      (.ok "\x7d fix: [1] \x7b\x7b")) =
      { needsFix := false, fixedCode := none
        explanation := "Could not parse AI response - file may not need fixes"
        changes := [], lineChanges := [] } ∧
    (generateFileFixFromResponse emptyObjectRuntime tenLineFile
      (.ok "\x7b\"needsFix\": true, \"lineChanges\": [")) =
      { needsFix := false, fixedCode := none
        explanation := "Could not parse AI response - file may not need fixes"
        changes := [], lineChanges := [] } :=
  ⟨(generateFileFix_without_object emptyObjectRuntime tenLineFile "\x7d fix: [1] \x7b\x7b"
      (Or.inr (no_brace_before_of_not_sublist _ (by decide)))).2.2.2,
    (generateFileFix_without_object emptyObjectRuntime tenLineFile
      "\x7b\"needsFix\": true, \"lineChanges\": [" (Or.inl (by decide))).2.2.2⟩

/-- C30: whenever the reply is handled by field-level extraction (the pattern
of line 606 matches and JSON.parse rejects both the match and the repaired
match), generateFileFix returns the sanitized extraction: lineChanges = [] and
fixedCode = null whatever the reply contains, with needsFix the value extracted
by the needsFix probe, which may be true. -/
theorem generateFileFix_field_extraction (rt : JsonRuntime) (file : FileReference)
    (text jsonMatch : String)
    (hmatch : matchJsonObject (jsTrim text) = some jsonMatch)
    (hstrict : rt.parseObject jsonMatch = none)
    (hrepaired : rt.parseObject (repairTruncatedJson jsonMatch) = none) :
    parseFixReply rt text = some (extractPartialFixData rt (jsTrim text)) ∧
    generateFileFixFromResponse rt file (.ok text) =
      sanitizeFix (extractPartialFixData rt (jsTrim text)) ∧
    (generateFileFixFromResponse rt file (.ok text)).lineChanges = [] ∧
    (generateFileFixFromResponse rt file (.ok text)).fixedCode = none ∧
    (generateFileFixFromResponse rt file (.ok text)).needsFix =
      (firstMatch needsFixProbe (jsTrim text).data).getD false := by
  have hp : parseFixReply rt text = some (extractPartialFixData rt (jsTrim text)) := by
    simp [parseFixReply, hmatch, hstrict, hrepaired]
  have hc : classifyResponse rt (.ok text) = .parsed (extractPartialFixData rt (jsTrim text)) := by
    simp [classifyResponse, hp]
  have hg : generateFileFixFromResponse rt file (.ok text) =
      sanitizeFix (extractPartialFixData rt (jsTrim text)) := by
    simp [generateFileFixFromResponse, hc, generateFileFix, sanitizeFix, extractPartialFixData]
  refine ⟨hp, hg, ?_, ?_, ?_⟩ <;> rw [hg] <;> rfl

theorem generateFileFix_field_extraction_witness :
    matchJsonObject (jsTrim malformedReply) = some malformedReply ∧
    repairTruncatedJson malformedReply = malformedReply ∧
    (generateFileFixFromResponse emptyObjectRuntime tenLineFile (.ok malformedReply)).needsFix =
      true ∧
    (generateFileFixFromResponse emptyObjectRuntime tenLineFile (.ok malformedReply)).lineChanges =
      [] ∧
    (generateFileFixFromResponse emptyObjectRuntime tenLineFile (.ok malformedReply)).fixedCode =
      none :=
  ⟨by decide, by decide, by decide,
    (generateFileFix_field_extraction emptyObjectRuntime tenLineFile malformedReply
      malformedReply (by decide) (by decide) (by decide)).2.2.1,
    (generateFileFix_field_extraction emptyObjectRuntime tenLineFile malformedReply
      malformedReply (by decide) (by decide) (by decide)).2.2.2.1⟩

/-! ## Arithmetic of doubles -/

theorem roundHalfEven_intCast (n : Int) : roundHalfEven (n : ℚ) = n := by
  simp [roundHalfEven]

theorem floor_le_roundHalfEven (q : ℚ) : ⌊q⌋ ≤ roundHalfEven q := by
  unfold roundHalfEven
  split_ifs <;> omega

theorem roundHalfEven_le_floor_succ (q : ℚ) : roundHalfEven q ≤ ⌊q⌋ + 1 := by
  unfold roundHalfEven
  split_ifs <;> omega

theorem roundHalfEven_mono {q r : ℚ} (h : q ≤ r) : roundHalfEven q ≤ roundHalfEven r := by
  have hfloor : ⌊q⌋ ≤ ⌊r⌋ := Int.floor_mono h
  rcases lt_or_eq_of_le hfloor with hlt | heq
  · have h1 := roundHalfEven_le_floor_succ q
    have h2 := floor_le_roundHalfEven r
    omega
  · unfold roundHalfEven
    rw [← heq]
    split_ifs <;> first | omega | (exfalso; linarith)

theorem roundHalfEven_sub_le (q : ℚ) : |(roundHalfEven q : ℚ) - q| ≤ 1/2 := by
  have h1 : (⌊q⌋ : ℚ) ≤ q := Int.floor_le q
  have h2 : q < ⌊q⌋ + 1 := Int.lt_floor_add_one q
  unfold roundHalfEven
  rw [abs_le]
  split_ifs <;> push_cast <;> constructor <;> linarith

theorem roundHalfEven_neg (q : ℚ) : roundHalfEven (-q) = -roundHalfEven q := by
  by_cases hint : (⌊q⌋ : ℚ) = q
  · rw [← hint, ← Int.cast_neg, roundHalfEven_intCast, roundHalfEven_intCast]
  · have h1 : (⌊q⌋ : ℚ) < q := lt_of_le_of_ne (Int.floor_le q) hint
    have h2 : q < ⌊q⌋ + 1 := Int.lt_floor_add_one q
    have hfloor : ⌊-q⌋ = -⌊q⌋ - 1 := by
      rw [Int.floor_eq_iff]
      push_cast
      constructor <;> linarith
    unfold roundHalfEven
    rw [hfloor]
    push_cast
    split_ifs <;> first | omega | (exfalso; linarith)


theorem roundHalfEven_eq_of_lt (q : ℚ) (n : Int) (h1 : (n : ℚ) - 1/2 < q) (h2 : q < n + 1/2) :
    roundHalfEven q = n := by
  have h := abs_le.mp (roundHalfEven_sub_le q)
  have hlt : ((roundHalfEven q : Int) : ℚ) < ((n + 1 : Int) : ℚ) := by push_cast; linarith
  have hgt : ((n - 1 : Int) : ℚ) < ((roundHalfEven q : Int) : ℚ) := by push_cast; linarith
  have hlt2 := Int.cast_lt.mp hlt
  have hgt2 := Int.cast_lt.mp hgt
  omega

theorem roundHalfEven_tie_even (n : Int) (heven : n % 2 = 0) :
    roundHalfEven ((n : ℚ) + 1/2) = n := by
  have hfloor : ⌊(n : ℚ) + 1/2⌋ = n := by
    rw [Int.floor_eq_iff]
    constructor <;> linarith
  unfold roundHalfEven
  rw [hfloor]
  simp [heven]

theorem roundHalfEven_tie_odd (n : Int) (hodd : n % 2 = 1) :
    roundHalfEven ((n : ℚ) + 1/2) = n + 1 := by
  have hfloor : ⌊(n : ℚ) + 1/2⌋ = n := by
    rw [Int.floor_eq_iff]
    constructor <;> linarith
  unfold roundHalfEven
  rw [hfloor]
  simp [hodd]

theorem ulpExponent_neg (x : ℚ) : ulpExponent (-x) = ulpExponent x := by
  unfold ulpExponent
  rw [abs_neg]

theorem roundDouble_neg (x : ℚ) : roundDouble (-x) = -roundDouble x := by
  unfold roundDouble
  rw [ulpExponent_neg, neg_div, roundHalfEven_neg]
  push_cast
  ring

theorem roundDouble_zero : roundDouble 0 = 0 := by
  unfold roundDouble
  rw [zero_div]
  have : roundHalfEven 0 = 0 := by
    have := roundHalfEven_intCast 0
    simpa using this
  rw [this]
  simp

theorem two_zpow_pos (e : Int) : (0 : ℚ) < 2 ^ e := zpow_pos (by norm_num) e

/-- Rounding to a multiple of 2^e. -/
theorem scaled_mono (e : Int) {x y : ℚ} (h : x ≤ y) :
    (roundHalfEven (x / 2 ^ e) : ℚ) * 2 ^ e ≤ roundHalfEven (y / 2 ^ e) * 2 ^ e := by
  have hpos := two_zpow_pos e
  have hdiv : x / 2 ^ e ≤ y / 2 ^ e := div_le_div_of_nonneg_right h hpos.le
  have hr := roundHalfEven_mono hdiv
  have hc : ((roundHalfEven (x / 2 ^ e) : Int) : ℚ) ≤ roundHalfEven (y / 2 ^ e) :=
    Int.cast_le.mpr hr
  exact mul_le_mul_of_nonneg_right hc hpos.le

theorem scaled_fix (e e' : Int) (hle : e ≤ e') (m : Int) :
    (roundHalfEven ((m : ℚ) * 2 ^ e' / 2 ^ e) : ℚ) * 2 ^ e = m * 2 ^ e' := by
  have hpos := two_zpow_pos e
  have hpow : (2 : ℚ) ^ e' = 2 ^ (e' - e).toNat * 2 ^ e := by
    have hnat : ((e' - e).toNat : Int) = e' - e := Int.toNat_of_nonneg (by omega)
    rw [← zpow_natCast, hnat, ← zpow_add₀ (by norm_num)]
    congr 1
    omega
  have hq : (m : ℚ) * 2 ^ e' / 2 ^ e = ((m * 2 ^ (e' - e).toNat : Int) : ℚ) := by
    rw [hpow]
    push_cast
    field_simp
    ring
  rw [hq, roundHalfEven_intCast, hpow]
  push_cast
  ring

theorem ulpExponent_mono {x y : ℚ} (hx : 0 < x) (h : x ≤ y) : ulpExponent x ≤ ulpExponent y := by
  unfold ulpExponent
  rw [abs_of_pos hx, abs_of_pos (lt_of_lt_of_le hx h)]
  have := Int.log_mono_right (b := 2) hx h
  omega

theorem roundDouble_nonneg {x : ℚ} (hx : 0 ≤ x) : 0 ≤ roundDouble x := by
  have h := scaled_mono (ulpExponent x) hx
  rw [zero_div] at h
  have h0 : roundHalfEven 0 = 0 := by
    have := roundHalfEven_intCast 0
    simpa using this
  rw [h0] at h
  simpa [roundDouble] using h

theorem roundDouble_mono_pos {x y : ℚ} (hx : 0 < x) (h : x ≤ y) :
    roundDouble x ≤ roundDouble y := by
  have hy : 0 < y := lt_of_lt_of_le hx h
  have hexp := ulpExponent_mono hx h
  rcases lt_or_eq_of_le hexp with hlt | heq
  · have hey : ulpExponent y = Int.log 2 y - 52 := by
      have hge : -1074 ≤ ulpExponent x := by unfold ulpExponent; omega
      unfold ulpExponent at hlt ⊢
      rw [abs_of_pos hy] at hlt ⊢
      omega
    have hex : Int.log 2 x - 52 ≤ ulpExponent x := by
      unfold ulpExponent
      rw [abs_of_pos hx]
      omega
    have hB1 : (2 : ℚ) ^ (Int.log 2 y) ≤ y := by
      have := Int.zpow_log_le_self (b := 2) (by norm_num) hy
      simpa using this
    have hB2 : x < (2 : ℚ) ^ (Int.log 2 y) := by
      have := (Int.lt_zpow_iff_log_lt (b := 2) (by norm_num) (x := Int.log 2 y) hx).mpr (by omega)
      simpa using this
    have hBy : (2 : ℚ) ^ (Int.log 2 y) = ((1 : Int) : ℚ) * 2 ^ (Int.log 2 y) := by simp
    have h1 := scaled_mono (ulpExponent x) hB2.le
    have h2 := scaled_mono (ulpExponent y) hB1
    rw [hBy, scaled_fix _ _ (by omega) 1] at h1 h2
    unfold roundDouble
    exact le_trans h1 h2
  · unfold roundDouble
    rw [heq]
    exact scaled_mono _ h

theorem roundDouble_mono {x y : ℚ} (h : x ≤ y) : roundDouble x ≤ roundDouble y := by
  rcases lt_trichotomy x 0 with hx | hx | hx
  · rcases lt_or_le y 0 with hy | hy
    · have := roundDouble_mono_pos (x := -y) (y := -x) (by linarith) (by linarith)
      rw [roundDouble_neg, roundDouble_neg] at this
      linarith
    · have h1 := roundDouble_nonneg hy
      have h2 := roundDouble_nonneg (x := -x) (by linarith)
      rw [roundDouble_neg] at h2
      linarith
  · rw [hx, roundDouble_zero]
    exact roundDouble_nonneg (by linarith)
  · exact roundDouble_mono_pos hx h


theorem ulpExponent_eq (x : ℚ) (k : Int) (hx : 0 < x) (h1 : (2 : ℚ) ^ k ≤ x)
    (h2 : x < 2 ^ (k + 1)) : ulpExponent x = max (k - 52) (-1074) := by
  have hlog : Int.log 2 x = k := by
    have hle : k ≤ Int.log 2 x :=
      (Int.zpow_le_iff_le_log (b := 2) (by norm_num) hx).mp (by simpa using h1)
    have hlt : Int.log 2 x < k + 1 :=
      (Int.lt_zpow_iff_log_lt (b := 2) (by norm_num) hx).mp (by simpa using h2)
    omega
  unfold ulpExponent
  rw [abs_of_pos hx, hlog]

theorem roundDouble_eq_of_lt (x : ℚ) (k e n : Int) (hx : 0 < x) (h1 : (2 : ℚ) ^ k ≤ x)
    (h2 : x < 2 ^ (k + 1)) (he : max (k - 52) (-1074) = e)
    (hlo : ((n : ℚ) - 1/2) * 2 ^ e < x) (hhi : x < ((n : ℚ) + 1/2) * 2 ^ e) :
    roundDouble x = n * 2 ^ e := by
  have hpos := two_zpow_pos e
  unfold roundDouble
  rw [ulpExponent_eq x k hx h1 h2, he]
  rw [roundHalfEven_eq_of_lt (x / 2 ^ e) n ((lt_div_iff₀ hpos).mpr hlo) ((div_lt_iff₀ hpos).mpr hhi)]

theorem roundDouble_eq_of_tie (x : ℚ) (k e n : Int) (hx : 0 < x) (h1 : (2 : ℚ) ^ k ≤ x)
    (h2 : x < 2 ^ (k + 1)) (he : max (k - 52) (-1074) = e)
    (htie : x = ((n : ℚ) + 1/2) * 2 ^ e) (heven : n % 2 = 0) :
    roundDouble x = n * 2 ^ e := by
  have hpos := two_zpow_pos e
  unfold roundDouble
  rw [ulpExponent_eq x k hx h1 h2, he]
  have hq : x / 2 ^ e = (n : ℚ) + 1/2 := by
    rw [htie]
    field_simp
    ring
  rw [hq, roundHalfEven_tie_even n heven]

theorem roundDouble_sub_le (x : ℚ) (k e : Int) (hx : 0 < x) (h1 : (2 : ℚ) ^ k ≤ x)
    (h2 : x < 2 ^ (k + 1)) (he : max (k - 52) (-1074) = e) :
    |roundDouble x - x| ≤ 2 ^ e / 2 := by
  have hpos := two_zpow_pos e
  unfold roundDouble
  rw [ulpExponent_eq x k hx h1 h2, he]
  have herr := roundHalfEven_sub_le (x / 2 ^ e)
  have hfactor : (roundHalfEven (x / 2 ^ e) : ℚ) * 2 ^ e - x =
      ((roundHalfEven (x / 2 ^ e) : ℚ) - x / 2 ^ e) * 2 ^ e := by
    field_simp
  rw [hfactor, abs_mul, abs_of_pos hpos]
  calc |(roundHalfEven (x / 2 ^ e) : ℚ) - x / 2 ^ e| * 2 ^ e ≤ 1/2 * 2 ^ e :=
        mul_le_mul_of_nonneg_right herr hpos.le
    _ = 2 ^ e / 2 := by ring

/-- A multiple of 2^e with fewer than 54 bits, e at least -1074, is a double. -/
theorem roundDouble_fix (m e : Int) (hm : |m| < 2 ^ 53) (he : -1074 ≤ e) :
    roundDouble ((m : ℚ) * 2 ^ e) = m * 2 ^ e := by
  by_cases hzero : m = 0
  · rw [hzero]
    simp [roundDouble_zero]
  · have hpos := two_zpow_pos e
    have habs : |(m : ℚ) * 2 ^ e| = ((|m| : Int) : ℚ) * 2 ^ e := by
      rw [abs_mul, abs_of_pos hpos, Int.cast_abs]
    have hxpos : 0 < |(m : ℚ) * 2 ^ e| := by
      rw [abs_pos]
      exact mul_ne_zero (Int.cast_ne_zero.mpr hzero) hpos.ne'
    have hlt : |(m : ℚ) * 2 ^ e| < (2 : ℚ) ^ (53 + e) := by
      rw [habs, zpow_add₀ (by norm_num)]
      apply mul_lt_mul_of_pos_right _ hpos
      have : ((|m| : Int) : ℚ) < ((2 ^ 53 : Int) : ℚ) := Int.cast_lt.mpr hm
      rw [Int.cast_pow] at this
      exact_mod_cast this
    have hlog : Int.log 2 |(m : ℚ) * 2 ^ e| < 53 + e :=
      (Int.lt_zpow_iff_log_lt (b := 2) (by norm_num) hxpos).mp (by simpa using hlt)
    have hexp : ulpExponent ((m : ℚ) * 2 ^ e) ≤ e := by
      unfold ulpExponent
      omega
    unfold roundDouble
    exact scaled_fix _ _ hexp m


theorem double_015 : roundDouble 0.15 = 5404319552844595 * 2 ^ (-55 : Int) :=
  roundDouble_eq_of_lt 0.15 (-3) (-55) 5404319552844595 (by norm_num) (by norm_num)
    (by norm_num) (by norm_num) (by norm_num) (by norm_num)

theorem double_03 : roundDouble 0.3 = 5404319552844595 * 2 ^ (-54 : Int) :=
  roundDouble_eq_of_lt 0.3 (-2) (-54) 5404319552844595 (by norm_num) (by norm_num)
    (by norm_num) (by norm_num) (by norm_num) (by norm_num)

theorem double_02 : roundDouble 0.2 = 7205759403792794 * 2 ^ (-55 : Int) :=
  roundDouble_eq_of_lt 0.2 (-3) (-55) 7205759403792794 (by norm_num) (by norm_num)
    (by norm_num) (by norm_num) (by norm_num) (by norm_num)
/-! ## Scoring engine on doubles -/

theorem raiseDouble_false (delta score : ℚ) : raiseDouble false delta score = score := rfl

theorem raiseDouble_true (delta score : ℚ) :
    raiseDouble true delta score = roundDouble (score + roundDouble delta) := rfl

theorem lowerDouble_false (delta score : ℚ) : lowerDouble false delta score = score := rfl

theorem lowerDouble_true (delta score : ℚ) :
    lowerDouble true delta score = roundDouble (score - roundDouble delta) := rfl

theorem rawScoreDouble_login (summary : Option String) (s : ℚ) :
    rawScoreDouble "src/auth/login.ts" summary s jwtIssue =
      roundDouble
        (raiseDouble (isMatchMentioned "src/auth/login.ts" summary "JWT") 0.2 s +
          roundDouble 0.15) := by
  have hc : componentMatches jwtIssue = ["JWT"] := by decide
  have hf : functionMatches jwtIssue = [] := by decide
  have hl : toLowerCase "src/auth/login.ts" = "src/auth/login.ts" := by decide
  simp +decide [rawScoreDouble, matchBoostsDouble, raiseDouble, lowerDouble, hc, hf, hl]

theorem rawScoreDouble_readme (summary : Option String) (s : ℚ) :
    rawScoreDouble "README.md" summary s jwtIssue =
      raiseDouble (isMatchMentioned "readme.md" summary "JWT") 0.2
        (roundDouble (s - roundDouble 0.3)) := by
  have hc : componentMatches jwtIssue = ["JWT"] := by decide
  have hf : functionMatches jwtIssue = [] := by decide
  have hl : toLowerCase "README.md" = "readme.md" := by decide
  simp +decide [rawScoreDouble, matchBoostsDouble, raiseDouble, lowerDouble, hc, hf, hl]

theorem rawScoreDouble_api_users (summary : Option String) (s : ℚ) :
    rawScoreDouble "src/api/users.ts" summary s "" =
      roundDouble (roundDouble (roundDouble (s + roundDouble 0.15) + roundDouble 0.15) +
        roundDouble 0.15) := by
  have hc : componentMatches "" = [] := by decide
  have hf : functionMatches "" = [] := by decide
  have hl : toLowerCase "src/api/users.ts" = "src/api/users.ts" := by decide
  have hq : toLowerCase "" = "" := by decide
  simp +decide [rawScoreDouble, matchBoostsDouble, raiseDouble, lowerDouble, hc, hf, hl, hq]

theorem double_gap_above (x y : ℚ) (hx : |x| ≤ 2 ^ 47) (h : x + 2 ^ (-5 : Int) ≤ y) :
    x < roundDouble y := by
  have hstep : (2 : ℚ) ^ (-5 : Int) = 1 / 32 := by norm_num
  have hx2 := abs_le.mp hx
  have hfloor1 : (⌊x * 32⌋ : ℚ) ≤ x * 32 := Int.floor_le _
  have hfloor2 : x * 32 < ⌊x * 32⌋ + 1 := Int.lt_floor_add_one _
  have hlow : (-(2 : Int) ^ 52) ≤ ⌊x * 32⌋ := by
    rw [Int.le_floor]
    push_cast
    linarith
  have hhigh : ⌊x * 32⌋ ≤ (2 : Int) ^ 52 := by
    have hcast : ((⌊x * 32⌋ : Int) : ℚ) ≤ (((2 : Int) ^ 52 : Int) : ℚ) := by
      push_cast
      linarith
    exact Int.cast_le.mp hcast
  have hm : |⌊x * 32⌋ + 1| < 2 ^ 53 := by
    rw [abs_lt]
    constructor <;> omega
  have hfix := roundDouble_fix (⌊x * 32⌋ + 1) (-5) hm (by norm_num)
  have hle : ((⌊x * 32⌋ + 1 : Int) : ℚ) * 2 ^ (-5 : Int) ≤ y := by
    rw [hstep] at h ⊢
    push_cast
    linarith
  have hmono := roundDouble_mono hle
  rw [hfix] at hmono
  have hlt : x < ((⌊x * 32⌋ + 1 : Int) : ℚ) * 2 ^ (-5 : Int) := by
    rw [hstep]
    push_cast
    linarith
  exact lt_of_lt_of_le hlt hmono

theorem double_gap_below (x y : ℚ) (hx : |x| ≤ 2 ^ 47) (h : y + 2 ^ (-5 : Int) ≤ x) :
    roundDouble y < x := by
  have habove := double_gap_above (-x) (-y) (by rwa [abs_neg]) (by linarith)
  rw [roundDouble_neg] at habove
  linarith

theorem double_01 : roundDouble 0.1 = 7205759403792794 * 2 ^ (-56 : Int) :=
  roundDouble_eq_of_lt 0.1 (-4) (-56) 7205759403792794 (by norm_num) (by norm_num)
    (by norm_num) (by norm_num) (by norm_num) (by norm_num)

theorem double_04 : roundDouble 0.4 = 7205759403792794 * 2 ^ (-54 : Int) :=
  roundDouble_eq_of_lt 0.4 (-2) (-54) 7205759403792794 (by norm_num) (by norm_num)
    (by norm_num) (by norm_num) (by norm_num) (by norm_num)

theorem double_005 : roundDouble 0.05 = 7205759403792794 * 2 ^ (-57 : Int) :=
  roundDouble_eq_of_lt 0.05 (-5) (-57) 7205759403792794 (by norm_num) (by norm_num)
    (by norm_num) (by norm_num) (by norm_num) (by norm_num)

/-- C4 (counterexample): at the similarity 2^53 = 9007199254740992, which is a
double, and with no summaries, the constants 0.15 and 0.3 are absorbed by the
rounding of the sums: calculateFilePriority returns 2^53 for "src/auth/login.ts"
and for "README.md" alike, so the first score is not strictly greater. -/
theorem login_not_above_readme_at_two_pow_53 :
    roundDouble 9007199254740992 = 9007199254740992 ∧
    calculateFilePriorityDouble
        { fileName := some "README.md", sourceCode := "# readme", summary := none,
          similarity := 9007199254740992 } jwtIssue = 9007199254740992 ∧
    calculateFilePriorityDouble
        { fileName := some "src/auth/login.ts", sourceCode := "export const login = 1;",
          summary := none, similarity := 9007199254740992 } jwtIssue = 9007199254740992 ∧
    ¬ (calculateFilePriorityDouble
        { fileName := some "README.md", sourceCode := "# readme", summary := none,
          similarity := 9007199254740992 } jwtIssue <
      calculateFilePriorityDouble
        { fileName := some "src/auth/login.ts", sourceCode := "export const login = 1;",
          summary := none, similarity := 9007199254740992 } jwtIssue) := by
  have h1 : ("README.md" : String) ≠ "" := by decide
  have h2 : ("src/auth/login.ts" : String) ≠ "" := by decide
  have hm1 : isMatchMentioned "readme.md" none "JWT" = false := by decide
  have hm2 : isMatchMentioned "src/auth/login.ts" none "JWT" = false := by decide
  have hdouble : roundDouble 9007199254740992 = 9007199254740992 := by
    have := roundDouble_fix 1 53 (by norm_num) (by norm_num)
    norm_num at this
    exact this
  have hreadme : roundDouble (9007199254740992 - roundDouble 0.3) = 9007199254740992 := by
    rw [double_03]
    have := roundDouble_eq_of_lt (9007199254740992 - 5404319552844595 * 2 ^ (-54 : Int))
      52 0 9007199254740992 (by norm_num) (by norm_num) (by norm_num) (by norm_num)
      (by norm_num) (by norm_num)
    rw [this]
    norm_num
  have hlogin : roundDouble (9007199254740992 + roundDouble 0.15) = 9007199254740992 := by
    rw [double_015]
    have := roundDouble_eq_of_lt (9007199254740992 + 5404319552844595 * 2 ^ (-55 : Int))
      53 1 4503599627370496 (by norm_num) (by norm_num) (by norm_num) (by norm_num)
      (by norm_num) (by norm_num)
    rw [this]
    norm_num
  have hR : calculateFilePriorityDouble
      { fileName := some "README.md", sourceCode := "# readme", summary := none,
        similarity := 9007199254740992 } jwtIssue = 9007199254740992 := by
    simp only [calculateFilePriorityDouble, h1, if_false, rawScoreDouble_readme, hm1,
      raiseDouble_false, hreadme]
    norm_num
  have hL : calculateFilePriorityDouble
      { fileName := some "src/auth/login.ts", sourceCode := "export const login = 1;",
        summary := none, similarity := 9007199254740992 } jwtIssue = 9007199254740992 := by
    simp only [calculateFilePriorityDouble, h2, if_false, rawScoreDouble_login, hm2,
      raiseDouble_false, hlogin]
    norm_num
  refine ⟨hdouble, hR, hL, ?_⟩
  rw [hR, hL]
  exact lt_irrefl _

/-- C4 (amended): for every base similarity s with 0 ≤ s ≤ 2^47 (which covers
the range [0, 1] of a similarity) and any file summaries (and source texts),
with the issue text "fix JWT expiration bug in login" the file
"src/auth/login.ts" with similarity s is scored strictly higher than the file
"README.md" with the same similarity s, in the arithmetic of doubles. -/
theorem calculateFilePriorityDouble_login_above_readme (s : ℚ) (hs0 : 0 ≤ s)
    (hs1 : s ≤ 2 ^ 47) (loginSource readmeSource : String)
    (loginSummary readmeSummary : Option String) :
    calculateFilePriorityDouble
        { fileName := some "README.md", sourceCode := readmeSource,
          summary := readmeSummary, similarity := s } jwtIssue <
      calculateFilePriorityDouble
        { fileName := some "src/auth/login.ts", sourceCode := loginSource,
          summary := loginSummary, similarity := s } jwtIssue := by
  have h1 : ("README.md" : String) ≠ "" := by decide
  have h2 : ("src/auth/login.ts" : String) ≠ "" := by decide
  have hstep : (2 : ℚ) ^ (-5 : Int) = 1 / 32 := by norm_num
  have hD15 : (1 : ℚ) / 32 ≤ roundDouble 0.15 := by rw [double_015]; norm_num
  have hD02 : (1 : ℚ) / 32 ≤ roundDouble 0.2 := by rw [double_02]; norm_num
  have hgap : roundDouble 0.2 + 1 / 16 ≤ roundDouble 0.3 := by
    rw [double_02, double_03]; norm_num
  have hD03 : roundDouble 0.3 ≤ 1 := by rw [double_03]; norm_num
  have hsabs : |s| ≤ 2 ^ 47 := by rw [abs_of_nonneg hs0]; exact hs1
  simp only [calculateFilePriorityDouble, h1, h2, if_false, rawScoreDouble_login,
    rawScoreDouble_readme]
  have hx1 : s ≤ raiseDouble (isMatchMentioned "src/auth/login.ts" loginSummary "JWT") 0.2 s := by
    cases isMatchMentioned "src/auth/login.ts" loginSummary "JWT" with
    | false => exact le_refl s
    | true =>
      rw [raiseDouble_true]
      exact (double_gap_above s _ hsabs (by rw [hstep]; linarith)).le
  have hL : s < roundDouble
      (raiseDouble (isMatchMentioned "src/auth/login.ts" loginSummary "JWT") 0.2 s +
        roundDouble 0.15) :=
    double_gap_above s _ hsabs (by rw [hstep]; linarith)
  have hy1 : roundDouble (s - roundDouble 0.3) < s - roundDouble 0.3 + 1 / 32 := by
    apply double_gap_below
    · rw [abs_le]
      constructor <;> linarith
    · rw [hstep]
  have hR : raiseDouble (isMatchMentioned "readme.md" readmeSummary "JWT") 0.2
      (roundDouble (s - roundDouble 0.3)) < s := by
    cases isMatchMentioned "readme.md" readmeSummary "JWT" with
    | false =>
      rw [raiseDouble_false]
      linarith
    | true =>
      rw [raiseDouble_true]
      exact double_gap_below s _ hsabs (by rw [hstep]; linarith)
  rw [max_lt_iff]
  constructor
  · rw [lt_max_iff]
    right
    linarith
  · rw [lt_max_iff]
    right
    linarith

theorem calculateFilePriorityDouble_login_above_readme_witness :
    ((0 : ℚ) ≤ 1/2 ∧ (1/2 : ℚ) ≤ 2 ^ 47) ∧
    calculateFilePriorityDouble
        { fileName := some "README.md", sourceCode := "# OEngine",
          summary := some "Project overview; JWT setup notes", similarity := 1/2 } jwtIssue <
      calculateFilePriorityDouble
        { fileName := some "src/auth/login.ts", sourceCode := "export const login = 1;",
          summary := some "login handler", similarity := 1/2 } jwtIssue :=
  ⟨⟨by norm_num, by norm_num⟩,
    calculateFilePriorityDouble_login_above_readme (1/2) (by norm_num) (by norm_num) _ _ _ _⟩

/-! ## Scoring engine on doubles: the adjustments of a file -/

theorem score_api_users_at_zero (sourceCode : String) :
    calculateFilePriorityDouble
        { fileName := some "src/api/users.ts", sourceCode := sourceCode, summary := none,
          similarity := 0 } "" = 8106479329266892 * 2 ^ (-54 : Int) := by
  have hname : ("src/api/users.ts" : String) ≠ "" := by decide
  have ha1 : roundDouble (5404319552844595 * 2 ^ (-55 : Int)) =
      5404319552844595 * 2 ^ (-55 : Int) := by
    have := roundDouble_fix 5404319552844595 (-55) (by norm_num) (by norm_num)
    exact_mod_cast this
  have ha2 : roundDouble (5404319552844595 * 2 ^ (-55 : Int) + 5404319552844595 * 2 ^ (-55 : Int)) =
      5404319552844595 * 2 ^ (-54 : Int) :=
    roundDouble_eq_of_lt _ (-2) (-54) 5404319552844595 (by norm_num) (by norm_num)
      (by norm_num) (by norm_num) (by norm_num) (by norm_num)
  have ha3 : roundDouble (5404319552844595 * 2 ^ (-54 : Int) + 5404319552844595 * 2 ^ (-55 : Int)) =
      8106479329266892 * 2 ^ (-54 : Int) :=
    roundDouble_eq_of_tie _ (-2) (-54) 8106479329266892 (by norm_num) (by norm_num)
      (by norm_num) (by norm_num) (by norm_num) (by decide)
  simp only [calculateFilePriorityDouble, hname, if_false, rawScoreDouble_api_users, double_015,
    zero_add, ha1, ha2, ha3]
  norm_num

theorem score_api_users_at_half (sourceCode : String) :
    calculateFilePriorityDouble
        { fileName := some "src/api/users.ts", sourceCode := sourceCode, summary := none,
          similarity := 1/2 } "" = 8556839292003943 * 2 ^ (-53 : Int) := by
  have hname : ("src/api/users.ts" : String) ≠ "" := by decide
  have ha1 : roundDouble (1/2 + 5404319552844595 * 2 ^ (-55 : Int)) =
      5854679515581645 * 2 ^ (-53 : Int) :=
    roundDouble_eq_of_lt _ (-1) (-53) 5854679515581645 (by norm_num) (by norm_num)
      (by norm_num) (by norm_num) (by norm_num) (by norm_num)
  have ha2 : roundDouble (5854679515581645 * 2 ^ (-53 : Int) + 5404319552844595 * 2 ^ (-55 : Int)) =
      7205759403792794 * 2 ^ (-53 : Int) :=
    roundDouble_eq_of_lt _ (-1) (-53) 7205759403792794 (by norm_num) (by norm_num)
      (by norm_num) (by norm_num) (by norm_num) (by norm_num)
  have ha3 : roundDouble (7205759403792794 * 2 ^ (-53 : Int) + 5404319552844595 * 2 ^ (-55 : Int)) =
      8556839292003943 * 2 ^ (-53 : Int) :=
    roundDouble_eq_of_lt _ (-1) (-53) 8556839292003943 (by norm_num) (by norm_num)
      (by norm_num) (by norm_num) (by norm_num) (by norm_num)
  simp only [calculateFilePriorityDouble, hname, if_false, rawScoreDouble_api_users, double_015,
    ha1, ha2, ha3]
  norm_num

/-- C26 (counterexample): for the file 'src/api/users.ts' and the empty issue
text the score is 0.44999999999999996 = 8106479329266892 / 2^54 at similarity 0
and 0.9500000000000001 = 8556839292003943 / 2^53 at similarity 1/2, and no
single adjustment d gives both as max(0, s + d): neither with the sum rounded
to the nearest double (for d with max(0, 0 + d) = 0.44999999999999996 the sum
1/2 + d rounds to 0.95 = 8556839292003942 / 2^53) nor with the exact sum. -/
theorem no_single_adjustment :
    calculateFilePriorityDouble
        { fileName := some "src/api/users.ts", sourceCode := "", summary := none,
          similarity := 0 } "" = 8106479329266892 * 2 ^ (-54 : Int) ∧
    calculateFilePriorityDouble
        { fileName := some "src/api/users.ts", sourceCode := "", summary := none,
          similarity := 1/2 } "" = 8556839292003943 * 2 ^ (-53 : Int) ∧
    (¬ ∃ d : ℚ,
      calculateFilePriorityDouble
          { fileName := some "src/api/users.ts", sourceCode := "", summary := none,
            similarity := 0 } "" = max 0 (roundDouble (0 + d)) ∧
      calculateFilePriorityDouble
          { fileName := some "src/api/users.ts", sourceCode := "", summary := none,
            similarity := 1/2 } "" = max 0 (roundDouble (1/2 + d))) ∧
    (¬ ∃ d : ℚ,
      calculateFilePriorityDouble
          { fileName := some "src/api/users.ts", sourceCode := "", summary := none,
            similarity := 0 } "" = max 0 (0 + d) ∧
      calculateFilePriorityDouble
          { fileName := some "src/api/users.ts", sourceCode := "", summary := none,
            similarity := 1/2 } "" = max 0 (1/2 + d)) := by
  refine ⟨score_api_users_at_zero "", score_api_users_at_half "", ?_, ?_⟩
  · rintro ⟨d, h0, h1⟩
    rw [score_api_users_at_zero, zero_add] at h0
    rw [score_api_users_at_half] at h1
    have hpos0 : (0 : ℚ) < 8106479329266892 * 2 ^ (-54 : Int) := by norm_num
    have hpos1 : (0 : ℚ) < 8556839292003943 * 2 ^ (-53 : Int) := by norm_num
    have hd : roundDouble d = 8106479329266892 * 2 ^ (-54 : Int) := by
      rcases max_choice 0 (roundDouble d) with hm | hm
      · rw [hm] at h0; linarith
      · rw [hm] at h0; exact h0.symm
    have hsum : roundDouble (1/2 + d) = 8556839292003943 * 2 ^ (-53 : Int) := by
      rcases max_choice 0 (roundDouble (1/2 + d)) with hm | hm
      · rw [hm] at h1; linarith
      · rw [hm] at h1; exact h1.symm
    have hquarter : roundDouble (1/4) = 1/4 := by
      have := roundDouble_fix 1 (-2) (by norm_num) (by norm_num)
      norm_num at this
      exact this
    have hhalf : roundDouble (1/2) = 1/2 := by
      have := roundDouble_fix 1 (-1) (by norm_num) (by norm_num)
      norm_num at this
      exact this
    have hlow : (1 : ℚ) / 4 ≤ d := by
      by_contra hlt
      have := roundDouble_mono (le_of_lt (not_le.mp hlt))
      rw [hd, hquarter] at this
      norm_num at this
    have hhigh : d < 1 / 2 := by
      by_contra hge
      have := roundDouble_mono (not_lt.mp hge)
      rw [hd, hhalf] at this
      norm_num at this
    have herr := roundDouble_sub_le d (-2) (-54) (by linarith) (by norm_num; linarith)
      (by norm_num; linarith) (by norm_num)
    rw [hd] at herr
    have hbound : d ≤ 8106479329266892 * 2 ^ (-54 : Int) + 2 ^ (-54 : Int) / 2 := by
      have := (abs_le.mp herr).1
      linarith
    have hround : roundDouble
        (1/2 + (8106479329266892 * 2 ^ (-54 : Int) + 2 ^ (-54 : Int) / 2)) =
        8556839292003942 * 2 ^ (-53 : Int) :=
      roundDouble_eq_of_lt _ (-1) (-53) 8556839292003942 (by norm_num) (by norm_num)
        (by norm_num) (by norm_num) (by norm_num) (by norm_num)
    have hle := roundDouble_mono
      (show 1/2 + d ≤ 1/2 + (8106479329266892 * 2 ^ (-54 : Int) + 2 ^ (-54 : Int) / 2) by
        linarith)
    rw [hsum, hround] at hle
    norm_num at hle
  · rintro ⟨d, h0, h1⟩
    rw [score_api_users_at_zero, zero_add] at h0
    rw [score_api_users_at_half] at h1
    have hd : d = 8106479329266892 * 2 ^ (-54 : Int) := by
      rcases max_choice 0 d with hm | hm
      · rw [hm] at h0; norm_num at h0
      · rw [hm] at h0; exact h0.symm
    rw [hd] at h1
    norm_num at h1

theorem addDoubles_mono (adjustments : List ℚ) :
    ∀ s t : ℚ, s ≤ t → addDoubles adjustments s ≤ addDoubles adjustments t := by
  induction adjustments with
  | nil => intro s t h; exact h
  | cons delta rest ih =>
    intro s t h
    simp only [addDoubles, List.foldl_cons] at ih ⊢
    exact ih _ _ (roundDouble_mono (by linarith))

theorem addDoubles_append (front back : List ℚ) (s : ℚ) :
    addDoubles (front ++ back) s = addDoubles back (addDoubles front s) := by
  simp [addDoubles, List.foldl_append]

theorem chain_start :
    ∃ adjustments : List ℚ, (∀ delta ∈ adjustments, IsAdjustment delta) ∧
      ∀ s : ℚ, s = addDoubles adjustments s :=
  ⟨[], by simp, fun _ => rfl⟩

theorem chain_raise (cond : Bool) (c : ℚ) (hc : c ∈ scoreLiterals) (before : ℚ → ℚ)
    (h : ∃ adjustments : List ℚ, (∀ delta ∈ adjustments, IsAdjustment delta) ∧
      ∀ s : ℚ, before s = addDoubles adjustments s) :
    ∃ adjustments : List ℚ, (∀ delta ∈ adjustments, IsAdjustment delta) ∧
      ∀ s : ℚ, raiseDouble cond c (before s) = addDoubles adjustments s := by
  obtain ⟨adjustments, hall, hsum⟩ := h
  cases cond with
  | false => exact ⟨adjustments, hall, fun s => by rw [raiseDouble_false, hsum]⟩
  | true =>
    refine ⟨adjustments ++ [roundDouble c], ?_, fun s => ?_⟩
    · intro delta hdelta
      rcases List.mem_append.mp hdelta with hmem | hmem
      · exact hall delta hmem
      · rw [List.mem_singleton] at hmem
        exact ⟨c, hc, Or.inl hmem⟩
    · rw [raiseDouble_true, hsum, addDoubles_append]
      rfl

theorem chain_lower (cond : Bool) (c : ℚ) (hc : c ∈ scoreLiterals) (before : ℚ → ℚ)
    (h : ∃ adjustments : List ℚ, (∀ delta ∈ adjustments, IsAdjustment delta) ∧
      ∀ s : ℚ, before s = addDoubles adjustments s) :
    ∃ adjustments : List ℚ, (∀ delta ∈ adjustments, IsAdjustment delta) ∧
      ∀ s : ℚ, lowerDouble cond c (before s) = addDoubles adjustments s := by
  obtain ⟨adjustments, hall, hsum⟩ := h
  cases cond with
  | false => exact ⟨adjustments, hall, fun s => by rw [lowerDouble_false, hsum]⟩
  | true =>
    refine ⟨adjustments ++ [-roundDouble c], ?_, fun s => ?_⟩
    · intro delta hdelta
      rcases List.mem_append.mp hdelta with hmem | hmem
      · exact hall delta hmem
      · rw [List.mem_singleton] at hmem
        exact ⟨c, hc, Or.inr hmem⟩
    · rw [lowerDouble_true, hsum, addDoubles_append, sub_eq_add_neg]
      rfl

theorem chain_matchBoosts (filePath : String) (summary : Option String) (found : List String) :
    ∀ before : ℚ → ℚ,
      (∃ adjustments : List ℚ, (∀ delta ∈ adjustments, IsAdjustment delta) ∧
        ∀ s : ℚ, before s = addDoubles adjustments s) →
      ∃ adjustments : List ℚ, (∀ delta ∈ adjustments, IsAdjustment delta) ∧
        ∀ s : ℚ, matchBoostsDouble filePath summary found (before s) =
          addDoubles adjustments s := by
  induction found with
  | nil => intro before h; exact h
  | cons m rest ih =>
    intro before h
    have hstep := chain_raise (isMatchMentioned filePath summary m) 0.2
      (by simp [scoreLiterals]) before h
    exact ih _ hstep

theorem rawScoreDouble_chain (fileName : String) (summary : Option String)
    (issueDescription : String) :
    ∃ adjustments : List ℚ, (∀ delta ∈ adjustments, IsAdjustment delta) ∧
      ∀ s : ℚ, rawScoreDouble fileName summary s issueDescription =
        addDoubles adjustments s := by
  simp only [rawScoreDouble]
  iterate 11
    refine chain_raise _ _ ?_ _ ?_
    · simp [scoreLiterals]
  refine chain_matchBoosts _ _ _ _ ?_
  iterate 13
    refine chain_raise _ _ ?_ _ ?_
    · simp [scoreLiterals]
  iterate 9
    refine chain_lower _ _ ?_ _ ?_
    · simp [scoreLiterals]
  exact chain_start

/-- C26 (amended): for every non-empty fileName, summary and issue text there
is a single list of adjustments, depending only on those three and not on the
similarity, each the double of one of the literals 0.4, 0.3, 0.2, 0.15, 0.1,
0.05 or its negative, such that for every similarity s calculateFilePriority
returns max(0, ·) of the sum obtained by adding the adjustments to s one after
the other, each sum rounded to the nearest double; consequently the score is
monotonically non-decreasing in the similarity. -/
theorem calculateFilePriorityDouble_adjustments (fileName : String) (hname : fileName ≠ "")
    (summary : Option String) (issueDescription : String) :
    ∃ adjustments : List ℚ,
      (∀ delta ∈ adjustments, IsAdjustment delta) ∧
      (∀ (s : ℚ) (sourceCode : String),
        calculateFilePriorityDouble
          { fileName := some fileName, sourceCode := sourceCode, summary := summary,
            similarity := s } issueDescription = max 0 (addDoubles adjustments s)) ∧
      (∀ (s t : ℚ) (sourceCode : String), s ≤ t →
        calculateFilePriorityDouble
          { fileName := some fileName, sourceCode := sourceCode, summary := summary,
            similarity := s } issueDescription ≤
        calculateFilePriorityDouble
          { fileName := some fileName, sourceCode := sourceCode, summary := summary,
            similarity := t } issueDescription) := by
  obtain ⟨adjustments, hall, hsum⟩ := rawScoreDouble_chain fileName summary issueDescription
  have hscore : ∀ (s : ℚ) (sourceCode : String),
      calculateFilePriorityDouble
        { fileName := some fileName, sourceCode := sourceCode, summary := summary,
          similarity := s } issueDescription = max 0 (addDoubles adjustments s) := by
    intro s sourceCode
    simp only [calculateFilePriorityDouble, hname, if_false]
    rw [hsum]
  refine ⟨adjustments, hall, hscore, ?_⟩
  intro s t sourceCode hst
  rw [hscore, hscore]
  exact max_le_max (le_refl 0) (addDoubles_mono adjustments s t hst)

theorem calculateFilePriorityDouble_adjustments_witness :
    ("src/api/users.ts" : String) ≠ "" ∧
    ∃ adjustments : List ℚ, ∀ (s : ℚ) (sourceCode : String),
      calculateFilePriorityDouble
        { fileName := some "src/api/users.ts", sourceCode := sourceCode, summary := none,
          similarity := s } "" = max 0 (addDoubles adjustments s) :=
  ⟨by decide,
    (calculateFilePriorityDouble_adjustments "src/api/users.ts" (by decide) none "").imp
      (fun _ h => h.2.1)⟩

/-! ## Fix generator: an empty list of line edits -/

theorem foldl_applyChange_out_of_range (edits : List LineChange) :
    ∀ fixedLines : List String,
      (∀ change ∈ edits, (fixedLines.length : Int) + 1 < change.lineNumber) →
      edits.foldl applyChange fixedLines = fixedLines := by
  induction edits with
  | nil => intro _ _; rfl
  | cons change rest ih =>
    intro fixedLines h
    have hchange := h change (List.mem_cons_self _ _)
    rw [List.foldl_cons,
      applyChange_out_of_range fixedLines change (by omega) (fun _ => hchange)]
    exact ih fixedLines (fun other hother => h other (List.mem_cons_of_mem _ hother))

/-- C5 (counterexample): for the ten-line file and a reply that asks for a fix
with an empty list of line edits, generateFileFix does not return the original
text: the patch step is skipped and fixedCode is null. -/
theorem generateFileFix_zero_edits_null :
    (generateFileFix tenLineFile
      (.parsed { needsFix := some true, explanation := some "nothing to change",
                 changes := some [], lineChanges := some [] })).fixedCode = none ∧
    (generateFileFix tenLineFile
      (.parsed { needsFix := some true, explanation := some "nothing to change",
                 changes := some [], lineChanges := some [] })).fixedCode ≠
      some tenLineFile.sourceCode := by
  constructor
  · rfl
  · intro h
    have hnone : (generateFileFix tenLineFile
      (.parsed { needsFix := some true, explanation := some "nothing to change",
                 changes := some [], lineChanges := some [] })).fixedCode = none := rfl
    rw [hnone] at h
    exact Option.noConfusion h

/-- C5 (amended): for every original text, a reply with an empty list of line
edits never reaches the patch step (split the text on newline, apply the edits,
rejoin with newline), which line 655 runs for a non-empty list only:
generateFileFix returns fixedCode = null and lineChanges = []; and for a reply
that needs a fix with a non-empty list of line edits none of which takes effect
(every lineNumber greater than n + 1 on a text of n lines), the patch step runs
and returns the original text unchanged. -/
theorem generateFileFix_no_effective_edits (file : FileReference) (fixData : FixData) :
    (fixData.lineChanges.getD [] = [] →
      (generateFileFix file (.parsed fixData)).fixedCode = none ∧
      (generateFileFix file (.parsed fixData)).lineChanges = [] ∧
      (generateFileFix file (.parsed fixData)).needsFix = fixData.needsFix.getD false) ∧
    (∀ edits : List LineChange, edits ≠ [] →
      fixData.needsFix = some true →
      fixData.lineChanges = some (edits.map some) →
      (∀ change ∈ edits,
        ((splitLines file.sourceCode).length : Int) + 1 < change.lineNumber) →
      (generateFileFix file (.parsed fixData)).fixedCode = some file.sourceCode) := by
  constructor
  · intro hempty
    have hguard : ¬ ((sanitizeFix fixData).needsFix = true ∧
        0 < (sanitizeFix fixData).lineChanges.length) := by
      have hl : (sanitizeFix fixData).lineChanges = [] := hempty
      rw [hl]
      simp
    have hresult : generateFileFix file (.parsed fixData) = sanitizeFix fixData := by
      unfold generateFileFix
      simp only
      rw [if_neg hguard]
    rw [hresult]
    exact ⟨rfl, hempty, rfl⟩
  · intro edits hne hneeds hchanges hrange
    have hlen : 0 < (edits.map some).length := by
      rw [List.length_map]
      exact List.length_pos.mpr hne
    rw [generateFileFix_fixedCode, hneeds, hchanges]
    simp only [Option.getD_some]
    rw [if_pos ⟨trivial, hlen⟩, applyLineChanges_map_some,
      foldl_applyChange_out_of_range _ _
        (fun change hc => hrange change ((sortDesc_perm _ _).mem_iff.mp hc)),
      joinLines_splitLines]
    rfl

theorem generateFileFix_no_effective_edits_witness :
    (generateFileFix tenLineFile
      (.parsed { needsFix := some true, explanation := none, changes := none,
                 lineChanges := some [] })).fixedCode = none ∧
    (generateFileFix tenLineFile
      (.parsed { needsFix := some true, explanation := none, changes := none,
                 lineChanges := some ([LineChange.mk 12 "remove" none none,
                   LineChange.mk 40 "add" none (some "x")].map some) })).fixedCode =
      some tenLineFile.sourceCode :=
  ⟨((generateFileFix_no_effective_edits tenLineFile
      { needsFix := some true, explanation := none, changes := none,
        lineChanges := some [] }).1 rfl).1,
    (generateFileFix_no_effective_edits tenLineFile
      { needsFix := some true, explanation := none, changes := none,
        lineChanges := some ([LineChange.mk 12 "remove" none none,
          LineChange.mk 40 "add" none (some "x")].map some) }).2
      [LineChange.mk 12 "remove" none none, LineChange.mk 40 "add" none (some "x")]
      (by decide) rfl rfl (by decide)⟩

/-! ## Bracket repair of the matched object -/

theorem matchJsonObject_last (text jsonMatch : String)
    (h : matchJsonObject text = some jsonMatch) :
    jsonMatch.data.getLast? = some '\x7d' := by
  unfold matchJsonObject at h
  simp only at h
  split_ifs at h with hlen
  have hdata : jsonMatch.data =
      (((text.data.dropWhile (fun c => c != '\x7b')).reverse.dropWhile
        (fun c => c != '\x7d'))).reverse := by
    rw [← Option.some.inj h]
  rw [hdata, List.getLast?_reverse]
  cases hdrop : (text.data.dropWhile (fun c => c != '\x7b')).reverse.dropWhile
      (fun c => c != '\x7d') with
  | nil => simp [hdrop] at hlen
  | cons c rest =>
    have hhead := List.head_dropWhile_not (fun c => c != '\x7d')
      (text.data.dropWhile (fun c => c != '\x7b')).reverse (by simp [hdrop])
    simp only [hdrop, List.head_cons] at hhead
    have hc : c = '\x7d' := by simpa using hhead
    rw [List.head?_cons, hc]

/-- C23: for every input string of repairTruncatedJson, the string it returns,
scanned again by the same rules (string-literal state honoring backslash
escapes, running counts of braces and brackets outside literals), ends outside
any string literal and with no unmatched opening brace and no unmatched opening
bracket.  The inputs are the matches of the pattern of line 606 (the only call
is that of line 617), which end with a closing brace; the property is proved
for them, for every string whose last character is not a backslash, and for
every string whose scan does not end right after an escaping backslash. -/
theorem repairTruncatedJson_rescan_balanced (s : String) :
    ((∃ text : String, matchJsonObject text = some s) →
      (scanJson (repairTruncatedJson s)).inString = false ∧
      (scanJson (repairTruncatedJson s)).braceCount ≤ 0 ∧
      (scanJson (repairTruncatedJson s)).bracketCount ≤ 0) ∧
    (s.data.getLast? ≠ some '\\' →
      (scanJson (repairTruncatedJson s)).inString = false ∧
      (scanJson (repairTruncatedJson s)).braceCount ≤ 0 ∧
      (scanJson (repairTruncatedJson s)).bracketCount ≤ 0) ∧
    ((scanJson s).escaped = false →
      (scanJson (repairTruncatedJson s)).inString = false ∧
      (scanJson (repairTruncatedJson s)).braceCount ≤ 0 ∧
      (scanJson (repairTruncatedJson s)).bracketCount ≤ 0) := by
  refine ⟨?_, fun h => scan_repair_balanced s (scanJson_last_not_backslash s h),
    scan_repair_balanced s⟩
  rintro ⟨text, hmatch⟩
  apply scan_repair_balanced s
  apply scanJson_last_not_backslash
  rw [matchJsonObject_last text s hmatch]
  decide

theorem repairTruncatedJson_rescan_balanced_witness :
    matchJsonObject "Here is the fix: \x7b\"a\": [\x7b\"b\": \"x\x7d" =
      some "\x7b\"a\": [\x7b\"b\": \"x\x7d" ∧
    (scanJson "\x7b\"a\": [\x7b\"b\": \"x\x7d").inString = true ∧
    repairTruncatedJson "\x7b\"a\": [\x7b\"b\": \"x\x7d" =
      "\x7b\"a\": [\x7b\"b\": \"x\x7d\"]\x7d\x7d" ∧
    (scanJson (repairTruncatedJson "\x7b\"a\": [\x7b\"b\": \"x\x7d")).inString = false ∧
    (scanJson (repairTruncatedJson "\x7b\"a\": [\x7b\"b\": \"x\x7d")).braceCount ≤ 0 ∧
    (scanJson (repairTruncatedJson "\x7b\"a\": [\x7b\"b\": \"x\x7d")).bracketCount ≤ 0 :=
  ⟨by decide, by decide, by decide,
    (repairTruncatedJson_rescan_balanced "\x7b\"a\": [\x7b\"b\": \"x\x7d").1
      ⟨"Here is the fix: \x7b\"a\": [\x7b\"b\": \"x\x7d", by decide⟩⟩

/-! ## JSON texts and the repair of a text cut inside a string value -/

theorem modeOk_of_rest_nil (mode : JsonMode) (h : literalRest mode = []) : modeOk mode := by
  intro c hc
  rw [h] at hc
  exact absurd hc (List.not_mem_nil c)

theorem scanStep_plain (st : ScanState) (c : Char) (h1 : c ≠ '\\') (h2 : c ≠ '"')
    (h3 : c ≠ '\x7b') (h4 : c ≠ '\x7d') (h5 : c ≠ '[') (h6 : c ≠ ']') :
    scanStep st c = { st with escaped := false } := by
  obtain ⟨braces, brackets, inString, escaped⟩ := st
  cases escaped <;> cases inString <;> simp [scanStep, h1, h2, h3, h4, h5, h6]

theorem afterValueStep_plain (stack : List JsonFrame) (c : Char)
    (h4 : c ≠ '\x7d') (h6 : c ≠ ']') :
    (afterValueStep stack c).2 = stack := by
  unfold afterValueStep
  split_ifs
  · rfl
  · split <;> rfl
  · rfl

theorem afterValueStep_mode (stack : List JsonFrame) (c : Char) :
    (afterValueStep stack c).1 = .failed ∨ (afterValueStep stack c).1 = .afterValue ∨
    (afterValueStep stack c).1 = .value ∨ (afterValueStep stack c).1 = .key := by
  unfold afterValueStep
  split_ifs
  · simp
  · split <;> simp
  · split <;> simp
  · split <;> simp
  · simp


theorem scan_transition_plain (mode : JsonMode) (stack : List JsonFrame) (c : Char)
    (h1 : c ≠ '\\') (h2 : c ≠ '"') (h3 : c ≠ '\x7b') (h4 : c ≠ '\x7d') (h5 : c ≠ '[')
    (h6 : c ≠ ']') (h : (jsonTransition mode stack c).1 ≠ .failed) :
    scanStep (scanOf mode stack) c =
      scanOf (jsonTransition mode stack c).1 (jsonTransition mode stack c).2 := by
  rw [scanStep_plain _ c h1 h2 h3 h4 h5 h6]
  cases mode <;>
    simp only [jsonTransition, startValue, afterValueStep, h1, h2, h3, h4, h5, h6, if_false] at h ⊢ <;>
    (repeat' split) <;> simp_all [scanOf]


theorem literal_transition_special (rest : List Char) (stack : List JsonFrame) (c : Char)
    (hc : c = '\\' ∨ c = '"' ∨ c = '\x7b' ∨ c = '\x7d' ∨ c = '[' ∨ c = ']')
    (hok : modeOk (.literal rest)) :
    (jsonTransition (.literal rest) stack c).1 = .failed := by
  cases rest with
  | nil => rfl
  | cons expected more =>
    have hexp := hok expected (List.mem_cons_self _ _)
    have hne : c ≠ expected := by
      rcases hc with rfl | rfl | rfl | rfl | rfl | rfl <;>
        rcases hexp with rfl | rfl | rfl | rfl | rfl | rfl <;> decide
    simp [jsonTransition, hne]

theorem scan_transition_special (mode : JsonMode) (stack : List JsonFrame) (c : Char)
    (hc : c = '\\' ∨ c = '"' ∨ c = '\x7b' ∨ c = '\x7d' ∨ c = '[' ∨ c = ']')
    (hok : modeOk mode) (h : (jsonTransition mode stack c).1 ≠ .failed) :
    scanStep (scanOf mode stack) c =
      scanOf (jsonTransition mode stack c).1 (jsonTransition mode stack c).2 := by
  by_cases hlit : ∃ rest, mode = .literal rest
  · obtain ⟨rest, rfl⟩ := hlit
    exact absurd (literal_transition_special rest stack c hc hok) h
  · rcases hc with rfl | rfl | rfl | rfl | rfl | rfl <;>
      cases mode <;>
      simp +decide only [jsonTransition, startValue, afterValueStep, isJsonWhitespace, isJsonDigit,
        isJsonHexDigit, isJsonEscape, if_false, if_true] at h ⊢ <;>
      (repeat' split) <;> simp_all +decide [scanOf, scanStep, modeOk]

theorem scan_transition (mode : JsonMode) (stack : List JsonFrame) (c : Char)
    (hok : modeOk mode) (h : (jsonTransition mode stack c).1 ≠ .failed) :
    scanStep (scanOf mode stack) c =
      scanOf (jsonTransition mode stack c).1 (jsonTransition mode stack c).2 := by
  by_cases hc : c = '\\' ∨ c = '"' ∨ c = '\x7b' ∨ c = '\x7d' ∨ c = '[' ∨ c = ']'
  · exact scan_transition_special mode stack c hc hok h
  · simp only [not_or] at hc
    exact scan_transition_plain mode stack c hc.1 hc.2.1 hc.2.2.1 hc.2.2.2.1 hc.2.2.2.2.1
      hc.2.2.2.2.2 h

theorem literalRest_startValue (mode : JsonMode) (stack : List JsonFrame) (c : Char) :
    literalRest (startValue mode stack c).1 = literalRest mode ∨
    literalRest (startValue mode stack c).1 = [] ∨
    literalRest (startValue mode stack c).1 = ['r', 'u', 'e'] ∨
    literalRest (startValue mode stack c).1 = ['a', 'l', 's', 'e'] ∨
    literalRest (startValue mode stack c).1 = ['u', 'l', 'l'] := by
  simp only [startValue]
  (repeat' split) <;> simp [literalRest]


theorem modeOk_of_rest (mode : JsonMode)
    (h : literalRest mode = [] ∨ literalRest mode = ['r', 'u', 'e'] ∨
      literalRest mode = ['a', 'l', 's', 'e'] ∨ literalRest mode = ['u', 'l', 'l']) :
    modeOk mode := by
  intro c hc
  rcases h with h | h | h | h <;> rw [h] at hc <;> simp at hc <;>
    rcases hc with rfl | rfl | rfl | rfl <;> simp

theorem modeOk_startValue (mode : JsonMode) (stack : List JsonFrame) (c : Char)
    (hok : modeOk mode) : modeOk (startValue mode stack c).1 := by
  rcases literalRest_startValue mode stack c with h | h
  · intro x hx
    rw [h] at hx
    exact hok x hx
  · exact modeOk_of_rest _ h

theorem modeOk_afterValueStep (stack : List JsonFrame) (c : Char) :
    modeOk (afterValueStep stack c).1 := by
  rcases afterValueStep_mode stack c with h | h | h | h <;> rw [h] <;>
    exact modeOk_of_rest_nil _ rfl

theorem modeOk_transition (mode : JsonMode) (stack : List JsonFrame) (c : Char)
    (hok : modeOk mode) : modeOk (jsonTransition mode stack c).1 := by
  cases mode with
  | value => exact modeOk_startValue _ _ _ (modeOk_of_rest_nil _ rfl)
  | valueOrClose =>
    simp only [jsonTransition]
    split
    · split <;> exact modeOk_of_rest_nil _ rfl
    · exact modeOk_startValue _ _ _ (modeOk_of_rest_nil _ rfl)
  | afterValue => exact modeOk_afterValueStep _ _
  | literal rest =>
    cases rest with
    | nil => exact modeOk_of_rest_nil _ rfl
    | cons expected more =>
      simp only [jsonTransition]
      split
      · split
        · exact modeOk_of_rest_nil _ rfl
        · exact fun x hx => hok x (List.mem_cons_of_mem _ hx)
      · exact modeOk_of_rest_nil _ rfl
  | zero =>
    simp only [jsonTransition]
    (repeat' split) <;> first | exact modeOk_afterValueStep _ _ | exact modeOk_of_rest_nil _ rfl
  | integer =>
    simp only [jsonTransition]
    (repeat' split) <;> first | exact modeOk_afterValueStep _ _ | exact modeOk_of_rest_nil _ rfl
  | fraction =>
    simp only [jsonTransition]
    (repeat' split) <;> first | exact modeOk_afterValueStep _ _ | exact modeOk_of_rest_nil _ rfl
  | exponent =>
    simp only [jsonTransition]
    (repeat' split) <;> first | exact modeOk_afterValueStep _ _ | exact modeOk_of_rest_nil _ rfl
  | failed => exact modeOk_of_rest_nil _ rfl
  | _ =>
    simp only [jsonTransition]
    (repeat' split) <;> exact modeOk_of_rest_nil _ rfl


theorem jsonStep_mode (st : JsonState) (c : Char) :
    (jsonStep st c).mode = (jsonTransition st.mode st.stack c).1 := by
  unfold jsonStep
  simp only
  split
  · rename_i h
    rw [h]
  · split
    · rfl
    · split <;> rfl

theorem jsonStep_stack (st : JsonState) (c : Char)
    (h : (jsonTransition st.mode st.stack c).1 ≠ .failed) :
    (jsonStep st c).stack = (jsonTransition st.mode st.stack c).2 := by
  unfold jsonStep
  simp only
  rw [if_neg h]
  split
  · rfl
  · split <;> rfl

theorem jsonStep_failed (st : JsonState) (c : Char) (h : st.mode = .failed) :
    (jsonStep st c).mode = .failed := by
  rw [jsonStep_mode, h]
  rfl

theorem foldl_jsonStep_failed (text : List Char) :
    ∀ st : JsonState, st.mode = .failed → (text.foldl jsonStep st).mode = .failed := by
  induction text with
  | nil => intro st h; exact h
  | cons c rest ih =>
    intro st h
    exact ih _ (jsonStep_failed st c h)

/-- While the text is read without a failure, the bracket scan of lines 723-752
is in the state that corresponds to the place in the grammar. -/
theorem foldl_scan_of_json (text : List Char) :
    ∀ st : JsonState, modeOk st.mode → (text.foldl jsonStep st).mode ≠ .failed →
      text.foldl scanStep (scanOf st.mode st.stack) =
        scanOf (text.foldl jsonStep st).mode (text.foldl jsonStep st).stack := by
  induction text with
  | nil => intro st _ _; rfl
  | cons c rest ih =>
    intro st hok hrun
    rw [List.foldl_cons] at hrun ⊢
    have hstep : (jsonTransition st.mode st.stack c).1 ≠ .failed := by
      intro hfail
      apply hrun
      apply foldl_jsonStep_failed
      rw [jsonStep_mode, hfail]
    have hok2 : modeOk (jsonStep st c).mode := by
      rw [jsonStep_mode]
      exact modeOk_transition _ _ _ hok
    rw [List.foldl_cons, scan_transition st.mode st.stack c hok hstep,
      ← jsonStep_mode, ← jsonStep_stack st c hstep]
    exact ih (jsonStep st c) hok2 hrun

theorem scanJson_of_jsonRun (text : String) (h : (jsonRun text.data).mode ≠ .failed) :
    scanJson text = scanOf (jsonRun text.data).mode (jsonRun text.data).stack := by
  have := foldl_scan_of_json text.data
    { mode := .value, stack := [], member := [], members := [] }
    (modeOk_of_rest_nil _ rfl) h
  exact this

theorem jsonStep_members_kept (st : JsonState) (c : Char) :
    st.members <+: (jsonStep st c).members := by
  unfold jsonStep
  simp only
  split
  · exact List.prefix_refl _
  · split
    · exact List.prefix_append _ _
    · split <;> exact List.prefix_refl _

theorem foldl_members_kept (text : List Char) :
    ∀ st : JsonState, st.members <+: (text.foldl jsonStep st).members := by
  induction text with
  | nil => intro st; exact List.prefix_refl _
  | cons c rest ih =>
    intro st
    exact (jsonStep_members_kept st c).trans (ih _)


theorem jsonTransition_closing_brace (mode : JsonMode) (stack : List JsonFrame) :
    (∀ isKey, (jsonTransition mode stack '\x7d').1 ≠ .escape isKey) ∧
    (∀ isKey remaining, (jsonTransition mode stack '\x7d').1 ≠ .unicode isKey remaining) := by
  cases mode <;>
    simp +decide only [jsonTransition, startValue, afterValueStep, isJsonWhitespace, isJsonDigit,
      isJsonHexDigit, isJsonEscape, if_false, if_true] <;>
    (repeat' split) <;> simp

theorem jsonRun_concat (front : List Char) (c : Char) :
    jsonRun (front ++ [c]) = jsonStep (jsonRun front) c := by
  unfold jsonRun
  rw [List.foldl_append]
  rfl

theorem string_mode_of_closing_brace (text : List Char)
    (hlast : text.getLast? = some '\x7d') (h : insideTopLevelStringValue (jsonRun text)) :
    (jsonRun text).mode = .string false := by
  rcases List.eq_nil_or_concat text with hnil | ⟨front, c, htext⟩
  · rw [hnil] at hlast
    simp at hlast
  · rw [List.concat_eq_append] at htext
    have hc : c = '\x7d' := by
      rw [htext] at hlast
      simpa using hlast
    rw [htext, hc, jsonRun_concat] at h ⊢
    have hclose := jsonTransition_closing_brace (jsonRun front).mode (jsonRun front).stack
    rcases h.2 with hmode | hmode | ⟨remaining, hmode⟩
    · exact hmode
    · rw [jsonStep_mode] at hmode
      exact absurd hmode (hclose.1 false)
    · rw [jsonStep_mode] at hmode
      exact absurd hmode (hclose.2 false remaining)

theorem jsonStep_close_string (st : JsonState) (hstack : st.stack = [.object])
    (hmode : st.mode = .string false) :
    jsonStep (jsonStep st '"') '\x7d' =
      { mode := .afterValue, stack := [], member := []
        members := st.members ++ [String.mk (st.member.reverse ++ ['"'])] } := by
  obtain ⟨mode, stack, member, members⟩ := st
  simp only at hstack hmode
  subst hstack hmode
  simp +decide [jsonStep, jsonTransition, afterValueStep, isJsonWhitespace]

theorem jsonRun_repaired (truncated : String)
    (hstack : (jsonRun truncated.data).stack = [.object])
    (hmode : (jsonRun truncated.data).mode = .string false) :
    jsonRun (repairTruncatedJson truncated).data =
      { mode := .afterValue, stack := []
        member := []
        members := (jsonRun truncated.data).members ++
          [String.mk ((jsonRun truncated.data).member.reverse ++ ['"'])] } := by
  have hrun : (jsonRun truncated.data).mode ≠ .failed := by
    rw [hmode]
    exact JsonMode.noConfusion
  have hscan := scanJson_of_jsonRun truncated hrun
  rw [hmode, hstack] at hscan
  have hdata : (repairTruncatedJson truncated).data = truncated.data ++ ['"', '\x7d'] := by
    rw [repairTruncatedJson_data, hscan]
    rfl
  have hfold : jsonRun (truncated.data ++ ['"', '\x7d']) =
      jsonStep (jsonStep (jsonRun truncated.data) '"') '\x7d' := by
    unfold jsonRun
    rw [List.foldl_append]
    rfl
  rw [hdata, hfold, jsonStep_close_string _ hstack hmode]


/-- C12: for every JSON object text and every truncation point strictly inside
one of its top-level string values, where the truncated prefix ends with a
closing brace (as every string that repairTruncatedJson is called with does,
line 606) or, more generally, is not cut within an escape sequence,
repairTruncatedJson applied to the truncated prefix returns the prefix followed
by a quote and a closing brace, which JSON.parse accepts; the members of the
parsed object are the members that stood completely before the truncation
point, each with its original text and in order, followed by the truncated
member closed by the quote, and those earlier members are also the first
members of the original text. -/
theorem repairTruncatedJson_inside_string_value (original truncated : String) (rest : List Char)
    (hstart : original.data = truncated.data ++ rest)
    (hinside : insideTopLevelStringValue (jsonRun truncated.data))
    (hcut : truncated.data.getLast? = some '\x7d' ∨
      (jsonRun truncated.data).mode = .string false) :
    (repairTruncatedJson truncated).data = truncated.data ++ ['"', '\x7d'] ∧
    jsonAccepts (repairTruncatedJson truncated) = true ∧
    jsonMembers (repairTruncatedJson truncated) =
      (jsonRun truncated.data).members ++
        [String.mk ((jsonRun truncated.data).member.reverse ++ ['"'])] ∧
    (jsonRun truncated.data).members <+: jsonMembers original ∧
    (jsonRun truncated.data).members <+: jsonMembers (repairTruncatedJson truncated) := by
  have hmode : (jsonRun truncated.data).mode = .string false := by
    rcases hcut with hlast | hmode
    · exact string_mode_of_closing_brace _ hlast hinside
    · exact hmode
  have hrepaired := jsonRun_repaired truncated hinside.1 hmode
  have hrun : (jsonRun truncated.data).mode ≠ .failed := by
    rw [hmode]
    exact JsonMode.noConfusion
  have hscan := scanJson_of_jsonRun truncated hrun
  rw [hmode, hinside.1] at hscan
  have hdata : (repairTruncatedJson truncated).data = truncated.data ++ ['"', '\x7d'] := by
    rw [repairTruncatedJson_data, hscan]
    rfl
  have hmembers : jsonMembers (repairTruncatedJson truncated) =
      (jsonRun truncated.data).members ++
        [String.mk ((jsonRun truncated.data).member.reverse ++ ['"'])] := by
    unfold jsonMembers
    rw [hrepaired]
  refine ⟨hdata, ?_, hmembers, ?_, ?_⟩
  · unfold jsonAccepts
    rw [hrepaired]
    rfl
  · unfold jsonMembers
    rw [hstart]
    unfold jsonRun
    rw [List.foldl_append]
    exact foldl_members_kept rest _
  · rw [hmembers]
    exact List.prefix_append _ _

theorem repairTruncatedJson_inside_string_value_witness :
    jsonAccepts "\x7b\"a\": 1, \"b\": \"x\x7dy\"\x7d" = true ∧
    repairTruncatedJson "\x7b\"a\": 1, \"b\": \"x\x7d" = "\x7b\"a\": 1, \"b\": \"x\x7d\"\x7d" ∧
    jsonAccepts (repairTruncatedJson "\x7b\"a\": 1, \"b\": \"x\x7d") = true ∧
    jsonMembers (repairTruncatedJson "\x7b\"a\": 1, \"b\": \"x\x7d") =
      ["\"a\": 1", " \"b\": \"x\x7d\""] ∧
    jsonMembers "\x7b\"a\": 1, \"b\": \"x\x7dy\"\x7d" =
      ["\"a\": 1", " \"b\": \"x\x7dy\""] :=
  ⟨by decide, by decide,
    (repairTruncatedJson_inside_string_value "\x7b\"a\": 1, \"b\": \"x\x7dy\"\x7d"
      "\x7b\"a\": 1, \"b\": \"x\x7d" ['y', '"', '\x7d'] (by decide)
      ⟨by decide, Or.inl (by decide)⟩ (Or.inl (by decide))).2.1,
    by decide, by decide⟩

end OEngine
